import Mathlib

/-!
Verification development for the atmospheric-retrieval core of the `species`
package (`species/analysis/retrieval.py`, class `AtmosphericRetrieval`).

The embedding follows the source code:

* `set_parameters` (the parameter schema builder) is embedded as a pure
  function producing the ordered parameter-name list; like the source it
  APPENDS to the current `self.parameters` list (it never resets it).
* The nested `prior` closure of `run_multinest` is embedded as a pure
  function threading the parameter cube through the same sequence of
  conditional transforms, in the same order.
* The nested `loglike` closure is embedded as a pure function over the same
  cube, the dataset bundle, and the (external) radiative-transfer evaluator.

Modelling conventions, fixed once here:

* Machine floats are modelled as exact rationals (ℚ) for the prior-transform
  pipeline.  The likelihood pipeline additionally needs IEEE-style
  non-finite values (the reject sentinel is `-inf`, and NaN/Inf propagation
  is the subject of one claim), so flux and likelihood values live in an
  explicit extended domain `Val` with IEEE-like propagation rules.
* The parameter cube in the source is positional (`cube[cube_index[name]]`)
  with `cube_index` the name-to-index dictionary built from the ordered
  parameter list.  Since the names determine the slots bijectively, the
  embedding keys the cube by name; a lookup of a name that is absent from
  the schema (a Python `KeyError` on `cube_index`) is modelled as the
  explicit error `PErr.keyError`.
* A Python exception escaping from `prior`/`loglike` is modelled as the
  `Except.error` outcome; an ordinary return is `Except.ok`.
* Transcendental constants and library functions that appear in the source
  but have no exact rational value (log10, inverse-gamma quantile, the
  quarter-power Eddington closed form) are represented by clearly documented
  rational surrogate definitions.  No claim settled below depends on the
  numeric values of those surrogates, only on how the surrounding code uses
  them.
-/

deriving instance DecidableEq for Except

/-- IEEE-style extended value domain for the likelihood pipeline: a finite
rational, the two infinities, or NaN.  The reject sentinel `-np.inf` of the
source is `Val.negInf`. -/
inductive Val where
  | num : ℚ → Val
  | posInf : Val
  | negInf : Val
  | nan : Val
  deriving DecidableEq, Repr

namespace Val

/-- IEEE addition: NaN propagates, opposite infinities give NaN. -/
def add : Val → Val → Val
  | num a, num b => num (a + b)
  | nan, _ => nan
  | _, nan => nan
  | posInf, negInf => nan
  | negInf, posInf => nan
  | posInf, _ => posInf
  | _, posInf => posInf
  | negInf, _ => negInf
  | _, negInf => negInf

/-- IEEE multiplication: NaN propagates, `0 * ±inf = NaN`, sign rules. -/
def mul : Val → Val → Val
  | num a, num b => num (a * b)
  | nan, _ => nan
  | _, nan => nan
  | posInf, posInf => posInf
  | posInf, negInf => negInf
  | negInf, posInf => negInf
  | negInf, negInf => posInf
  | num a, posInf => if a > 0 then posInf else if a < 0 then negInf else nan
  | num a, negInf => if a > 0 then negInf else if a < 0 then posInf else nan
  | posInf, num a => if a > 0 then posInf else if a < 0 then negInf else nan
  | negInf, num a => if a > 0 then negInf else if a < 0 then posInf else nan

/-- IEEE negation. -/
def neg : Val → Val
  | num a => num (-a)
  | posInf => negInf
  | negInf => posInf
  | nan => nan

/-- IEEE subtraction. -/
def sub (a b : Val) : Val := add a (neg b)

/-- IEEE division, restricted to the cases that arise in the embedding:
division by a nonzero finite value; `x / 0` and divisions involving NaN or
infinite divisors follow the usual propagation rules. -/
def div : Val → Val → Val
  | nan, _ => nan
  | _, nan => nan
  | num a, num b =>
      if b = 0 then (if a = 0 then nan else if a > 0 then posInf else negInf)
      else num (a / b)
  | posInf, num b => if b ≥ 0 then posInf else negInf
  | negInf, num b => if b ≥ 0 then negInf else posInf
  | num _, posInf => num 0
  | num _, negInf => num 0
  | posInf, posInf => nan
  | posInf, negInf => nan
  | negInf, posInf => nan
  | negInf, negInf => nan

/-- `np.isnan`. -/
def isnan : Val → Bool
  | nan => true
  | _ => false

/-- Sum of a list of values, IEEE style (`np.sum`). -/
def vsum (l : List Val) : Val := l.foldl add (num 0)

/-- Dot product of two value vectors (`np.dot`). -/
def vdot (a b : List Val) : Val := vsum (List.zipWith mul a b)

end Val

/-- Errors with which a Python exception escaping `prior` or `loglike` is
modelled: a `KeyError` on the `cube_index` dictionary, an
`UnboundLocalError`/`NameError` on a local variable, or a failure raised by
the external radiative-transfer evaluator. -/
inductive PErr where
  | keyError (name : String) : PErr
  | nameError (name : String) : PErr
  | rtFailure : PErr
  deriving DecidableEq, Repr

/-- A value of the `bounds` dictionary: either a scalar-parameter range
`(low, high)` or a per-dataset triple of optional ranges
(flux scaling, error inflation, wavelength calibration). -/
inductive BVal where
  | range : ℚ → ℚ → BVal
  | triple : Option (ℚ × ℚ) → Option (ℚ × ℚ) → Option (ℚ × ℚ) → BVal
  deriving DecidableEq, Repr

/-- The `bounds` dictionary. -/
def Bounds := List (String × BVal)

/-- Dictionary lookup in `bounds`. -/
def Bounds.find (b : Bounds) (n : String) : Option BVal :=
  (List.lookup n b)

/-- The `(low, high)` pair stored in `bounds` for a scalar parameter, if
present with that shape.  (A dataset triple stored under a scalar parameter
name would make the source crash with a `TypeError`; the embedding treats it
as absent.  Theorems that involve nonempty bounds assume well-shaped bounds.) -/
def Bounds.scalar (b : Bounds) (n : String) : Option (ℚ × ℚ) :=
  match b.find n with
  | some (BVal.range lo hi) => some (lo, hi)
  | _ => none

/-- The slot `i ∈ {0,1,2}` of the dataset triple stored in `bounds` for a
dataset name, if present with that shape (`bounds[item][i]`). -/
def Bounds.slot (b : Bounds) (n : String) (i : Nat) : Option (ℚ × ℚ) :=
  match b.find n with
  | some (BVal.triple a c d) => (if i = 0 then a else if i = 1 then c else d)
  | _ => none

/-- The parameter cube, keyed by parameter name (see the header comment:
the positional cube plus the `cube_index` dictionary of the source form a
name-keyed store). -/
def Cube := String → ℚ

/-- `cube[cube_index[name]]`: reading a name absent from the schema is the
`KeyError` of the source. -/
def getP (params : List String) (c : Cube) (n : String) : Except PErr ℚ :=
  if n ∈ params then Except.ok (c n) else Except.error (PErr.keyError n)

/-- `cube[cube_index[name]] = v`. -/
def setP (params : List String) (c : Cube) (n : String) (v : ℚ) :
    Except PErr Cube :=
  if n ∈ params then Except.ok (fun m => if m = n then v else c m)
  else Except.error (PErr.keyError n)

/-! ## Parameter schema builder: `AtmosphericRetrieval.set_parameters` -/

/-- The names of the fifteen temperature knots of the `free`/`monotonic`
pressure-temperature profiles (`f't{i}'` in the source). -/
def tName (i : Nat) : String := "t" ++ toString i

/-- The pressure-temperature block of the schema (source lines 225-239). -/
def ptBlock (pt_profile : String) : List String :=
  if pt_profile = "molliere" then
    ["tint", "t1", "t2", "t3", "alpha", "log_delta"]
  else if pt_profile = "free" ∨ pt_profile = "monotonic" then
    (List.range 15).map tName ++
      (if pt_profile = "free" then ["gamma_r", "beta_r"] else [])
  else []

/-- The abundance block of the schema (source lines 243-251). -/
def chemBlock (chemistry : String) (line_species : List String) : List String :=
  if chemistry = "equilibrium" then ["metallicity", "c_o_ratio"]
  else if chemistry = "free" then line_species
  else []

/-- The cloud block of the schema (source lines 258-273): one mass-fraction
parameter per recognized condensate present in the configured set, then the
three cloud-structure parameters. -/
def cloudBlock (cloud_species : List String) : List String :=
  if cloud_species ≠ [] then
    (if "Fe(c)_cd" ∈ cloud_species then ["fe_fraction"] else []) ++
    (if "MgSiO3(c)_cd" ∈ cloud_species then ["mgsio3_fraction"] else []) ++
    (if "Na2S(c)_cd" ∈ cloud_species then ["na2s_fraction"] else []) ++
    (if "KCL(c)_cd" ∈ cloud_species then ["kcl_fraction"] else []) ++
    ["fsed", "kzz", "sigma_lnorm"]
  else []

/-- One per-dataset nuisance loop of `set_parameters` (source lines 277-294):
for each dataset whose bounds triple has slot `i`, append the parameter
`pre ++ name`. -/
def nuisanceBlock (spectrumNames : List String) (bounds : Bounds)
    (i : Nat) (pre : String) : List String :=
  spectrumNames.filterMap fun item =>
    if (bounds.slot item i).isSome then some (pre ++ item) else none

/-- The full ordered list of names appended by one `set_parameters` call. -/
def setParametersList (spectrumNames line_species cloud_species : List String)
    (bounds : Bounds) (chemistry : String) (quenching : Bool)
    (pt_profile : String) : List String :=
  ["logg", "radius"] ++
  ptBlock pt_profile ++
  chemBlock chemistry line_species ++
  (if quenching then ["log_p_quench"] else []) ++
  cloudBlock cloud_species ++
  nuisanceBlock spectrumNames bounds 0 "scaling_" ++
  nuisanceBlock spectrumNames bounds 1 "error_" ++
  nuisanceBlock spectrumNames bounds 2 "wavelength_"

/-- `AtmosphericRetrieval.set_parameters`: raises a `ValueError` when cloud
species are combined with non-equilibrium chemistry (source lines 214-216);
otherwise APPENDS the enumerated names to the current `self.parameters` list
`params0` (the source never clears the list). -/
def set_parameters (params0 : List String)
    (spectrumNames line_species cloud_species : List String)
    (bounds : Bounds) (chemistry : String) (quenching : Bool)
    (pt_profile : String) : Except String (List String) :=
  if cloud_species ≠ [] ∧ chemistry ≠ "equilibrium" then
    Except.error "Clouds are currently only implemented in combination with equilibrium chemistry."
  else
    Except.ok (params0 ++ setParametersList spectrumNames line_species
      cloud_species bounds chemistry quenching pt_profile)

/-! ## Surrogate constants and library functions

Rational stand-ins for transcendental quantities of the source.  Each is
used only through the code structure around it; no theorem below depends on
its numeric value. -/

/-- Rational surrogate for `np.log10(0.05) ≈ -1.3010`, the lower edge of the
log-uniform cloud mass-fraction prior. -/
def log10_005 : ℚ := -13010 / 10000

/-- Rational surrogate for the connection-temperature coefficient
`(3/4 * (0.1 + 2/3))**0.25 = (23/40)^(1/4) ≈ 0.8708` of the Molliere
profile (`t_connect = coef * tint`, source line 494). -/
def tConnectCoef : ℚ := 8708 / 10000

/-- `10.**x`: exact for integer `x` and a linear-interpolation rational
surrogate between integers (`10^⌊x⌋ * (1 + 9*(x-⌊x⌋))`). -/
def pow10 (x : ℚ) : ℚ := (10 : ℚ) ^ (⌊x⌋) * (1 + 9 * (x - ⌊x⌋))

/-- Rational surrogate for `scipy.stats.invgamma.ppf(q, a=1, scale=b)`
(the true quantile is `b / (-ln q)`, transcendental); the surrogate keeps
the dependence on both arguments. -/
def invgamma_ppf (q b : ℚ) : ℚ := b * q / (1 - q)

/-- Rational surrogate for the natural logarithm used in the Gaussian
normalisation terms; its values are never the subject of a claim. -/
def qlog (x : ℚ) : ℚ := x - 1

/-- Rational surrogate for π. -/
def piQ : ℚ := 355 / 113

/-- Modelled from the spec: `species.util.retrieval_util.potassium_abundance`
is not under `src/`; per the spec the potassium log-abundance is "derived
from sodium-bearing species abundances via a fixed empirical relation".
The surrogate reads whichever sodium variant is present in the
free-abundance dictionary and applies a fixed offset (stand-in for the solar
K/Na ratio). -/
def potassium_abundance (log_x_abund : List (String × ℚ)) : ℚ :=
  (((List.lookup "Na" log_x_abund).orElse fun _ =>
    (List.lookup "Na_lor_cut" log_x_abund).orElse fun _ =>
      List.lookup "Na_burrows" log_x_abund).getD 0) + (-11 / 10)

/-- Modelled from the spec: `retrieval_util.calc_metal_ratio` is not under
`src/`; it computes the C/H and O/H elemental ratios from the free
abundances.  Rational surrogate keeping the dependence on the dictionary. -/
def calcMetalRatios (log_x_abund : List (String × ℚ)) : ℚ × ℚ :=
  (((log_x_abund.map Prod.snd).sum) / 2, ((log_x_abund.map Prod.snd).sum) / 3)

/-- Modelled from the spec: `retrieval_util.log_x_cloud_base` is not under
`src/`; it "resolves per-species cloud base mass fraction from C/O,
metallicity, and the configured fraction parameters".  Rational surrogate
keeping all three dependences. -/
def log_x_cloud_base (c_o met : ℚ) (cloud_fractions : List (String × ℚ)) :
    List (String × ℚ) :=
  cloud_fractions.map fun kv => (kv.1, kv.2 + met + c_o / 100)

/-- The external petitRADTRANS `Radtrans` constructor converts the cloud
species names in the shared `self.cloud_species` list (source comment, line
407: "the names in self.cloud_species are converted"), stripping the
`_cd` suffix: `'Fe(c)_cd' -> 'Fe(c)'`.  `set_parameters` runs before the
conversion; the `prior` and `loglike` closures run after it. -/
def stripCd (s : String) : String :=
  if s.endsWith "_cd" then s.dropRight 3 else s

/-- The condensate species recognised by `set_parameters` (source lines
259-269), in their pre-conversion form. -/
def recognizedClouds : List String :=
  ["Fe(c)_cd", "MgSiO3(c)_cd", "Na2S(c)_cd", "KCL(c)_cd"]

/-- The name under which `set_parameters` registers the mass-fraction
parameter of a configured cloud species (source lines 259-269). -/
def registeredFractionName (s : String) : Option String :=
  if s = "Fe(c)_cd" then some "fe_fraction"
  else if s = "MgSiO3(c)_cd" then some "mgsio3_fraction"
  else if s = "Na2S(c)_cd" then some "na2s_fraction"
  else if s = "KCL(c)_cd" then some "kcl_fraction"
  else none

/-- The name under which `loglike` looks up the mass fraction of a
(converted) cloud species: `f'{item[:-3].lower()}_fraction'` (source line
800). -/
def loglikeFractionName (conv : String) : String :=
  (conv.dropRight 3).toLower ++ "_fraction"

/-! ## Prior transform: the nested `prior` closure of `run_multinest` -/

/-- One bounded scalar draw (the repeated pattern of `prior`):
`bounds[name][0] + (bounds[name][1]-bounds[name][0])*cube[i]` when explicit
bounds are given, else `lo + (hi-lo)*cube[i]` with the documented default
range.  Returns the updated cube and the drawn value. -/
def dval (bounds : Bounds) (n : String) (lo hi u : ℚ) : ℚ :=
  match bounds.scalar n with
  | some (blo, bhi) => blo + (bhi - blo) * u
  | none => lo + (hi - lo) * u

/-- The cube read, transform and write-back of one bounded scalar draw. -/
def drawScalar (params : List String) (bounds : Bounds) (c : Cube)
    (n : String) (lo hi : ℚ) : Except PErr (Cube × ℚ) := do
  let u ← getP params c n
  let v := dval bounds n lo hi u
  let c2 ← setP params c n v
  pure (c2, v)

/-- The Molliere pressure-temperature block of `prior` (source lines
481-527).  `t_connect` is the quarter-power connection temperature (rational
surrogate coefficient); the three knots are successively scaled down; the
log proportionality constant is
`log10((10**(-3+5u) * 1e6)**(-alpha)) = -alpha * ((-3+5u) + 6)`, the exact
arithmetic composition of the source's `10.**`, `**(-alpha)` and
`np.log10`. -/
def priorMolliere (params : List String) (bounds : Bounds) (c : Cube) :
    Except PErr Cube := do
  let (c, tint) ← drawScalar params bounds c "tint" 500 3000
  let t_connect := tConnectCoef * tint
  let u3 ← getP params c "t3"
  let temp3 := t_connect * (1 - u3)
  let c ← setP params c "t3" temp3
  let u2 ← getP params c "t2"
  let temp2 := temp3 * (1 - u2)
  let c ← setP params c "t2" temp2
  let u1 ← getP params c "t1"
  let temp1 := temp2 * (1 - u1)
  let c ← setP params c "t1" temp1
  let (c, alpha) ← drawScalar params bounds c "alpha" 1 2
  let uld ← getP params c "log_delta"
  let log_delta := -alpha * ((-3 + 5 * uld) + 6)
  let c ← setP params c "log_delta" log_delta
  pure c

/-- The 15-knot loop of the `free` profile (source lines 531-533):
`cube[t_i] = 8000 * cube[t_i]`, unconditionally (no bounds lookup). -/
def freeKnotLoop (params : List String) : Nat → Cube → Except PErr Cube
  | 0, c => Except.ok c
  | Nat.succ i, c => do
      let c2 ← freeKnotLoop params i c
      let u ← getP params c2 (tName i)
      setP params c2 (tName i) (8000 * u)

/-- The `free` pressure-temperature block of `prior` (source lines 529-540):
the 15 knots, then the hierarchical smoothing hyperparameters (`beta_r` is
the raw draw, `gamma_r` the inverse-gamma quantile at the second draw). -/
def priorFree (params : List String) (c : Cube) : Except PErr Cube := do
  let c ← freeKnotLoop params 15 c
  let beta_r ← getP params c "beta_r"
  let ug ← getP params c "gamma_r"
  let gamma_r := invgamma_ppf ug beta_r
  let c ← setP params c "beta_r" beta_r
  let c ← setP params c "gamma_r" gamma_r
  pure c

/-- The descending knot loop of the `monotonic` profile (source lines
546-547): for `i` from 13 down to 0,
`cube[t_i] = cube[t_(i+1)] * (1 - cube[t_i])`.  `monoKnotLoop n` processes
indices `n-1, n-2, ..., 0` in that order. -/
def monoKnotLoop (params : List String) : Nat → Cube → Except PErr Cube
  | 0, c => Except.ok c
  | Nat.succ i, c => do
      let up ← getP params c (tName (i + 1))
      let u ← getP params c (tName i)
      let c2 ← setP params c (tName i) (up * (1 - u))
      monoKnotLoop params i c2

/-- The `monotonic` pressure-temperature block of `prior` (source lines
542-547): topmost knot scaled to [0, 10000), then the descending loop. -/
def priorMonotonic (params : List String) (c : Cube) : Except PErr Cube := do
  let u14 ← getP params c (tName 14)
  let c ← setP params c (tName 14) (10000 * u14)
  monoKnotLoop params 14 c

/-- The potassium line-species variants excluded from the independent
free-abundance draw (source line 576). -/
def kVariants : List String := ["K", "K_lor_cut", "K_burrows"]

/-- The sodium line-species variants (source lines 583-584). -/
def naVariants : List String := ["Na", "Na_lor_cut", "Na_burrows"]

/-- The free-chemistry abundance loop of `prior` (source lines 570-581):
species with explicit bounds are drawn from them (and NOT recorded in the
`log_x_abund` dictionary — exactly as in the source); species without bounds
that are not potassium variants get the default `-10 * u` draw and are
recorded; potassium variants without bounds are skipped. -/
def freeAbundLoop (params : List String) (bounds : Bounds) :
    List String → Cube → List (String × ℚ) →
    Except PErr (Cube × List (String × ℚ))
  | [], c, d => Except.ok (c, d)
  | item :: rest, c, d =>
    match bounds.scalar item with
    | some (blo, bhi) => do
        let u ← getP params c item
        let c2 ← setP params c item (blo + (bhi - blo) * u)
        freeAbundLoop params bounds rest c2 d
    | none =>
        if item ∉ kVariants then do
          let u ← getP params c item
          let v := -10 * u
          let c2 ← setP params c item v
          freeAbundLoop params bounds rest c2 (d ++ [(item, v)])
        else freeAbundLoop params bounds rest c d

/-- The free-chemistry block of `prior` (source lines 568-594): the
abundance loop, then the potassium cross-dependency.  The source assigns the
local `log_x_k_abund` only inside the `if` that tests for a configured
sodium variant; if a potassium variant is configured while no sodium variant
is, the subsequent read of `log_x_k_abund` raises `UnboundLocalError`
(modelled as `PErr.nameError`). -/
def priorFreeChem (line_species params : List String) (bounds : Bounds)
    (c : Cube) : Except PErr Cube := do
  let (c, log_x_abund) ← freeAbundLoop params bounds line_species c []
  let kval : Option ℚ :=
    if "Na" ∈ line_species ∨ "Na_lor_cut" ∈ line_species ∨
        "Na_burrows" ∈ line_species then
      some (potassium_abundance log_x_abund)
    else none
  if "K" ∈ line_species then
    match kval with
    | some v => setP params c "K" v
    | none => Except.error (PErr.nameError "log_x_k_abund")
  else if "K_lor_cut" ∈ line_species then
    match kval with
    | some v => setP params c "K_lor_cut" v
    | none => Except.error (PErr.nameError "log_x_k_abund")
  else if "K_burrows" ∈ line_species then
    match kval with
    | some v => setP params c "K_burrows" v
    | none => Except.error (PErr.nameError "log_x_k_abund")
  else Except.ok c

/-- The cloud block of `prior` (source lines 607-668), over the CONVERTED
cloud-species names (see `stripCd`).  The four mass fractions use the fixed
log-uniform range `[log10(0.05), log10(1)]` with no bounds lookup, exactly
as the source does; `fsed`, `kzz` and `sigma_lnorm` are bounded draws. -/
def priorClouds (cloudConv params : List String) (bounds : Bounds)
    (c : Cube) : Except PErr Cube := do
  if cloudConv ≠ [] then
    let c ← (if "Fe(c)" ∈ cloudConv then do
        let u ← getP params c "fe_fraction"
        setP params c "fe_fraction" (log10_005 + (0 - log10_005) * u)
      else pure c)
    let c ← (if "MgSiO3(c)" ∈ cloudConv then do
        let u ← getP params c "mgsio3_fraction"
        setP params c "mgsio3_fraction" (log10_005 + (0 - log10_005) * u)
      else pure c)
    let c ← (if "Na2S(c)" ∈ cloudConv then do
        let u ← getP params c "na2s_fraction"
        setP params c "na2s_fraction" (log10_005 + (0 - log10_005) * u)
      else pure c)
    let c ← (if "KCL(c)" ∈ cloudConv then do
        let u ← getP params c "kcl_fraction"
        setP params c "kcl_fraction" (log10_005 + (0 - log10_005) * u)
      else pure c)
    let (c, _) ← drawScalar params bounds c "fsed" 0 10
    let (c, _) ← drawScalar params bounds c "kzz" 5 13
    let (c, _) ← drawScalar params bounds c "sigma_lnorm" (105/100) 3
    pure c
  else pure c

/-- One per-dataset nuisance loop of `prior` (source lines 672-694): for
each dataset whose bounds triple has slot `i`, the bounded draw of the
parameter `pre ++ item`. -/
def priorNuisanceLoop (params : List String) (bounds : Bounds) (i : Nat)
    (pre : String) : List String → Cube → Except PErr Cube
  | [], c => Except.ok c
  | item :: rest, c =>
    match bounds.slot item i with
    | some (blo, bhi) => do
        let n := pre ++ item
        let u ← getP params c n
        let c2 ← setP params c n (blo + (bhi - blo) * u)
        priorNuisanceLoop params bounds i pre rest c2
    | none => priorNuisanceLoop params bounds i pre rest c

/-- The pressure-temperature stage of `prior` (source lines 481-547): one
of the three profile blocks, or nothing for an unrecognised profile name. -/
def priorPt (pt_profile : String) (params : List String) (bounds : Bounds)
    (c : Cube) : Except PErr Cube :=
  if pt_profile = "molliere" then priorMolliere params bounds c
  else if pt_profile = "free" then priorFree params c
  else if pt_profile = "monotonic" then priorMonotonic params c
  else pure c

/-- The chemistry stage of `prior` (source lines 549-594). -/
def priorChem (chemistry : String) (line_species params : List String)
    (bounds : Bounds) (c : Cube) : Except PErr Cube :=
  if chemistry = "equilibrium" then do
    let (c, _) ← drawScalar params bounds c "metallicity" (-3/2) (3/2)
    let (c, _) ← drawScalar params bounds c "c_o_ratio" (1/10) (16/10)
    pure c
  else if chemistry = "free" then priorFreeChem line_species params bounds c
  else pure c

/-- The quench-pressure stage of `prior` (source lines 596-605). -/
def priorQuench (quenching : Bool) (params : List String) (bounds : Bounds)
    (c : Cube) : Except PErr Cube :=
  if quenching then do
    let (c, _) ← drawScalar params bounds c "log_p_quench" (-6) 3
    pure c
  else pure c

/-- The nested `prior` closure of `run_multinest` (source lines 441-694),
as a pure function on the name-keyed cube.  All stages appear in the
source's order. -/
def prior (spectrumNames line_species cloudConv : List String)
    (bounds : Bounds) (chemistry : String) (quenching : Bool)
    (pt_profile : String) (params : List String) (c : Cube) :
    Except PErr Cube := do
  let (c, _) ← drawScalar params bounds c "logg" 2 (11/2)
  let (c, _) ← drawScalar params bounds c "radius" (4/5) 2
  let c ← priorPt pt_profile params bounds c
  let c ← priorChem chemistry line_species params bounds c
  let c ← priorQuench quenching params bounds c
  let c ← priorClouds cloudConv params bounds c
  let c ← priorNuisanceLoop params bounds 0 "scaling_" spectrumNames c
  let c ← priorNuisanceLoop params bounds 1 "error_" spectrumNames c
  let c ← priorNuisanceLoop params bounds 2 "wavelength_" spectrumNames c
  pure c

/-! ## The likelihood: the nested `loglike` closure of `run_multinest` -/

/-- `species.core.constants.R_JUP` (m). -/
def R_JUP : ℚ := 71492000

/-- `species.core.constants.PARSEC` (m). -/
def PARSEC : ℚ := 30856775814700000

/-- One observed dataset of the spectrum bundle, as stored by `__init__`:
wavelength/flux/error columns, optional inverse covariance matrix, spectral
resolution, and the derived wavelength-bin widths (appended in `__init__`,
last bin width duplicated from the second-to-last). -/
structure Dataset where
  wavel : List ℚ
  flux : List ℚ
  ferr : List ℚ
  covInv : Option (List (List ℚ))
  specRes : ℚ
  wavelBins : List ℚ
  deriving DecidableEq, Repr

/-- The external radiative-transfer evaluator (petitRADTRANS wrapped by
`retrieval_util.calc_spectrum_clear` / `calc_spectrum_clouds`, both outside
`src/`): an oracle mapping the forwarded physical parameters to a model
spectrum, or failing (`PErr.rtFailure`, the spec's UpstreamFailure).
`calcClear` receives pressure, temperature, logg, optional C/O, optional
metallicity, optional quench pressure and optional free-abundance
dictionary; `calcClouds` additionally receives the cloud base mass
fractions, fsed, Kzz and sigma_lnorm. -/
structure RTObject where
  calcClear : List ℚ → List ℚ → ℚ → Option ℚ → Option ℚ → Option ℚ →
    Option (List (String × ℚ)) → Except PErr (List ℚ × List Val)
  calcClouds : List ℚ → List ℚ → ℚ → ℚ → ℚ → List (String × ℚ) → ℚ → ℚ →
    ℚ → ℚ → Except PErr (List ℚ × List Val)

/-- Positive convolution weight; rational surrogate for the Gaussian
line-spread kernel of `retrieval_util.convolve` (not under `src/`): the
true kernel width derives from the spectral resolution; the surrogate keeps
a positive, normalised kernel depending on the resolution and the sample
distance. -/
def kernelW (specRes : ℚ) (d : Nat) : ℚ :=
  1 / (1 + (d : ℚ) ^ 2 * (1 + specRes ^ 2))

/-- Modelled from the spec: `retrieval_util.convolve` smooths the model
spectrum with a Gaussian line-spread function.  Surrogate: each output
sample is the positively-weighted normalised combination of all input
samples (`kernelW`); IEEE propagation applies to non-finite fluxes. -/
def convolve (wlen : List ℚ) (flux : List Val) (specRes : ℚ) : List Val :=
  (List.range flux.length).map fun i =>
    let ws := (List.range flux.length).map fun j => kernelW specRes (Nat.dist i j)
    Val.div (Val.vsum (List.zipWith (fun w f => Val.mul (Val.num w) f) ws flux))
      (Val.num ws.sum)

/-- Modelled from the spec: the external `rebin_give_width` package rebins
the smoothed model onto the observed wavelength grid respecting each bin's
width.  Surrogate: each observed bin averages the model samples whose
wavelength falls within half a bin width of the bin centre (an empty bin
yields 0; the concrete instances used below have no empty bins). -/
def rebin (wlen : List ℚ) (flux : List Val) (dataWavel dataBins : List ℚ) :
    List Val :=
  List.zipWith (fun w b =>
    let sel := (List.zipWith (fun mw f => (mw, f)) wlen flux).filter
      fun p => |p.1 - w| ≤ b / 2
    if sel.isEmpty then Val.num 0
    else Val.div (Val.vsum (sel.map Prod.snd)) (Val.num sel.length))
    dataWavel dataBins

/-- The per-dataset log-likelihood contribution (source lines 868-909):
wavelength-calibration shift, Gaussian smoothing, rebinning, residual
against the scaled observed flux, then either the covariance-weighted
quadratic form `-diff . (invCov diff) / 2` (the fitted error component
`err_fit` is computed but NOT used on this path — source TODO at line 903)
or the diagonal Gaussian with variance inflated by `err_fit**2`. -/
def datasetTerm (scal eoff wcal : ℚ) (ds : Dataset) (wlen : List ℚ)
    (flux : List Val) : Val :=
  let dataWavel := ds.wavel.map (· + wcal)
  let err_fit := pow10 eoff
  let fluxSmooth := convolve wlen flux ds.specRes
  let fluxReb := rebin wlen fluxSmooth dataWavel ds.wavelBins
  let diff := List.zipWith Val.sub fluxReb (ds.flux.map fun f => Val.num (scal * f))
  match ds.covInv with
  | some m =>
      Val.neg (Val.div (Val.vdot diff (m.map fun row =>
        Val.vdot (row.map Val.num) diff)) (Val.num 2))
  | none =>
      let pts := List.zipWith (fun e d => (e ^ 2 + err_fit ^ 2, d)) ds.ferr diff
      Val.mul (Val.num (-(1/2)))
        (Val.vsum (pts.map fun p =>
          Val.add (Val.div (Val.mul p.2 p.2) (Val.num p.1))
            (Val.num (qlog (2 * piQ * p.1)))))

/-- One of the three nuisance-parameter dictionaries of `loglike` (source
lines 725-751): per dataset, the cube value of `pre ++ name` when the
bounds triple provides slot `i`, else the fixed default (scaling 1, error
offset -100, wavelength shift 0). -/
def buildNuisanceMap (bounds : Bounds) (params : List String) (i : Nat)
    (pre : String) (dflt : ℚ) (c : Cube) :
    List (String × Dataset) → Except PErr (List (String × ℚ))
  | [] => Except.ok []
  | (k, _) :: rest => do
      let v ← (match bounds.slot k i with
        | some _ => getP params c (pre ++ k)
        | none => pure dflt)
      let m ← buildNuisanceMap bounds params i pre dflt c rest
      pure ((k, v) :: m)

/-- Modelled from the spec: `retrieval_util.pt_ret_model` (not under
`src/`) is the closed-form Eddington-type P-T relation of the Molliere
profile, a function of the three knot temperatures, the proportionality
constant, the power-law index, the internal temperature, the pressure grid,
the metallicity and the C/O ratio.  The true closed form takes quarter
powers, which are not rational; the surrogate keeps all data dependences.
No claim below depends on its output values. -/
def pt_ret_model (t123 : List ℚ) (delta alpha tint : ℚ) (pressures : List ℚ)
    (met c_o : ℚ) : List ℚ :=
  pressures.map fun p =>
    tint * (1 + delta * (1 + alpha * p)) + (t123.sum + met + c_o) / 1000

/-- Modelled from the spec: `retrieval_util.pt_spline_interp` (not under
`src/`) interpolates the 15 temperature knots onto the pressure grid with a
monotonic cubic spline.  Surrogate: the knot values interleaved with the
midpoints of adjacent knots — like the spline it attains every knot value
and fills between adjacent knots with convex combinations. -/
def pt_spline_interp : List ℚ → List ℚ
  | [] => []
  | [k] => [k]
  | a :: b :: rest => a :: (a + b) / 2 :: pt_spline_interp (b :: rest)

/-- The 15 knot temperatures read from the cube (source lines 767-771). -/
def readKnots (params : List String) (c : Cube) : Nat → Except PErr (List ℚ)
  | 0 => Except.ok []
  | Nat.succ n => do
      let l ← readKnots params c n
      let v ← getP params c (tName n)
      pure (l ++ [v])

/-- The second-difference roughness sum over the knots (source line 776):
`np.sum((knot[2:] + knot[:-2] - 2*knot[1:-1])**2)`. -/
def secondDiffSum : List ℚ → ℚ
  | a :: b :: c :: rest => (c + a - 2 * b) ^ 2 + secondDiffSum (b :: c :: rest)
  | _ => 0

/-- The temperature-profile stage of `loglike` (source lines 755-780):
builds the profile and accumulates the `free`-profile smoothness log-prior
(which the source adds BEFORE the negative-temperature check).  A
`pt_profile` outside the three recognised names leaves the Python local
`temp` unbound, raising `NameError` at its first use. -/
def tempPhase (pt_profile : String) (params : List String)
    (pressures : List ℚ) (c : Cube) : Except PErr (List ℚ × ℚ) := do
  if pt_profile = "molliere" then
    let t1 ← getP params c "t1"
    let t2 ← getP params c "t2"
    let t3 ← getP params c "t3"
    let ld ← getP params c "log_delta"
    let al ← getP params c "alpha"
    let ti ← getP params c "tint"
    let met ← getP params c "metallicity"
    let co ← getP params c "c_o_ratio"
    pure (pt_ret_model [t1, t2, t3] (pow10 ld) al ti pressures met co, 0)
  else if pt_profile = "free" ∨ pt_profile = "monotonic" then do
    let knots ← readKnots params c 15
    let temp := pt_spline_interp knots
    if pt_profile = "free" then do
      let gr ← getP params c "gamma_r"
      let temp_sum := secondDiffSum knots
      pure (temp, -temp_sum / (2 * gr) - (1/2) * qlog (2 * piQ * gr))
    else
      pure (temp, 0)
  else Except.error (PErr.nameError "temp")

/-- The cloud mass-fraction dictionary of `loglike` (source lines 798-800):
for each (converted) cloud species `item`, the cube value of
`f'{item[:-3].lower()}_fraction'`. -/
def buildCloudFractions (params : List String) (c : Cube) :
    List String → Except PErr (List (String × ℚ))
  | [] => Except.ok []
  | item :: rest => do
      let v ← getP params c (loglikeFractionName item)
      let m ← buildCloudFractions params c rest
      pure ((item, v) :: m)

/-- The full free-abundance dictionary of `loglike` (source lines 827-829):
every configured line species is read from the cube. -/
def buildLogXAbundAll (params : List String) (c : Cube) :
    List String → Except PErr (List (String × ℚ))
  | [] => Except.ok []
  | item :: rest => do
      let v ← getP params c item
      let m ← buildLogXAbundAll params c rest
      pure ((item, v) :: m)

/-- Whether the computed elemental ratio `v` violates the configured bounds
for `n` (source lines 841-849): only checked when bounds are present. -/
def ratioViolated (bounds : Bounds) (n : String) (v : ℚ) : Bool :=
  match bounds.scalar n with
  | some (lo, hi) => decide (v < lo) || decide (v > hi)
  | none => false

/-- Outcome of the emission-spectrum stage: an in-evaluation rejection
(`return -np.inf` before any spectrum exists) or a model spectrum. -/
inductive SpecOut where
  | reject : SpecOut
  | spec (wlen : List ℚ) (flux : List Val) : SpecOut

/-- The emission-spectrum stage of `loglike` (source lines 787-855): quench
pressure, then the cloudy branch (cloud fractions, cloud base resolution,
cloud-aware radiative transfer — the try/except that the source comment
says "is required to catch numerical precision errors with the clouds" is
COMMENTED OUT in the source, lines 806-814, so an evaluator failure
propagates), or the clear equilibrium branch, or the clear free-chemistry
branch (abundance-sum rejection, elemental-ratio rejection — the source
condition `'c_h_ratio' or 'o_h_ratio' in bounds` is always truthy, so the
ratios are always computed — then clear radiative transfer). -/
def spectrumPhase (line_species cloudConv : List String) (chemistry : String)
    (quenching : Bool) (bounds : Bounds) (params : List String)
    (pressures : List ℚ) (rt : RTObject) (temp : List ℚ) (c : Cube) :
    Except PErr SpecOut := do
  let log_p_quench ← (if quenching then getP params c "log_p_quench"
    else pure (-10 : ℚ))
  if cloudConv ≠ [] then
    let fracs ← buildCloudFractions params c cloudConv
    let co ← getP params c "c_o_ratio"
    let met ← getP params c "metallicity"
    let lxb := log_x_cloud_base co met fracs
    let fsed ← getP params c "fsed"
    let kzz ← getP params c "kzz"
    let lg ← getP params c "logg"
    let sg ← getP params c "sigma_lnorm"
    let wf ← rt.calcClouds pressures temp co met log_p_quench lxb fsed kzz lg sg
    pure (SpecOut.spec wf.1 wf.2)
  else if chemistry = "equilibrium" then
    let lg ← getP params c "logg"
    let co ← getP params c "c_o_ratio"
    let met ← getP params c "metallicity"
    let wf ← rt.calcClear pressures temp lg (some co) (some met)
      (some log_p_quench) none
    pure (SpecOut.spec wf.1 wf.2)
  else if chemistry = "free" then
    let abund ← buildLogXAbundAll params c line_species
    if (abund.map fun kv => pow10 kv.2).sum > 1 then pure SpecOut.reject
    else
      let rats := calcMetalRatios abund
      if ratioViolated bounds "c_h_ratio" rats.1 then pure SpecOut.reject
      else if ratioViolated bounds "o_h_ratio" rats.2 then pure SpecOut.reject
      else do
        let lg ← getP params c "logg"
        let wf ← rt.calcClear pressures temp lg none none none (some abund)
        pure (SpecOut.spec wf.1 wf.2)
  else Except.error (PErr.nameError "flux_lambda")

/-- Assoc-list lookup with default, for the nuisance dictionaries. -/
def lookupD (m : List (String × ℚ)) (k : String) (d : ℚ) : ℚ :=
  (List.lookup k m).getD d

/-- The nested `loglike` closure of `run_multinest` (source lines 696-924),
as a pure function of the cube, the configuration, the dataset bundle and
the external radiative-transfer evaluator.  Stages in source order: the
three nuisance dictionaries, the temperature profile (plus smoothness
log-prior), the negative-temperature rejection, the emission spectrum, the
NaN rejection, flux scaling by `(radius R_JUP / (distance PARSEC))**2`, and
the per-dataset accumulation.  The diagnostic plotting side channel is
omitted (it does not feed the returned value). -/
def loglike (line_species cloudConv : List String) (chemistry : String)
    (quenching : Bool) (pt_profile : String)
    (spectrum : List (String × Dataset)) (bounds : Bounds)
    (params : List String) (rt : RTObject) (pressures : List ℚ)
    (distance : ℚ) (c : Cube) : Except PErr Val := do
  let scaling ← buildNuisanceMap bounds params 0 "scaling_" 1 c spectrum
  let err_offset ← buildNuisanceMap bounds params 1 "error_" (-100) c spectrum
  let wavel_cal ← buildNuisanceMap bounds params 2 "wavelength_" 0 c spectrum
  let tp ← tempPhase pt_profile params pressures c
  if tp.1.any (fun t => t < 0) then pure Val.negInf
  else do
    let so ← spectrumPhase line_species cloudConv chemistry quenching bounds
      params pressures rt tp.1 c
    match so with
    | SpecOut.reject => pure Val.negInf
    | SpecOut.spec wlen flux =>
      if flux.any Val.isnan then pure Val.negInf
      else do
        let r ← getP params c "radius"
        let fluxScaled := flux.map
          (Val.mul (Val.num ((r * R_JUP / (distance * PARSEC)) ^ 2)))
        let ll := spectrum.foldl (fun acc kd =>
          Val.add acc (datasetTerm (lookupD scaling kd.1 1)
            (lookupD err_offset kd.1 (-100)) (lookupD wavel_cal kd.1 0)
            kd.2 wlen fluxScaled)) (Val.num 0)
        pure (Val.add (Val.num tp.2) ll)

/-! ## Generic name lemmas and configuration validity -/

lemma strAppend_cancel {p a b : String} (h : p ++ a = p ++ b) : a = b := by
  have h2 : (p ++ a).data = (p ++ b).data := by rw [h]
  rw [String.data_append, String.data_append] at h2
  have h3 := List.append_cancel_left h2
  cases a
  cases b
  exact congrArg String.mk h3

lemma strAppend_ne_of_head {p q : String} (a b : String) {cp cq : Char}
    (hp : p.data.head? = some cp) (hq : q.data.head? = some cq)
    (hne : cp ≠ cq) : p ++ a ≠ q ++ b := by
  intro h
  have h2 : (p ++ a).data.head? = (q ++ b).data.head? := by rw [h]
  rw [String.data_append, String.data_append] at h2
  cases hpd : p.data with
  | nil => rw [hpd] at hp; simp at hp
  | cons x xs =>
      rw [hpd] at hp h2
      cases hqd : q.data with
      | nil => rw [hqd] at hq; simp at hq
      | cons y ys =>
          rw [hqd] at hq h2
          simp only [List.cons_append, List.head?_cons, Option.some.injEq] at hp hq h2
          exact hne (hp ▸ hq ▸ h2 ▸ rfl)

/-- All parameter names that `set_parameters` can emit other than the
free-chemistry line-species names and the per-dataset nuisance names. -/
def builtinNames : List String :=
  ["logg", "radius", "tint", "alpha", "log_delta", "gamma_r", "beta_r",
   "metallicity", "c_o_ratio", "log_p_quench", "fe_fraction",
   "mgsio3_fraction", "na2s_fraction", "kcl_fraction", "fsed", "kzz",
   "sigma_lnorm"] ++ (List.range 15).map tName

/-- A valid configuration in the sense of the spec ("distinct line species,
distinct dataset names" and species/dataset names that do not collide with
the fixed parameter names): the hypotheses under which the schema invariants
are claimed. -/
def ValidNames (line_species spectrumNames : List String) : Prop :=
  line_species.Nodup ∧ spectrumNames.Nodup ∧
  (∀ s ∈ line_species, s ∉ builtinNames) ∧
  (∀ s ∈ line_species, ∀ d ∈ spectrumNames,
    s ≠ "scaling_" ++ d ∧ s ≠ "error_" ++ d ∧ s ≠ "wavelength_" ++ d) ∧
  (∀ d ∈ spectrumNames, ("scaling_" ++ d) ∉ builtinNames ∧
    ("error_" ++ d) ∉ builtinNames ∧ ("wavelength_" ++ d) ∉ builtinNames)

instance (ls sn : List String) : Decidable (ValidNames ls sn) := by
  unfold ValidNames
  infer_instance

/-! ## C6: the equilibrium/quenching/molliere schema -/

/-- C6: building the schema with `chemistry='equilibrium'`,
`quenching=True`, `pt_profile='molliere'`, no cloud species, and no
per-dataset nuisance bounds produces exactly the 11-element ordered list
`[logg, radius, tint, t1, t2, t3, alpha, log_delta, metallicity, c_o_ratio,
log_p_quench]`, for every dataset bundle and line-species list. -/
theorem C6_equilibrium_molliere_schema (sn ls : List String) (bounds : Bounds)
    (h : ∀ d ∈ sn, ∀ i < 3, bounds.slot d i = none) :
    set_parameters [] sn ls [] bounds "equilibrium" true "molliere" =
      Except.ok ["logg", "radius", "tint", "t1", "t2", "t3", "alpha",
        "log_delta", "metallicity", "c_o_ratio", "log_p_quench"] := by
  have h0 : ∀ i, i < 3 → ∀ pre, nuisanceBlock sn bounds i pre = [] := by
    intro i hi pre
    unfold nuisanceBlock
    rw [List.filterMap_eq_nil_iff]
    intro a ha
    rw [h a ha i hi]
    simp
  unfold set_parameters setParametersList ptBlock chemBlock cloudBlock
  rw [h0 0 (by norm_num), h0 1 (by norm_num), h0 2 (by norm_num)]
  simp

/-- Witness for C6 at a concrete configuration. -/
theorem C6_witness :
    (∀ d ∈ (["SPHERE"] : List String), ∀ i < 3, Bounds.slot [] d i = none) ∧
    set_parameters [] ["SPHERE"] ["CO_all_iso", "H2O"] [] [] "equilibrium"
        true "molliere" =
      Except.ok ["logg", "radius", "tint", "t1", "t2", "t3", "alpha",
        "log_delta", "metallicity", "c_o_ratio", "log_p_quench"] :=
  ⟨by decide, C6_equilibrium_molliere_schema ["SPHERE"] ["CO_all_iso", "H2O"]
    [] (by decide)⟩

/-! ## C3: an upstream radiative-transfer failure in the cloudy branch -/

/-- A concrete schema for a cloudy equilibrium run with the `monotonic`
profile: the output of `set_parameters` for that configuration. -/
def cloudyDemoParams : List String :=
  ["logg", "radius"] ++ (List.range 15).map tName ++
  ["metallicity", "c_o_ratio", "fe_fraction", "fsed", "kzz", "sigma_lnorm"]

/-- A concrete two-point dataset with an inverse covariance matrix. -/
def covDemoDataset : Dataset :=
  ⟨[1, 2], [0, 0], [1, 1], some [[2, -1], [-1, 2]], 0, [1/2, 1/2]⟩

/-- A radiative-transfer evaluator whose cloud-aware routine fails
unexpectedly (the spec's UpstreamFailure, e.g. a numerical precision fault
inside the cloud spectrum computation). -/
def rtCloudFailing : RTObject :=
  ⟨fun _ _ _ _ _ _ _ => Except.ok ([1], [Val.num 1]),
   fun _ _ _ _ _ _ _ _ _ _ => Except.error PErr.rtFailure⟩

/-- C3 (code_bug evidence): the claim says an unexpected failure of the
radiative-transfer evaluator during a cloudy evaluation is converted to the
reject sentinel `-inf`.  In the source the `try`/`except` that would do so
is commented out (lines 806-814, against its own comment "the try-except is
required to catch numerical precision errors with the clouds"), so the
failure PROPAGATES out of `loglike` instead: at this concrete cloudy
evaluation the result is the propagated failure, not `ok (-inf)`. -/
theorem C3_rt_failure_propagates :
    loglike [] ["Fe(c)"] "equilibrium" false "monotonic"
        [("S", covDemoDataset)] [] cloudyDemoParams rtCloudFailing [1] 10
        (fun _ => 100) = Except.error PErr.rtFailure ∧
    loglike [] ["Fe(c)"] "equilibrium" false "monotonic"
        [("S", covDemoDataset)] [] cloudyDemoParams rtCloudFailing [1] 10
        (fun _ => 100) ≠ Except.ok Val.negInf := by
  constructor
  · with_unfolding_all rfl
  · intro h
    have h2 : Except.error PErr.rtFailure = Except.ok Val.negInf := by
      rw [← h]
      with_unfolding_all rfl
    exact Except.noConfusion h2

/-! ## C2: the potassium / sodium cross-dependency of the prior -/

/-- The schema of a free-chemistry run whose only line species is a
potassium variant (`set_parameters` output for that configuration). -/
def kOnlyParams : List String :=
  ["logg", "radius"] ++ (List.range 15).map tName ++ ["K"]

/-- C2 counterexample: with free chemistry and the potassium line species
`'K'` configured but no sodium variant, the prior transform does NOT
complete: the source reads the local `log_x_k_abund`, which is only
assigned inside the sodium-variant branch, so the transform raises
`UnboundLocalError` (the claim asserts this error branch is unreachable). -/
theorem C2_counterexample :
    prior [] ["K"] [] [] "free" false "monotonic" kOnlyParams
        (fun _ => 1/2) =
      Except.error (PErr.nameError "log_x_k_abund") := by
  with_unfolding_all rfl

/-! ## C5: duplicate-freeness and repeated `set_parameters` calls -/

/-- C5 counterexample: `set_parameters` appends to `self.parameters`
without clearing it, so calling it twice on the same object with identical
inputs does NOT yield the same ordered list — the second call returns the
list doubled, which also contains every name twice. -/
theorem C5_counterexample :
    set_parameters [] [] [] [] [] "equilibrium" false "molliere" =
      Except.ok ["logg", "radius", "tint", "t1", "t2", "t3", "alpha",
        "log_delta", "metallicity", "c_o_ratio"] ∧
    set_parameters ["logg", "radius", "tint", "t1", "t2", "t3", "alpha",
        "log_delta", "metallicity", "c_o_ratio"] [] [] [] [] "equilibrium"
        false "molliere" =
      Except.ok (["logg", "radius", "tint", "t1", "t2", "t3", "alpha",
        "log_delta", "metallicity", "c_o_ratio"] ++
        ["logg", "radius", "tint", "t1", "t2", "t3", "alpha", "log_delta",
        "metallicity", "c_o_ratio"]) ∧
    (["logg", "radius", "tint", "t1", "t2", "t3", "alpha", "log_delta",
        "metallicity", "c_o_ratio"] ++
      ["logg", "radius", "tint", "t1", "t2", "t3", "alpha", "log_delta",
        "metallicity", "c_o_ratio"] : List String) ≠
      ["logg", "radius", "tint", "t1", "t2", "t3", "alpha", "log_delta",
        "metallicity", "c_o_ratio"] ∧
    ¬ (["logg", "radius", "tint", "t1", "t2", "t3", "alpha", "log_delta",
        "metallicity", "c_o_ratio"] ++
      ["logg", "radius", "tint", "t1", "t2", "t3", "alpha", "log_delta",
        "metallicity", "c_o_ratio"] : List String).Nodup := by
  refine ⟨by with_unfolding_all rfl, by with_unfolding_all rfl, by decide, by decide⟩

/-- `Except` bind on a success, as a rewrite rule for stepping through the
monadic stages of the embedded pipelines. -/
lemma exceptBind_ok {e a b : Type} (x : a) (f : a → Except e b) :
    (Except.ok (ε := e) x >>= f) = f x := rfl

/-! ## C7: negative temperature profile entries are rejected -/

/-- C7: for every evaluation whose nuisance dictionaries resolve and whose
temperature-profile stage yields a profile with at least one negative
entry, `loglike` returns the reject sentinel `-inf` (source lines 782-785:
`if np.min(temp) < 0.: return -np.inf`; `np.min(temp) < 0` on the nonempty
profile is exactly "some entry is negative"). -/
theorem C7_negative_temperature_rejected (ls cloudConv : List String)
    (chem : String) (q : Bool) (pt : String)
    (spectrum : List (String × Dataset)) (bounds : Bounds)
    (params : List String) (rt : RTObject) (pressures : List ℚ)
    (distance : ℚ) (c : Cube)
    (sc eo wc : List (String × ℚ)) (tp : List ℚ × ℚ)
    (h1 : buildNuisanceMap bounds params 0 "scaling_" 1 c spectrum = Except.ok sc)
    (h2 : buildNuisanceMap bounds params 1 "error_" (-100) c spectrum = Except.ok eo)
    (h3 : buildNuisanceMap bounds params 2 "wavelength_" 0 c spectrum = Except.ok wc)
    (h4 : tempPhase pt params pressures c = Except.ok tp)
    (hneg : tp.1.any (fun t => t < 0) = true) :
    loglike ls cloudConv chem q pt spectrum bounds params rt pressures
      distance c = Except.ok Val.negInf := by
  unfold loglike
  rw [h1, h2, h3, h4]
  simp only [exceptBind_ok]
  rw [hneg]
  rfl

/-- A concrete schema for a clear (cloudless) equilibrium run with the
`monotonic` profile. -/
def clearDemoParams : List String :=
  ["logg", "radius"] ++ (List.range 15).map tName ++
  ["metallicity", "c_o_ratio"]

/-- Witness for C7: a `monotonic` evaluation whose `t3` knot is negative is
scored `-inf`. -/
theorem C7_witness :
    loglike [] [] "equilibrium" false "monotonic" [("S", covDemoDataset)] []
      clearDemoParams rtCloudFailing [1] 10
      (fun n => if n = "t3" then -5 else 100) = Except.ok Val.negInf :=
  C7_negative_temperature_rejected [] [] "equilibrium" false "monotonic"
    [("S", covDemoDataset)] [] clearDemoParams rtCloudFailing [1] 10
    (fun n => if n = "t3" then -5 else 100)
    [("S", 1)] [("S", -100)] [("S", 0)]
    (pt_spline_interp [100, 100, 100, -5, 100, 100, 100, 100, 100, 100, 100,
      100, 100, 100, 100], 0)
    (by with_unfolding_all rfl) (by with_unfolding_all rfl)
    (by with_unfolding_all rfl) (by with_unfolding_all rfl)
    (by with_unfolding_all decide)

/-! ## C4: non-finite model fluxes and the reject sentinel -/

/-- Whether a value is finite (neither NaN nor an infinity). -/
def Val.finite : Val → Bool
  | Val.num _ => true
  | _ => false

/-- A radiative-transfer evaluator whose clear-sky routine returns a flux
that is everywhere `+inf` — non-finite but containing no NaN. -/
def rtClearInf : RTObject :=
  ⟨fun _ _ _ _ _ _ _ => Except.ok ([1, 2], [Val.posInf, Val.posInf]),
   fun _ _ _ _ _ _ _ _ _ _ => Except.error PErr.rtFailure⟩

/-- A radiative-transfer evaluator whose clear-sky routine returns a flux
containing a NaN. -/
def rtClearNan : RTObject :=
  ⟨fun _ _ _ _ _ _ _ => Except.ok ([1, 2], [Val.nan, Val.num 1]),
   fun _ _ _ _ _ _ _ _ _ _ => Except.error PErr.rtFailure⟩

/-- C4 counterexample: the source's rejection guard tests only
`np.isnan(flux)` (line 859), not finiteness.  At this concrete clear
equilibrium evaluation the model flux is everywhere `+inf` (non-finite, no
NaN): the guard does not fire, and against the covariance dataset (whose
inverse covariance has a negative off-diagonal entry) the quadratic form is
`inf - inf = NaN`, so `loglike` returns NaN — not the reject sentinel
`-inf` that the claim requires for every non-finite flux. -/
theorem C4_counterexample :
    spectrumPhase [] [] "equilibrium" false [] clearDemoParams [1] rtClearInf
        (pt_spline_interp (List.replicate 15 100)) (fun _ => 100) =
      Except.ok (SpecOut.spec [1, 2] [Val.posInf, Val.posInf]) ∧
    Val.finite Val.posInf = false ∧ Val.isnan Val.posInf = false ∧
    loglike [] [] "equilibrium" false "monotonic" [("S", covDemoDataset)] []
        clearDemoParams rtClearInf [1] 10 (fun _ => 100) =
      Except.ok Val.nan ∧
    Val.nan ≠ Val.negInf :=
  ⟨by with_unfolding_all rfl, rfl, rfl, by with_unfolding_all rfl, by decide⟩

/-- C4 amended: the guard the source actually implements — for every
evaluation whose nuisance dictionaries and temperature stage resolve and
whose computed model flux contains a NaN, `loglike` returns the reject
sentinel `-inf` (either through the negative-temperature rejection or
through the NaN guard at source lines 857-863). -/
theorem C4_amended_nan_flux_rejected (ls cloudConv : List String)
    (chem : String) (q : Bool) (pt : String)
    (spectrum : List (String × Dataset)) (bounds : Bounds)
    (params : List String) (rt : RTObject) (pressures : List ℚ)
    (distance : ℚ) (c : Cube)
    (sc eo wc : List (String × ℚ)) (tp : List ℚ × ℚ)
    (wlen : List ℚ) (flux : List Val)
    (h1 : buildNuisanceMap bounds params 0 "scaling_" 1 c spectrum = Except.ok sc)
    (h2 : buildNuisanceMap bounds params 1 "error_" (-100) c spectrum = Except.ok eo)
    (h3 : buildNuisanceMap bounds params 2 "wavelength_" 0 c spectrum = Except.ok wc)
    (h4 : tempPhase pt params pressures c = Except.ok tp)
    (h5 : spectrumPhase ls cloudConv chem q bounds params pressures rt tp.1 c =
      Except.ok (SpecOut.spec wlen flux))
    (hnan : flux.any Val.isnan = true) :
    loglike ls cloudConv chem q pt spectrum bounds params rt pressures
      distance c = Except.ok Val.negInf := by
  unfold loglike
  rw [h1, h2, h3, h4]
  simp only [exceptBind_ok]
  by_cases hneg : (tp.1.any fun t => t < 0) = true
  · rw [hneg]
    rfl
  · rw [Bool.not_eq_true] at hneg
    rw [hneg]
    simp only [Bool.false_eq_true, if_false, h5, exceptBind_ok, hnan]
    rfl

/-- Witness for C4 amended: a clear equilibrium evaluation whose model flux
contains a NaN is scored `-inf`. -/
theorem C4_amended_witness :
    loglike [] [] "equilibrium" false "monotonic" [("S", covDemoDataset)] []
      clearDemoParams rtClearNan [1] 10 (fun _ => 100) =
      Except.ok Val.negInf :=
  C4_amended_nan_flux_rejected [] [] "equilibrium" false "monotonic"
    [("S", covDemoDataset)] [] clearDemoParams rtClearNan [1] 10
    (fun _ => 100) [("S", 1)] [("S", -100)] [("S", 0)]
    (pt_spline_interp (List.replicate 15 100), 0) [1, 2] [Val.nan, Val.num 1]
    (by with_unfolding_all rfl) (by with_unfolding_all rfl)
    (by with_unfolding_all rfl) (by with_unfolding_all rfl)
    (by with_unfolding_all rfl) (by decide)

/-! ## C1: the cloud mass-fraction name contract -/

lemma buildCloudFractions_ok (params : List String) (c : Cube) :
    ∀ l : List String, (∀ x ∈ l, loglikeFractionName x ∈ params) →
    ∃ m, buildCloudFractions params c l = Except.ok m := by
  intro l
  induction l with
  | nil => exact fun _ => ⟨[], rfl⟩
  | cons x xs ih =>
      intro h
      obtain ⟨m, hm⟩ := ih fun y hy => h y (List.mem_cons_of_mem x hy)
      refine ⟨(x, c (loglikeFractionName x)) :: m, ?_⟩
      simp [buildCloudFractions, getP, h x (List.mem_cons_self x xs), hm,
        exceptBind_ok]

lemma priorClouds_spec (conv params : List String) (bounds : Bounds)
    (hne : conv ≠ [])
    (hfe : "Fe(c)" ∈ conv → "fe_fraction" ∈ params)
    (hmg : "MgSiO3(c)" ∈ conv → "mgsio3_fraction" ∈ params)
    (hna : "Na2S(c)" ∈ conv → "na2s_fraction" ∈ params)
    (hkc : "KCL(c)" ∈ conv → "kcl_fraction" ∈ params)
    (hfsed : "fsed" ∈ params) (hkzz : "kzz" ∈ params)
    (hsig : "sigma_lnorm" ∈ params) (c : Cube) :
    ∃ c2, priorClouds conv params bounds c = Except.ok c2 ∧
      ("Fe(c)" ∈ conv → c2 "fe_fraction" =
        log10_005 + (0 - log10_005) * c "fe_fraction") ∧
      ("MgSiO3(c)" ∈ conv → c2 "mgsio3_fraction" =
        log10_005 + (0 - log10_005) * c "mgsio3_fraction") ∧
      ("Na2S(c)" ∈ conv → c2 "na2s_fraction" =
        log10_005 + (0 - log10_005) * c "na2s_fraction") ∧
      ("KCL(c)" ∈ conv → c2 "kcl_fraction" =
        log10_005 + (0 - log10_005) * c "kcl_fraction") := by
  by_cases h1 : "Fe(c)" ∈ conv <;> by_cases h2 : "MgSiO3(c)" ∈ conv <;>
    by_cases h3 : "Na2S(c)" ∈ conv <;> by_cases h4 : "KCL(c)" ∈ conv <;>
  · simp [priorClouds, hne, h1, h2, h3, h4, drawScalar, getP, setP,
      hfsed, hkzz, hsig, hfe, hmg, hna, hkc, exceptBind_ok]

/-- C1: for every run configured with at least one (recognised) cloud
species under equilibrium chemistry, the three components agree on the
cloud mass-fraction parameter names: for each configured species, the name
registered by `set_parameters` equals the name `loglike` reads
(`f'{item[:-3].lower()}_fraction'` over the converted species name) and is
present in the schema; the prior's cloud stage completes (no missing-name
`KeyError`) and stores the transformed mass fraction under that same name;
and `loglike`'s cloud-fraction map build completes, so a cloudy evaluation
never looks up a parameter name absent from the schema's name-to-index
mapping. -/
theorem C1_cloud_fraction_name_contract (cs ls sn : List String)
    (bounds : Bounds) (q : Bool) (pt : String) (params : List String)
    (hne : cs ≠ [])
    (hsub : ∀ s ∈ cs, s ∈ recognizedClouds)
    (hp : set_parameters [] sn ls cs bounds "equilibrium" q pt =
      Except.ok params) :
    (∀ s ∈ cs, ∃ n, registeredFractionName s = some n ∧
      loglikeFractionName (stripCd s) = n ∧ n ∈ params) ∧
    (∀ c : Cube, ∃ c2,
      priorClouds (cs.map stripCd) params bounds c = Except.ok c2 ∧
      ∀ s ∈ cs, ∀ n, registeredFractionName s = some n →
        c2 n = log10_005 + (0 - log10_005) * c n) ∧
    (∀ c : Cube, ∃ m,
      buildCloudFractions params c (cs.map stripCd) = Except.ok m) := by
  have hparams : params = setParametersList sn ls cs bounds "equilibrium" q pt := by
    simp [set_parameters] at hp
    exact hp.symm
  have hmemP : ∀ nm : String, nm ∈ cloudBlock cs → nm ∈ params := by
    intro nm h
    rw [hparams]
    unfold setParametersList
    exact List.mem_append_left _ (List.mem_append_left _
      (List.mem_append_left _ (List.mem_append_right _ h)))
  have hfeB : "Fe(c)_cd" ∈ cs → "fe_fraction" ∈ params := fun h =>
    hmemP _ (by simp [cloudBlock, hne, h])
  have hmgB : "MgSiO3(c)_cd" ∈ cs → "mgsio3_fraction" ∈ params := fun h =>
    hmemP _ (by simp [cloudBlock, hne, h])
  have hnaB : "Na2S(c)_cd" ∈ cs → "na2s_fraction" ∈ params := fun h =>
    hmemP _ (by simp [cloudBlock, hne, h])
  have hkcB : "KCL(c)_cd" ∈ cs → "kcl_fraction" ∈ params := fun h =>
    hmemP _ (by simp [cloudBlock, hne, h])
  have hfsed : "fsed" ∈ params := hmemP _ (by simp [cloudBlock, hne])
  have hkzz : "kzz" ∈ params := hmemP _ (by simp [cloudBlock, hne])
  have hsig : "sigma_lnorm" ∈ params := hmemP _ (by simp [cloudBlock, hne])
  have hcases : ∀ s ∈ cs, s = "Fe(c)_cd" ∨ s = "MgSiO3(c)_cd" ∨
      s = "Na2S(c)_cd" ∨ s = "KCL(c)_cd" := by
    intro s hs
    have := hsub s hs
    simpa [recognizedClouds] using this
  have hconvFe : "Fe(c)" ∈ cs.map stripCd → "Fe(c)_cd" ∈ cs := by
    intro h
    obtain ⟨s, hs, hsx⟩ := List.mem_map.mp h
    rcases hcases s hs with rfl | rfl | rfl | rfl
    · exact hs
    all_goals exact absurd hsx (by with_unfolding_all decide)
  have hconvMg : "MgSiO3(c)" ∈ cs.map stripCd → "MgSiO3(c)_cd" ∈ cs := by
    intro h
    obtain ⟨s, hs, hsx⟩ := List.mem_map.mp h
    rcases hcases s hs with rfl | rfl | rfl | rfl
    · exact absurd hsx (by with_unfolding_all decide)
    · exact hs
    all_goals exact absurd hsx (by with_unfolding_all decide)
  have hconvNa : "Na2S(c)" ∈ cs.map stripCd → "Na2S(c)_cd" ∈ cs := by
    intro h
    obtain ⟨s, hs, hsx⟩ := List.mem_map.mp h
    rcases hcases s hs with rfl | rfl | rfl | rfl
    · exact absurd hsx (by with_unfolding_all decide)
    · exact absurd hsx (by with_unfolding_all decide)
    · exact hs
    · exact absurd hsx (by with_unfolding_all decide)
  have hconvKc : "KCL(c)" ∈ cs.map stripCd → "KCL(c)_cd" ∈ cs := by
    intro h
    obtain ⟨s, hs, hsx⟩ := List.mem_map.mp h
    rcases hcases s hs with rfl | rfl | rfl | rfl
    · exact absurd hsx (by with_unfolding_all decide)
    · exact absurd hsx (by with_unfolding_all decide)
    · exact absurd hsx (by with_unfolding_all decide)
    · exact hs
  have hneConv : cs.map stripCd ≠ [] := by
    simpa using hne
  refine ⟨?_, ?_, ?_⟩
  · intro s hs
    rcases hcases s hs with rfl | rfl | rfl | rfl
    · exact ⟨"fe_fraction", rfl, by with_unfolding_all decide, hfeB hs⟩
    · exact ⟨"mgsio3_fraction", rfl, by with_unfolding_all decide, hmgB hs⟩
    · exact ⟨"na2s_fraction", rfl, by with_unfolding_all decide, hnaB hs⟩
    · exact ⟨"kcl_fraction", rfl, by with_unfolding_all decide, hkcB hs⟩
  · intro c
    obtain ⟨c2, hok, hfeE, hmgE, hnaE, hkcE⟩ := priorClouds_spec
      (cs.map stripCd) params bounds hneConv
      (fun h => hfeB (hconvFe h)) (fun h => hmgB (hconvMg h))
      (fun h => hnaB (hconvNa h)) (fun h => hkcB (hconvKc h))
      hfsed hkzz hsig c
    refine ⟨c2, hok, ?_⟩
    intro s hs n hn
    rcases hcases s hs with rfl | rfl | rfl | rfl
    · cases hn
      exact hfeE (List.mem_map.mpr ⟨_, hs, by with_unfolding_all decide⟩)
    · cases hn
      exact hmgE (List.mem_map.mpr ⟨_, hs, by with_unfolding_all decide⟩)
    · cases hn
      exact hnaE (List.mem_map.mpr ⟨_, hs, by with_unfolding_all decide⟩)
    · cases hn
      exact hkcE (List.mem_map.mpr ⟨_, hs, by with_unfolding_all decide⟩)
  · intro c
    apply buildCloudFractions_ok
    intro x hx
    obtain ⟨s, hs, hsx⟩ := List.mem_map.mp hx
    rcases hcases s hs with rfl | rfl | rfl | rfl
    · rw [← hsx]
      exact (by with_unfolding_all decide : loglikeFractionName (stripCd "Fe(c)_cd") =
        "fe_fraction") ▸ hfeB hs
    · rw [← hsx]
      exact (by with_unfolding_all decide : loglikeFractionName (stripCd "MgSiO3(c)_cd") =
        "mgsio3_fraction") ▸ hmgB hs
    · rw [← hsx]
      exact (by with_unfolding_all decide : loglikeFractionName (stripCd "Na2S(c)_cd") =
        "na2s_fraction") ▸ hnaB hs
    · rw [← hsx]
      exact (by with_unfolding_all decide : loglikeFractionName (stripCd "KCL(c)_cd") =
        "kcl_fraction") ▸ hkcB hs

/-- The schema of a cloudy equilibrium `monotonic` run with cloud species
Fe(c)_cd and KCL(c)_cd. -/
def feKclParams : List String :=
  ["logg", "radius"] ++ (List.range 15).map tName ++
  ["metallicity", "c_o_ratio", "fe_fraction", "kcl_fraction", "fsed", "kzz",
   "sigma_lnorm"]

/-- Witness for C1 at the concrete cloud configuration
`[Fe(c)_cd, KCL(c)_cd]`. -/
theorem C1_witness :
    (∀ s ∈ ["Fe(c)_cd", "KCL(c)_cd"], ∃ n, registeredFractionName s = some n ∧
      loglikeFractionName (stripCd s) = n ∧ n ∈ feKclParams) ∧
    (∀ c : Cube, ∃ c2,
      priorClouds (["Fe(c)_cd", "KCL(c)_cd"].map stripCd) feKclParams [] c =
        Except.ok c2 ∧
      ∀ s ∈ ["Fe(c)_cd", "KCL(c)_cd"], ∀ n, registeredFractionName s = some n →
        c2 n = log10_005 + (0 - log10_005) * c n) ∧
    (∀ c : Cube, ∃ m,
      buildCloudFractions feKclParams c (["Fe(c)_cd", "KCL(c)_cd"].map stripCd) =
        Except.ok m) :=
  C1_cloud_fraction_name_contract ["Fe(c)_cd", "KCL(c)_cd"] [] [] [] false
    "monotonic" feKclParams (by decide) (by decide)
    (by with_unfolding_all rfl)

/-! ## Inversion and frame lemmas for the prior pipeline -/

lemma bind_eq_ok {e a b : Type} {x : Except e a} {f : a → Except e b} {y : b}
    (h : (x >>= f) = Except.ok y) : ∃ z, x = Except.ok z ∧ f z = Except.ok y := by
  cases x with
  | ok z => exact ⟨z, rfl, h⟩
  | error err => exact Except.noConfusion h

/-- `Except` bind on an error. -/
lemma exceptBind_error {e a b : Type} (err : e) (f : a → Except e b) :
    ((Except.error err : Except e a) >>= f) = Except.error err := rfl

lemma drawScalar_ok {params : List String} {bounds : Bounds} {c : Cube}
    {n : String} {lo hi : ℚ} (h : n ∈ params) :
    drawScalar params bounds c n lo hi = Except.ok
      ((fun m => if m = n then dval bounds n lo hi (c n) else c m),
        dval bounds n lo hi (c n)) := by
  simp [drawScalar, getP, setP, h, exceptBind_ok]

lemma drawScalar_inv {params : List String} {bounds : Bounds} {c : Cube}
    {n : String} {lo hi : ℚ} {c2 : Cube} {v : ℚ}
    (h : drawScalar params bounds c n lo hi = Except.ok (c2, v)) :
    c2 n = dval bounds n lo hi (c n) ∧ v = dval bounds n lo hi (c n) ∧
      ∀ m, m ≠ n → c2 m = c m := by
  by_cases hn : n ∈ params
  · rw [drawScalar_ok hn] at h
    rw [Except.ok.injEq, Prod.mk.injEq] at h
    obtain ⟨hc, hv⟩ := h
    subst hc
    subst hv
    exact ⟨by simp, rfl, fun m hm => by simp [hm]⟩
  · simp [drawScalar, getP, hn, exceptBind_error] at h

/-- Injectivity of the knot names in the range used by the profiles. -/
lemma tName_inj15 : ∀ i < 15, ∀ j < 15, tName i = tName j → i = j := by
  with_unfolding_all decide

lemma tName_notin_builtin_iff : ∀ i < 15, tName i ∈ builtinNames := by
  with_unfolding_all decide

lemma getP_inv {params : List String} {c : Cube} {n : String} {u : ℚ}
    (h : getP params c n = Except.ok u) : u = c n := by
  by_cases hn : n ∈ params
  · simp [getP, hn] at h
    exact h.symm
  · simp [getP, hn] at h

lemma setP_inv {params : List String} {c : Cube} {n : String} {v : ℚ}
    {c2 : Cube} (h : setP params c n v = Except.ok c2) :
    c2 n = v ∧ ∀ m, m ≠ n → c2 m = c m := by
  by_cases hn : n ∈ params
  · simp [setP, hn] at h
    subst h
    exact ⟨by simp, fun m hm => by simp [hm]⟩
  · simp [setP, hn] at h

lemma priorMolliere_frame {params : List String} {bounds : Bounds}
    {c c2 : Cube} (h : priorMolliere params bounds c = Except.ok c2) :
    ∀ m, m ∉ ["tint", "t3", "t2", "t1", "alpha", "log_delta"] → c2 m = c m := by
  unfold priorMolliere at h
  obtain ⟨⟨ca, tint⟩, h1, h⟩ := bind_eq_ok h
  obtain ⟨u3, h2, h⟩ := bind_eq_ok h
  obtain ⟨cb, h3, h⟩ := bind_eq_ok h
  obtain ⟨u2, h4, h⟩ := bind_eq_ok h
  obtain ⟨cc, h5, h⟩ := bind_eq_ok h
  obtain ⟨u1, h6, h⟩ := bind_eq_ok h
  obtain ⟨cd, h7, h⟩ := bind_eq_ok h
  obtain ⟨⟨ce, alpha⟩, h8, h⟩ := bind_eq_ok h
  obtain ⟨uld, h9, h⟩ := bind_eq_ok h
  obtain ⟨cf, h10, h⟩ := bind_eq_ok h
  cases h
  intro m hm
  simp only [List.mem_cons, List.not_mem_nil, or_false, not_or] at hm
  obtain ⟨m1, m2, m3, m4, m5, m6⟩ := hm
  rw [(setP_inv h10).2 m m6, (drawScalar_inv h8).2.2 m m5,
    (setP_inv h7).2 m m4, (setP_inv h5).2 m m3, (setP_inv h3).2 m m2,
    (drawScalar_inv h1).2.2 m m1]

lemma freeKnotLoop_frame {params : List String} :
    ∀ (n : Nat) (c c2 : Cube), freeKnotLoop params n c = Except.ok c2 →
    ∀ m, (∀ i, i < n → m ≠ tName i) → c2 m = c m := by
  intro n
  induction n with
  | zero =>
      intro c c2 h m _
      cases h
      rfl
  | succ k ih =>
      intro c c2 h m hm
      unfold freeKnotLoop at h
      obtain ⟨ca, h1, h⟩ := bind_eq_ok h
      obtain ⟨u, h2, h⟩ := bind_eq_ok h
      rw [(setP_inv h).2 m (hm k (Nat.lt_succ_self k))]
      exact ih c ca h1 m fun i hi => hm i (Nat.lt_succ_of_lt hi)

lemma priorFree_frame {params : List String} {c c2 : Cube}
    (h : priorFree params c = Except.ok c2) :
    ∀ m, (∀ i, i < 15 → m ≠ tName i) → m ≠ "beta_r" → m ≠ "gamma_r" →
      c2 m = c m := by
  unfold priorFree at h
  obtain ⟨ca, h1, h⟩ := bind_eq_ok h
  obtain ⟨ub, h2, h⟩ := bind_eq_ok h
  obtain ⟨ug, h3, h⟩ := bind_eq_ok h
  obtain ⟨cb, h4, h⟩ := bind_eq_ok h
  obtain ⟨cc, h5, h⟩ := bind_eq_ok h
  cases h
  intro m hmt hmb hmg
  rw [(setP_inv h5).2 m hmg, (setP_inv h4).2 m hmb]
  exact freeKnotLoop_frame 15 c ca h1 m hmt

lemma monoKnotLoop_frame {params : List String} :
    ∀ (n : Nat) (c c2 : Cube), monoKnotLoop params n c = Except.ok c2 →
    ∀ m, (∀ i, i < n → m ≠ tName i) → c2 m = c m := by
  intro n
  induction n with
  | zero =>
      intro c c2 h m _
      cases h
      rfl
  | succ k ih =>
      intro c c2 h m hm
      unfold monoKnotLoop at h
      obtain ⟨up, h1, h⟩ := bind_eq_ok h
      obtain ⟨u, h2, h⟩ := bind_eq_ok h
      obtain ⟨ca, h3, h⟩ := bind_eq_ok h
      rw [ih ca c2 h m fun i hi => hm i (Nat.lt_succ_of_lt hi)]
      exact (setP_inv h3).2 m (hm k (Nat.lt_succ_self k))

lemma priorMonotonic_frame {params : List String} {c c2 : Cube}
    (h : priorMonotonic params c = Except.ok c2) :
    ∀ m, (∀ i, i < 15 → m ≠ tName i) → c2 m = c m := by
  unfold priorMonotonic at h
  obtain ⟨u14, h1, h⟩ := bind_eq_ok h
  obtain ⟨ca, h2, h⟩ := bind_eq_ok h
  intro m hm
  rw [monoKnotLoop_frame 14 ca c2 h m fun i hi => hm i (Nat.lt_succ_of_lt hi)]
  exact (setP_inv h2).2 m (hm 14 (by norm_num))

lemma priorPt_frame {pt : String} {params : List String} {bounds : Bounds}
    {c c2 : Cube} (h : priorPt pt params bounds c = Except.ok c2) :
    ∀ m, (∀ i, i < 15 → m ≠ tName i) →
      m ∉ ["tint", "t3", "t2", "t1", "alpha", "log_delta", "beta_r", "gamma_r"] →
      c2 m = c m := by
  unfold priorPt at h
  intro m hmt hml
  simp only [List.mem_cons, List.not_mem_nil, or_false, not_or] at hml
  obtain ⟨n1, n2, n3, n4, n5, n6, n7, n8⟩ := hml
  split at h
  · exact priorMolliere_frame h m (by simp [n1, n2, n3, n4, n5, n6])
  · split at h
    · exact priorFree_frame h m hmt n7 n8
    · split at h
      · exact priorMonotonic_frame h m hmt
      · cases h
        rfl

lemma freeAbundLoop_frame {params : List String} {bounds : Bounds} :
    ∀ (l : List String) (c : Cube) (d : List (String × ℚ)) (c2 : Cube)
      (d2 : List (String × ℚ)),
    freeAbundLoop params bounds l c d = Except.ok (c2, d2) →
    ∀ m, m ∉ l → c2 m = c m := by
  intro l
  induction l with
  | nil =>
      intro c d c2 d2 h m _
      rw [show freeAbundLoop params bounds [] c d = Except.ok (c, d) from rfl]
        at h
      rw [Except.ok.injEq, Prod.mk.injEq] at h
      rw [← h.1]
  | cons item rest ih =>
      intro c d c2 d2 h m hm
      have hm1 : m ≠ item := fun he => hm (he ▸ List.mem_cons_self item rest)
      have hm2 : m ∉ rest := fun he => hm (List.mem_cons_of_mem item he)
      unfold freeAbundLoop at h
      split at h
      · obtain ⟨u, h1, h⟩ := bind_eq_ok h
        obtain ⟨ca, h2, h⟩ := bind_eq_ok h
        rw [ih ca d c2 d2 h m hm2]
        exact (setP_inv h2).2 m hm1
      · split at h
        · obtain ⟨u, h1, h⟩ := bind_eq_ok h
          obtain ⟨ca, h2, h⟩ := bind_eq_ok h
          rw [ih ca _ c2 d2 h m hm2]
          exact (setP_inv h2).2 m hm1
        · exact ih c d c2 d2 h m hm2

lemma priorFreeChem_frame {ls params : List String} {bounds : Bounds}
    {c c2 : Cube} (h : priorFreeChem ls params bounds c = Except.ok c2) :
    ∀ m, m ∉ ls → c2 m = c m := by
  unfold priorFreeChem at h
  obtain ⟨⟨ca, d⟩, h1, h⟩ := bind_eq_ok h
  intro m hm
  have hloop : ca m = c m := freeAbundLoop_frame ls c [] ca d h1 m hm
  have hstep : ∀ v : ℚ, ∀ nm, nm ∈ ls → setP params ca nm v = Except.ok c2 →
      c2 m = c m := by
    intro v nm hnm hset
    rw [(setP_inv hset).2 m fun he => hm (he ▸ hnm)]
    exact hloop
  by_cases hna : ("Na" ∈ ls ∨ "Na_lor_cut" ∈ ls ∨ "Na_burrows" ∈ ls) <;>
    by_cases hk1 : "K" ∈ ls <;> by_cases hk2 : "K_lor_cut" ∈ ls <;>
    by_cases hk3 : "K_burrows" ∈ ls <;>
    simp only [hna, hk1, hk2, hk3, if_true, if_false, ite_true, ite_false,
      eq_self_iff_true] at h <;>
    first
      | exact Except.noConfusion h
      | (cases h; exact hloop)
      | exact hstep _ "K" hk1 h
      | exact hstep _ "K_lor_cut" hk2 h
      | exact hstep _ "K_burrows" hk3 h

lemma priorChem_frame {chem : String} {ls params : List String}
    {bounds : Bounds} {c c2 : Cube}
    (h : priorChem chem ls params bounds c = Except.ok c2) :
    ∀ m, m ∉ ls → m ≠ "metallicity" → m ≠ "c_o_ratio" → c2 m = c m := by
  unfold priorChem at h
  intro m hml hm1 hm2
  split at h
  · obtain ⟨⟨ca, v1⟩, h1, h⟩ := bind_eq_ok h
    obtain ⟨⟨cb, v2⟩, h2, h⟩ := bind_eq_ok h
    cases h
    rw [(drawScalar_inv h2).2.2 m hm2, (drawScalar_inv h1).2.2 m hm1]
  · split at h
    · exact priorFreeChem_frame h m hml
    · cases h
      rfl

lemma priorQuench_frame {q : Bool} {params : List String} {bounds : Bounds}
    {c c2 : Cube} (h : priorQuench q params bounds c = Except.ok c2) :
    ∀ m, m ≠ "log_p_quench" → c2 m = c m := by
  unfold priorQuench at h
  intro m hm
  split at h
  · obtain ⟨⟨ca, v⟩, h1, h⟩ := bind_eq_ok h
    cases h
    exact (drawScalar_inv h1).2.2 m hm
  · cases h
    rfl

/-- The names written by the cloud stage of `prior`. -/
def cloudStageNames : List String :=
  ["fe_fraction", "mgsio3_fraction", "na2s_fraction", "kcl_fraction",
   "fsed", "kzz", "sigma_lnorm"]

lemma priorClouds_frame {conv params : List String} {bounds : Bounds}
    {c c2 : Cube} (h : priorClouds conv params bounds c = Except.ok c2) :
    ∀ m, m ∉ cloudStageNames → c2 m = c m := by
  unfold priorClouds at h
  intro m hm
  simp only [cloudStageNames, List.mem_cons, List.not_mem_nil, or_false,
    not_or] at hm
  obtain ⟨m1, m2, m3, m4, m5, m6, m7⟩ := hm
  by_cases hne : conv ≠ []
  · rw [if_pos hne] at h
    obtain ⟨ca, ha, h⟩ := bind_eq_ok h
    obtain ⟨cb, hb, h⟩ := bind_eq_ok h
    obtain ⟨cc, hc, h⟩ := bind_eq_ok h
    obtain ⟨cd, hd, h⟩ := bind_eq_ok h
    obtain ⟨⟨ce, v1⟩, he, h⟩ := bind_eq_ok h
    obtain ⟨⟨cf, v2⟩, hf, h⟩ := bind_eq_ok h
    obtain ⟨⟨cg, v3⟩, hg, h⟩ := bind_eq_ok h
    cases h
    have step : ∀ (cond : Prop) [Decidable cond] (nm : String)
        (cx cy : Cube), m ≠ nm →
        (if cond then do
            let u ← getP params cx nm
            setP params cx nm (log10_005 + (0 - log10_005) * u)
          else pure cx) = Except.ok cy → cy m = cx m := by
      intro cond _ nm cx cy hnm hif
      split at hif
      · obtain ⟨u, hu, hs⟩ := bind_eq_ok hif
        exact (setP_inv hs).2 m hnm
      · cases hif
        rfl
    rw [(drawScalar_inv hg).2.2 m m7, (drawScalar_inv hf).2.2 m m6,
      (drawScalar_inv he).2.2 m m5,
      step _ "kcl_fraction" cc cd m4 hd, step _ "na2s_fraction" cb cc m3 hc,
      step _ "mgsio3_fraction" ca cb m2 hb, step _ "fe_fraction" c ca m1 ha]
  · rw [if_neg hne] at h
    cases h
    rfl

lemma priorNuisanceLoop_frame {params : List String} {bounds : Bounds}
    {i : Nat} {pre : String} :
    ∀ (l : List String) (c c2 : Cube),
    priorNuisanceLoop params bounds i pre l c = Except.ok c2 →
    ∀ m, (∀ item ∈ l, m ≠ pre ++ item) → c2 m = c m := by
  intro l
  induction l with
  | nil =>
      intro c c2 h m _
      cases h
      rfl
  | cons item rest ih =>
      intro c c2 h m hm
      unfold priorNuisanceLoop at h
      split at h
      · obtain ⟨u, h1, h⟩ := bind_eq_ok h
        obtain ⟨ca, h2, h⟩ := bind_eq_ok h
        rw [ih ca c2 h m fun x hx => hm x (List.mem_cons_of_mem item hx)]
        exact (setP_inv h2).2 m (hm item (List.mem_cons_self item rest))
      · exact ih c c2 h m fun x hx => hm x (List.mem_cons_of_mem item hx)

lemma tName_ne {a b : Nat} (ha : a < 15) (hb : b < 15) (hab : a ≠ b) :
    tName a ≠ tName b :=
  fun he => hab (tName_inj15 a ha b hb he)

lemma monoKnotLoop_spec {params : List String} :
    ∀ (n : Nat), n ≤ 14 → ∀ (c c2 : Cube),
      monoKnotLoop params n c = Except.ok c2 →
      c2 (tName n) = c (tName n) ∧
      ∀ j, j < n → c2 (tName j) = c2 (tName (j + 1)) * (1 - c (tName j)) := by
  intro n
  induction n with
  | zero =>
      intro _ c c2 h
      cases h
      exact ⟨rfl, fun j hj => absurd hj (Nat.not_lt_zero j)⟩
  | succ k ih =>
      intro hn c c2 h
      have hk15 : k < 15 := by omega
      have hk115 : k + 1 < 15 := by omega
      unfold monoKnotLoop at h
      obtain ⟨up, h1, h⟩ := bind_eq_ok h
      obtain ⟨u, h2, h⟩ := bind_eq_ok h
      obtain ⟨ca, h3, h⟩ := bind_eq_ok h
      have hup := getP_inv h1
      have hu := getP_inv h2
      have hset := setP_inv h3
      have hk14 : k ≤ 14 := Nat.le_of_succ_le hn
      obtain ⟨ih1, ih2⟩ := ih hk14 ca c2 h
      have hframe := @monoKnotLoop_frame params k ca c2 h
      have hfirst : c2 (tName (k + 1)) = c (tName (k + 1)) := by
        rw [hframe (tName (k + 1))
          (fun i hi => tName_ne hk115 (by omega) (by omega))]
        exact hset.2 _ (tName_ne hk115 hk15 (by omega))
      refine ⟨hfirst, ?_⟩
      intro j hj
      rcases Nat.lt_succ_iff_lt_or_eq.mp hj with hjk | rfl
      · rw [ih2 j hjk, hset.2 (tName j) (tName_ne (by omega) hk15 (by omega))]
      · rw [ih1, hset.1, hup, hu, hfirst]

lemma priorMonotonic_spec {params : List String} {c c2 : Cube}
    (h : priorMonotonic params c = Except.ok c2) :
    c2 (tName 14) = 10000 * c (tName 14) ∧
    ∀ j, j < 14 → c2 (tName j) = c2 (tName (j + 1)) * (1 - c (tName j)) := by
  unfold priorMonotonic at h
  obtain ⟨u14, h1, h⟩ := bind_eq_ok h
  obtain ⟨ca, h2, h⟩ := bind_eq_ok h
  have hu := getP_inv h1
  have hset := setP_inv h2
  obtain ⟨hml1, hml2⟩ := @monoKnotLoop_spec params 14 (by norm_num)
    ca c2 h
  constructor
  · rw [hml1, hset.1, hu]
  · intro j hj
    rw [hml2 j hj, hset.2 (tName j) (tName_ne (by omega) (by norm_num) (by omega))]

lemma tName_ne_scaling (i : Nat) (item : String) : tName i ≠ "scaling_" ++ item :=
  strAppend_ne_of_head (toString i) item rfl rfl (by decide)

lemma tName_ne_error (i : Nat) (item : String) : tName i ≠ "error_" ++ item :=
  strAppend_ne_of_head (toString i) item rfl rfl (by decide)

lemma tName_ne_wavelength (i : Nat) (item : String) :
    tName i ≠ "wavelength_" ++ item :=
  strAppend_ne_of_head (toString i) item rfl rfl (by decide)

lemma tName_ne_fixed : ∀ i < 15, tName i ≠ "logg" ∧ tName i ≠ "radius" ∧
    tName i ≠ "metallicity" ∧ tName i ≠ "c_o_ratio" ∧
    tName i ≠ "log_p_quench" ∧ tName i ∉ cloudStageNames := by
  with_unfolding_all decide

/-! ## C8: the monotonic profile produces ordered knots -/

/-- C8: for the `monotonic` P-T profile, for every unit-cube input, the 15
transformed temperature knots of the completed prior transform satisfy
`T_0 ≤ T_1 ≤ ... ≤ T_14` (each knot is its upper neighbour scaled by
`1 - u ∈ (0, 1]`, and the topmost knot is nonnegative), for every
configuration whose line species avoid the built-in parameter names. -/
theorem C8_monotonic_knots_sorted (sn ls conv : List String) (bounds : Bounds)
    (chem : String) (q : Bool) (params : List String) (c c2 : Cube)
    (hls : ∀ s ∈ ls, s ∉ builtinNames)
    (hcube : ∀ i, i < 15 → 0 ≤ c (tName i) ∧ c (tName i) < 1)
    (hok : prior sn ls conv bounds chem q "monotonic" params c =
      Except.ok c2) :
    ∀ i, i < 14 → c2 (tName i) ≤ c2 (tName (i + 1)) := by
  unfold prior at hok
  obtain ⟨⟨ca, v1⟩, hlogg, hok⟩ := bind_eq_ok hok
  obtain ⟨⟨cb, v2⟩, hrad, hok⟩ := bind_eq_ok hok
  obtain ⟨cc, hpt, hok⟩ := bind_eq_ok hok
  obtain ⟨cd, hch, hok⟩ := bind_eq_ok hok
  obtain ⟨ce, hqz, hok⟩ := bind_eq_ok hok
  obtain ⟨cf, hcl, hok⟩ := bind_eq_ok hok
  obtain ⟨cg, hn0, hok⟩ := bind_eq_ok hok
  obtain ⟨ch2, hn1, hok⟩ := bind_eq_ok hok
  obtain ⟨ci2, hn2, hok⟩ := bind_eq_ok hok
  cases hok
  have hmono : priorMonotonic params cb = Except.ok cc := by
    simpa [priorPt] using hpt
  have hcb : ∀ i, i < 15 → cb (tName i) = c (tName i) := by
    intro i hi
    obtain ⟨e1, e2, _⟩ := tName_ne_fixed i hi
    rw [(drawScalar_inv hrad).2.2 _ e2, (drawScalar_inv hlogg).2.2 _ e1]
  have hpres : ∀ i, i < 15 → c2 (tName i) = cc (tName i) := by
    intro i hi
    obtain ⟨_, _, e3, e4, e5, e6⟩ := tName_ne_fixed i hi
    rw [priorNuisanceLoop_frame sn ch2 c2 hn2 _
        (fun item _ => tName_ne_wavelength i item),
      priorNuisanceLoop_frame sn cg ch2 hn1 _
        (fun item _ => tName_ne_error i item),
      priorNuisanceLoop_frame sn cf cg hn0 _
        (fun item _ => tName_ne_scaling i item),
      priorClouds_frame hcl _ e6, priorQuench_frame hqz _ e5,
      priorChem_frame hch _
        (fun hm => (hls _ hm) (tName_notin_builtin_iff i hi)) e3 e4]
  obtain ⟨hv14, hvj⟩ := priorMonotonic_spec hmono
  have hnn : ∀ d, d ≤ 14 → 0 ≤ cc (tName (14 - d)) := by
    intro d
    induction d with
    | zero =>
        intro _
        rw [show (14 - 0 : Nat) = 14 from rfl, hv14, hcb 14 (by norm_num)]
        exact mul_nonneg (by norm_num) (hcube 14 (by norm_num)).1
    | succ dd ihd =>
        intro hd
        have hdd : dd ≤ 14 := by omega
        have hj : 14 - (dd + 1) < 14 := by omega
        rw [hvj _ hj]
        apply mul_nonneg
        · have he : 14 - (dd + 1) + 1 = 14 - dd := by omega
          rw [he]
          exact ihd hdd
        · rw [hcb _ (by omega)]
          have := (hcube (14 - (dd + 1)) (by omega)).2
          linarith
  intro i hi
  rw [hpres i (by omega), hpres (i + 1) (by omega), hvj i hi]
  have h0 : 0 ≤ cc (tName (i + 1)) := by
    have := hnn (14 - (i + 1)) (by omega)
    rwa [show 14 - (14 - (i + 1)) = i + 1 by omega] at this
  apply mul_le_of_le_one_right h0
  rw [hcb i (by omega)]
  have := (hcube i (by omega)).1
  linarith

/-- Witness for C8: at the all-0.5 cube of a concrete monotonic
configuration the completed prior transform has its two bottom knots in
order. -/
theorem C8_witness :
    (prior [] [] [] [] "equilibrium" false "monotonic" clearDemoParams
      (fun _ => 1/2)).map
      (fun c2 => decide (c2 (tName 0) ≤ c2 (tName 1))) = Except.ok true := by
  obtain ⟨c2, hok⟩ : ∃ c2, prior [] [] [] [] "equilibrium" false "monotonic"
      clearDemoParams (fun _ => 1/2) = Except.ok c2 := by
    cases hp : prior [] [] [] [] "equilibrium" false "monotonic"
        clearDemoParams (fun _ => 1/2) with
    | ok c2 => exact ⟨c2, rfl⟩
    | error e =>
        have hs : (prior [] [] [] [] "equilibrium" false "monotonic"
            clearDemoParams (fun _ => 1/2)).toOption.isSome = true := by
          with_unfolding_all rfl
        rw [hp] at hs
        exact Bool.noConfusion hs
  rw [hok]
  have hle := C8_monotonic_knots_sorted [] [] [] [] "equilibrium" false
    clearDemoParams (fun _ => 1/2) c2 (by simp)
    (fun i _ => by norm_num) hok 0 (by norm_num)
  show Except.ok (decide (c2 (tName 0) ≤ c2 (tName 1))) = Except.ok true
  rw [decide_eq_true hle]

/-! ## Success and value lemmas for the prior stages -/

/-- The value the free-chemistry loop leaves in the slot of a line species:
the bounds draw, the default `-10 u` draw, or (for a potassium variant
without bounds) the untouched cube value. -/
def freeVal (bounds : Bounds) (item : String) (u : ℚ) : ℚ :=
  match bounds.scalar item with
  | some (blo, bhi) => blo + (bhi - blo) * u
  | none => if item ∈ kVariants then u else -10 * u

/-- The `log_x_abund` dictionary the free-chemistry loop builds: only
species drawn with the default range are recorded (exactly as in the
source, species with explicit bounds are NOT recorded). -/
def freeDict (bounds : Bounds) (l : List String) (c : Cube) :
    List (String × ℚ) :=
  l.filterMap fun item =>
    match bounds.scalar item with
    | some _ => none
    | none => if item ∈ kVariants then none else some (item, -10 * c item)

lemma freeDict_congr {bounds : Bounds} {l : List String} {c c2 : Cube}
    (h : ∀ x ∈ l, c2 x = c x) : freeDict bounds l c2 = freeDict bounds l c := by
  unfold freeDict
  induction l with
  | nil => rfl
  | cons item rest ih =>
      simp only [List.filterMap_cons]
      rw [h item (List.mem_cons_self item rest),
        ih fun x hx => h x (List.mem_cons_of_mem item hx)]

lemma freeAbundLoop_cons {params : List String} {bounds : Bounds}
    {item : String} {rest : List String} {c : Cube} {d : List (String × ℚ)} :
    freeAbundLoop params bounds (item :: rest) c d =
      match bounds.scalar item with
      | some (blo, bhi) => do
          let u ← getP params c item
          let c2 ← setP params c item (blo + (bhi - blo) * u)
          freeAbundLoop params bounds rest c2 d
      | none =>
          if item ∉ kVariants then do
            let u ← getP params c item
            let v := -10 * u
            let c2 ← setP params c item v
            freeAbundLoop params bounds rest c2 (d ++ [(item, v)])
          else freeAbundLoop params bounds rest c d := rfl

lemma freeAbundLoop_spec {params : List String} {bounds : Bounds} :
    ∀ (l : List String) (c : Cube) (d : List (String × ℚ)),
    l.Nodup → (∀ item ∈ l, item ∈ params) →
    ∃ c2, freeAbundLoop params bounds l c d =
        Except.ok (c2, d ++ freeDict bounds l c) ∧
      (∀ m, m ∉ l → c2 m = c m) ∧
      (∀ item ∈ l, c2 item = freeVal bounds item (c item)) := by
  intro l
  induction l with
  | nil =>
      intro c d _ _
      exact ⟨c, by simp [freeAbundLoop, freeDict], fun m _ => rfl,
        fun item h => absurd h (List.not_mem_nil item)⟩
  | cons item rest ih =>
      intro c d hnd hmem
      have hmem1 : item ∈ params := hmem item (List.mem_cons_self item rest)
      have hnd1 : item ∉ rest := (List.nodup_cons.mp hnd).1
      have hndr : rest.Nodup := (List.nodup_cons.mp hnd).2
      have hmemr : ∀ x ∈ rest, x ∈ params := fun x hx =>
        hmem x (List.mem_cons_of_mem item hx)
      rcases hb : bounds.scalar item with _ | ⟨blo, bhi⟩
      · by_cases hk : item ∈ kVariants
        · obtain ⟨c2, hok, hframe, hval⟩ := ih c d hndr hmemr
          refine ⟨c2, ?_, ?_, ?_⟩
          · rw [show freeAbundLoop params bounds (item :: rest) c d =
                freeAbundLoop params bounds rest c d by
              rw [freeAbundLoop_cons, hb]; simp [hk]]
            rw [hok]
            congr 2
            unfold freeDict
            simp [List.filterMap_cons, hb, hk]
          · intro m hm
            exact hframe m fun hx => hm (List.mem_cons_of_mem item hx)
          · intro x hx
            rcases List.mem_cons.mp hx with rfl | hx2
            · rw [hframe x hnd1]
              unfold freeVal
              rw [hb]
              simp [hk]
            · exact hval x hx2
        · set v := -10 * c item with hv
          set cm : Cube := fun m => if m = item then v else c m with hcm
          obtain ⟨c2, hok, hframe, hval⟩ := ih cm (d ++ [(item, v)]) hndr hmemr
          have hcmr : ∀ x ∈ rest, cm x = c x := by
            intro x hx
            rw [hcm]
            simp only []
            exact if_neg fun he => hnd1 (by rwa [he] at hx)
          refine ⟨c2, ?_, ?_, ?_⟩
          · rw [show freeAbundLoop params bounds (item :: rest) c d =
                freeAbundLoop params bounds rest cm (d ++ [(item, v)]) by
              rw [freeAbundLoop_cons, hb]
              simp [hk, getP, setP, hmem1, exceptBind_ok, hcm, hv, neg_mul]]
            rw [hok]
            congr 2
            rw [freeDict_congr hcmr]
            unfold freeDict
            simp [List.filterMap_cons, hb, hk, List.append_assoc, hv]
          · intro m hm
            rw [hframe m fun hx => hm (List.mem_cons_of_mem item hx), hcm]
            simp only []
            exact if_neg fun he => hm (by rw [he]; exact List.mem_cons_self item rest)
          · intro x hx
            rcases List.mem_cons.mp hx with rfl | hx2
            · rw [hframe x hnd1, hcm]
              simp only [if_pos rfl]
              unfold freeVal
              rw [hb]
              simp [hk, hv]
            · rw [hval x hx2, hcmr x hx2]
      · set v := blo + (bhi - blo) * c item with hv
        set cm : Cube := fun m => if m = item then v else c m with hcm
        obtain ⟨c2, hok, hframe, hval⟩ := ih cm d hndr hmemr
        have hcmr : ∀ x ∈ rest, cm x = c x := by
          intro x hx
          rw [hcm]
          simp only []
          exact if_neg fun he => hnd1 (by rwa [he] at hx)
        refine ⟨c2, ?_, ?_, ?_⟩
        · rw [show freeAbundLoop params bounds (item :: rest) c d =
              freeAbundLoop params bounds rest cm d by
            rw [freeAbundLoop_cons, hb]
            simp [getP, setP, hmem1, exceptBind_ok, hcm, hv]]
          rw [hok]
          congr 2
          rw [freeDict_congr hcmr]
          unfold freeDict
          simp [List.filterMap_cons, hb]
        · intro m hm
          rw [hframe m fun hx => hm (List.mem_cons_of_mem item hx), hcm]
          simp only []
          exact if_neg fun he => hm (by rw [he]; exact List.mem_cons_self item rest)
        · intro x hx
          rcases List.mem_cons.mp hx with rfl | hx2
          · rw [hframe x hnd1, hcm]
            simp only [if_pos rfl]
            unfold freeVal
            rw [hb]
            simp [hv]
          · rw [hval x hx2, hcmr x hx2]

lemma priorFreeChem_spec {ls params : List String} {bounds : Bounds} {c : Cube}
    (hnd : ls.Nodup) (hmem : ∀ item ∈ ls, item ∈ params)
    (hna : "Na" ∈ ls ∨ "Na_lor_cut" ∈ ls ∨ "Na_burrows" ∈ ls) :
    ∃ c2, priorFreeChem ls params bounds c = Except.ok c2 ∧
      (∀ m, m ∉ ls → c2 m = c m) ∧
      (∀ item ∈ ls, item ∉ kVariants →
        c2 item = freeVal bounds item (c item)) ∧
      ("K" ∈ ls → c2 "K" = potassium_abundance (freeDict bounds ls c)) ∧
      ("K" ∉ ls → "K_lor_cut" ∈ ls →
        c2 "K_lor_cut" = potassium_abundance (freeDict bounds ls c)) ∧
      ("K" ∉ ls → "K_lor_cut" ∉ ls → "K_burrows" ∈ ls →
        c2 "K_burrows" = potassium_abundance (freeDict bounds ls c)) := by
  obtain ⟨ca, hok, hframe, hval⟩ := freeAbundLoop_spec ls c [] hnd hmem
  have hstep : ∀ nm, nm ∈ kVariants → nm ∈ ls →
      ∃ c2, setP params ca nm (potassium_abundance (freeDict bounds ls c)) =
          Except.ok c2 ∧
        (∀ m, m ∉ ls → c2 m = c m) ∧
        (∀ item ∈ ls, item ∉ kVariants →
          c2 item = freeVal bounds item (c item)) ∧
        c2 nm = potassium_abundance (freeDict bounds ls c) := by
    intro nm hnmk hnml
    refine ⟨fun m => if m = nm then
        potassium_abundance (freeDict bounds ls c) else ca m,
      by simp [setP, hmem nm hnml], ?_, ?_, by simp⟩
    · intro m hm
      rw [show (fun m => if m = nm then
          potassium_abundance (freeDict bounds ls c) else ca m) m =
          ca m from if_neg fun he => hm (by rw [he]; exact hnml)]
      exact hframe m hm
    · intro item hil hik
      rw [show (fun m => if m = nm then
          potassium_abundance (freeDict bounds ls c) else ca m) item =
          ca item from if_neg fun he => hik (by rw [he]; exact hnmk)]
      exact hval item hil
  unfold priorFreeChem
  rw [hok]
  simp only [exceptBind_ok, List.nil_append]
  by_cases hk1 : "K" ∈ ls
  · obtain ⟨c2, hset, hfr, hvl, hnm⟩ := hstep "K" (by decide) hk1
    refine ⟨c2, ?_, hfr, hvl, fun _ => hnm, fun h _ => absurd hk1 h,
      fun h _ _ => absurd hk1 h⟩
    simp [hna, hk1, hset]
  · by_cases hk2 : "K_lor_cut" ∈ ls
    · obtain ⟨c2, hset, hfr, hvl, hnm⟩ := hstep "K_lor_cut" (by decide) hk2
      refine ⟨c2, ?_, hfr, hvl, fun h => absurd h hk1, fun _ _ => hnm,
        fun _ h _ => absurd hk2 h⟩
      simp [hna, hk1, hk2, hset]
    · by_cases hk3 : "K_burrows" ∈ ls
      · obtain ⟨c2, hset, hfr, hvl, hnm⟩ := hstep "K_burrows" (by decide) hk3
        refine ⟨c2, ?_, hfr, hvl, fun h => absurd h hk1,
          fun _ h => absurd h hk2, fun _ _ _ => hnm⟩
        simp [hna, hk1, hk2, hk3, hset]
      · refine ⟨ca, ?_, hframe, fun item hil hik => hval item hil,
          fun h => absurd h hk1, fun _ h => absurd h hk2,
          fun _ _ h => absurd h hk3⟩
        simp [hna, hk1, hk2, hk3]

lemma priorFreeChem_noNa {ls params : List String} {bounds : Bounds} {c : Cube}
    (hnd : ls.Nodup) (hmem : ∀ item ∈ ls, item ∈ params)
    (hk : "K" ∈ ls ∨ "K_lor_cut" ∈ ls ∨ "K_burrows" ∈ ls)
    (hna : ¬("Na" ∈ ls ∨ "Na_lor_cut" ∈ ls ∨ "Na_burrows" ∈ ls)) :
    priorFreeChem ls params bounds c =
      Except.error (PErr.nameError "log_x_k_abund") := by
  obtain ⟨ca, hok, _, _⟩ := freeAbundLoop_spec ls c [] hnd hmem
  unfold priorFreeChem
  rw [hok]
  simp only [exceptBind_ok]
  by_cases hk1 : "K" ∈ ls <;> by_cases hk2 : "K_lor_cut" ∈ ls <;>
    by_cases hk3 : "K_burrows" ∈ ls <;>
    simp [hna, hk1, hk2, hk3] <;> tauto

lemma priorMolliere_isOk {params : List String} {bounds : Bounds} {c : Cube}
    (h1 : "tint" ∈ params) (h2 : "t3" ∈ params) (h3 : "t2" ∈ params)
    (h4 : "t1" ∈ params) (h5 : "alpha" ∈ params) (h6 : "log_delta" ∈ params) :
    ∃ c2, priorMolliere params bounds c = Except.ok c2 := by
  simp [priorMolliere, drawScalar, getP, setP, h1, h2, h3, h4, h5, h6,
    exceptBind_ok]

lemma priorMolliere_inv {params : List String} {bounds : Bounds} {c c2 : Cube}
    (h : priorMolliere params bounds c = Except.ok c2) :
    c2 "tint" = dval bounds "tint" 500 3000 (c "tint") ∧
    c2 "alpha" = dval bounds "alpha" 1 2 (c "alpha") := by
  unfold priorMolliere at h
  obtain ⟨⟨ca, tint⟩, h1, h⟩ := bind_eq_ok h
  obtain ⟨u3, h2, h⟩ := bind_eq_ok h
  obtain ⟨cb, h3, h⟩ := bind_eq_ok h
  obtain ⟨u2, h4, h⟩ := bind_eq_ok h
  obtain ⟨cc, h5, h⟩ := bind_eq_ok h
  obtain ⟨u1, h6, h⟩ := bind_eq_ok h
  obtain ⟨cd, h7, h⟩ := bind_eq_ok h
  obtain ⟨⟨ce, alpha⟩, h8, h⟩ := bind_eq_ok h
  obtain ⟨uld, h9, h⟩ := bind_eq_ok h
  obtain ⟨cf, h10, h⟩ := bind_eq_ok h
  cases h
  constructor
  · rw [(setP_inv h10).2 _ (by decide), (drawScalar_inv h8).2.2 _ (by decide),
      (setP_inv h7).2 _ (by decide), (setP_inv h5).2 _ (by decide),
      (setP_inv h3).2 _ (by decide)]
    exact (drawScalar_inv h1).1
  · rw [(setP_inv h10).2 _ (by decide)]
    rw [(drawScalar_inv h8).1]
    congr 1
    rw [(setP_inv h7).2 _ (by decide), (setP_inv h5).2 _ (by decide),
      (setP_inv h3).2 _ (by decide), (drawScalar_inv h1).2.2 _ (by decide)]

lemma tName_ne_bg : ∀ i < 15, tName i ≠ "beta_r" ∧ tName i ≠ "gamma_r" := by
  with_unfolding_all decide

lemma getP_exists {params : List String} {c : Cube} {n : String}
    (h : n ∈ params) : ∃ u, getP params c n = Except.ok u :=
  ⟨c n, by simp [getP, h]⟩

lemma setP_exists {params : List String} {c : Cube} {n : String} {v : ℚ}
    (h : n ∈ params) : ∃ c2, setP params c n v = Except.ok c2 :=
  ⟨fun m => if m = n then v else c m, by simp [setP, h]⟩

lemma exists_ok_bind {e a b : Type} {x : Except e a} {f : a → Except e b}
    (hx : ∃ v, x = Except.ok v) (hf : ∀ v, ∃ w, f v = Except.ok w) :
    ∃ w, (x >>= f) = Except.ok w := by
  obtain ⟨v, hv⟩ := hx
  obtain ⟨w, hw⟩ := hf v
  exact ⟨w, by rw [hv, exceptBind_ok, hw]⟩

lemma freeKnotLoop_isOk {params : List String} :
    ∀ n : Nat, (∀ i, i < n → tName i ∈ params) → ∀ c : Cube,
    ∃ c2, freeKnotLoop params n c = Except.ok c2 := by
  intro n
  induction n with
  | zero => exact fun _ c => ⟨c, rfl⟩
  | succ k ih =>
      intro hmem c
      unfold freeKnotLoop
      exact exists_ok_bind (ih (fun i hi => hmem i (Nat.lt_succ_of_lt hi)) c)
        fun ca => exists_ok_bind (getP_exists (hmem k (Nat.lt_succ_self k)))
          fun u => setP_exists (hmem k (Nat.lt_succ_self k))
lemma freeKnotLoop_inv {params : List String} :
    ∀ n : Nat, n ≤ 15 → ∀ c c2 : Cube,
    freeKnotLoop params n c = Except.ok c2 →
    ∀ i, i < n → c2 (tName i) = 8000 * c (tName i) := by
  intro n
  induction n with
  | zero => exact fun _ c c2 _ i hi => absurd hi (Nat.not_lt_zero i)
  | succ k ih =>
      intro hn c c2 h i hi
      unfold freeKnotLoop at h
      obtain ⟨ca, h1, h⟩ := bind_eq_ok h
      obtain ⟨u, h2, h⟩ := bind_eq_ok h
      have hu := getP_inv h2
      have hset := setP_inv h
      have hfr := freeKnotLoop_frame k c ca h1
      rcases Nat.lt_succ_iff_lt_or_eq.mp hi with hik | rfl
      · rw [hset.2 _ (tName_ne (by omega) (by omega) (by omega))]
        exact ih (by omega) c ca h1 i hik
      · rw [hset.1, hu,
          hfr (tName i) fun j hj => tName_ne (by omega) (by omega) (by omega)]

lemma priorFree_isOk {params : List String} {c : Cube}
    (hmem : ∀ i, i < 15 → tName i ∈ params)
    (hb : "beta_r" ∈ params) (hg : "gamma_r" ∈ params) :
    ∃ c2, priorFree params c = Except.ok c2 := by
  unfold priorFree
  exact exists_ok_bind (freeKnotLoop_isOk 15 hmem c)
    fun ca => exists_ok_bind (getP_exists hb)
      fun ub => exists_ok_bind (getP_exists hg)
        fun ug => exists_ok_bind (setP_exists hb)
          fun cb => exists_ok_bind (setP_exists hg) fun cc => ⟨cc, rfl⟩

lemma priorFree_inv {params : List String} {c c2 : Cube}
    (h : priorFree params c = Except.ok c2) :
    (∀ i, i < 15 → c2 (tName i) = 8000 * c (tName i)) ∧
    c2 "beta_r" = c "beta_r" ∧
    c2 "gamma_r" = invgamma_ppf (c "gamma_r") (c "beta_r") := by
  unfold priorFree at h
  obtain ⟨ca, h1, h⟩ := bind_eq_ok h
  obtain ⟨ub, h2, h⟩ := bind_eq_ok h
  obtain ⟨ug, h3, h⟩ := bind_eq_ok h
  obtain ⟨cb, h4, h⟩ := bind_eq_ok h
  obtain ⟨cc, h5, h⟩ := bind_eq_ok h
  cases h
  have hub : ub = c "beta_r" := by
    rw [getP_inv h2]
    exact freeKnotLoop_frame 15 c ca h1 _
      fun i hi => ((tName_ne_bg i hi).1).symm
  have hug : ug = c "gamma_r" := by
    rw [getP_inv h3]
    exact freeKnotLoop_frame 15 c ca h1 _
      fun i hi => ((tName_ne_bg i hi).2).symm
  refine ⟨?_, ?_, ?_⟩
  · intro i hi
    rw [(setP_inv h5).2 _ ((tName_ne_bg i hi).2),
      (setP_inv h4).2 _ ((tName_ne_bg i hi).1)]
    exact freeKnotLoop_inv 15 (le_refl 15) c ca h1 i hi
  · rw [(setP_inv h5).2 _ (by decide), (setP_inv h4).1, hub]
  · rw [(setP_inv h5).1, hub, hug]

lemma monoKnotLoop_isOk {params : List String} :
    ∀ n : Nat, (∀ i, i ≤ n → tName i ∈ params) → ∀ c : Cube,
    ∃ c2, monoKnotLoop params n c = Except.ok c2 := by
  intro n
  induction n with
  | zero => exact fun _ c => ⟨c, rfl⟩
  | succ k ih =>
      intro hmem c
      unfold monoKnotLoop
      exact exists_ok_bind (getP_exists (hmem (k + 1) (le_refl _)))
        fun up => exists_ok_bind (getP_exists (hmem k (by omega)))
          fun u => exists_ok_bind (setP_exists (hmem k (by omega)))
            fun ca => ih (fun i hi => hmem i (by omega)) ca

lemma priorMonotonic_isOk {params : List String} {c : Cube}
    (hmem : ∀ i, i < 15 → tName i ∈ params) :
    ∃ c2, priorMonotonic params c = Except.ok c2 := by
  unfold priorMonotonic
  exact exists_ok_bind (getP_exists (hmem 14 (by norm_num)))
    fun u14 => exists_ok_bind (setP_exists (hmem 14 (by norm_num)))
      fun ca => monoKnotLoop_isOk 14 (fun i hi => hmem i (by omega)) ca

lemma priorQuench_isOk {q : Bool} {params : List String} {bounds : Bounds}
    {c : Cube} (hmem : q = true → "log_p_quench" ∈ params) :
    ∃ c2, priorQuench q params bounds c = Except.ok c2 := by
  unfold priorQuench
  cases q with
  | false => exact ⟨c, rfl⟩
  | true =>
      simp only [if_true]
      exact exists_ok_bind ⟨_, drawScalar_ok (hmem rfl)⟩ fun p => ⟨p.1, rfl⟩

lemma priorQuench_inv {q : Bool} {params : List String} {bounds : Bounds}
    {c c2 : Cube} (h : priorQuench q params bounds c = Except.ok c2)
    (hq : q = true) :
    c2 "log_p_quench" = dval bounds "log_p_quench" (-6) 3 (c "log_p_quench") := by
  subst hq
  unfold priorQuench at h
  simp only [if_true] at h
  obtain ⟨⟨ca, v⟩, h1, h⟩ := bind_eq_ok h
  cases h
  exact (drawScalar_inv h1).1

lemma condFrac_frame {params : List String} {cond : Prop} [Decidable cond]
    {nm : String} {cx cy : Cube}
    (hif : (if cond then do
        let u ← getP params cx nm
        setP params cx nm (log10_005 + (0 - log10_005) * u)
      else pure cx) = Except.ok cy) : ∀ m, m ≠ nm → cy m = cx m := by
  intro m hm
  split at hif
  · obtain ⟨u, hu, hs⟩ := bind_eq_ok hif
    exact (setP_inv hs).2 m hm
  · cases hif
    rfl

lemma priorClouds_inv {conv params : List String} {bounds : Bounds}
    {c c2 : Cube} (h : priorClouds conv params bounds c = Except.ok c2)
    (hne : conv ≠ []) :
    c2 "fsed" = dval bounds "fsed" 0 10 (c "fsed") ∧
    c2 "kzz" = dval bounds "kzz" 5 13 (c "kzz") ∧
    c2 "sigma_lnorm" = dval bounds "sigma_lnorm" (105/100) 3
      (c "sigma_lnorm") := by
  unfold priorClouds at h
  rw [if_pos hne] at h
  obtain ⟨ca, ha, h⟩ := bind_eq_ok h
  obtain ⟨cb, hb, h⟩ := bind_eq_ok h
  obtain ⟨cc, hc, h⟩ := bind_eq_ok h
  obtain ⟨cd, hd, h⟩ := bind_eq_ok h
  obtain ⟨⟨ce, v1⟩, he, h⟩ := bind_eq_ok h
  obtain ⟨⟨cf, v2⟩, hf, h⟩ := bind_eq_ok h
  obtain ⟨⟨cg, v3⟩, hg, h⟩ := bind_eq_ok h
  cases h
  have hfrac : ∀ m, m ≠ "fe_fraction" → m ≠ "mgsio3_fraction" →
      m ≠ "na2s_fraction" → m ≠ "kcl_fraction" → cd m = c m := by
    intro m e1 e2 e3 e4
    rw [condFrac_frame hd m e4, condFrac_frame hc m e3,
      condFrac_frame hb m e2, condFrac_frame ha m e1]
  refine ⟨?_, ?_, ?_⟩
  · rw [(drawScalar_inv hg).2.2 _ (by decide), (drawScalar_inv hf).2.2 _
      (by decide), (drawScalar_inv he).1,
      hfrac _ (by decide) (by decide) (by decide) (by decide)]
  · rw [(drawScalar_inv hg).2.2 _ (by decide), (drawScalar_inv hf).1]
    congr 1
    rw [(drawScalar_inv he).2.2 _ (by decide),
      hfrac _ (by decide) (by decide) (by decide) (by decide)]
  · rw [(drawScalar_inv hg).1]
    congr 1
    rw [(drawScalar_inv hf).2.2 _ (by decide),
      (drawScalar_inv he).2.2 _ (by decide),
      hfrac _ (by decide) (by decide) (by decide) (by decide)]

lemma priorClouds_nil {params : List String} {bounds : Bounds} {c : Cube} :
    priorClouds [] params bounds c = Except.ok c := by
  simp only [priorClouds, ne_eq, not_true_eq_false, if_false, reduceIte]
  rfl

lemma priorNuisanceLoop_nilBounds {params : List String} {i : Nat}
    {pre : String} : ∀ (l : List String) (c : Cube),
    priorNuisanceLoop params [] i pre l c = Except.ok c := by
  intro l
  induction l with
  | nil => exact fun c => rfl
  | cons item rest ih =>
      intro c
      unfold priorNuisanceLoop
      rw [show Bounds.slot [] item i = none from rfl]
      exact ih c

lemma priorPt_isOk {pt : String} {params : List String} {bounds : Bounds}
    {c : Cube}
    (hmol : pt = "molliere" → "tint" ∈ params ∧ "t3" ∈ params ∧
      "t2" ∈ params ∧ "t1" ∈ params ∧ "alpha" ∈ params ∧
      "log_delta" ∈ params)
    (hknots : pt = "free" ∨ pt = "monotonic" →
      ∀ i, i < 15 → tName i ∈ params)
    (hfr : pt = "free" → "beta_r" ∈ params ∧ "gamma_r" ∈ params) :
    ∃ c2, priorPt pt params bounds c = Except.ok c2 := by
  unfold priorPt
  by_cases h1 : pt = "molliere"
  · rw [if_pos h1]
    obtain ⟨hm1, hm2, hm3, hm4, hm5, hm6⟩ := hmol h1
    exact priorMolliere_isOk hm1 hm2 hm3 hm4 hm5 hm6
  · rw [if_neg h1]
    by_cases h2 : pt = "free"
    · rw [if_pos h2]
      exact priorFree_isOk (hknots (Or.inl h2)) (hfr h2).1 (hfr h2).2
    · rw [if_neg h2]
      by_cases h3 : pt = "monotonic"
      · rw [if_pos h3]
        exact priorMonotonic_isOk (hknots (Or.inr h3))
      · rw [if_neg h3]
        exact ⟨c, rfl⟩

lemma priorChem_eq_isOk {params : List String} {bounds : Bounds} {c : Cube}
    (hm : "metallicity" ∈ params) (hc : "c_o_ratio" ∈ params) :
    ∃ c2, priorChem "equilibrium" [] params bounds c = Except.ok c2 ∧
      c2 "metallicity" = dval bounds "metallicity" (-3/2) (3/2)
        (c "metallicity") ∧
      c2 "c_o_ratio" = dval bounds "c_o_ratio" (1/10) (16/10)
        (c "c_o_ratio") := by
  unfold priorChem
  simp only [if_pos rfl, reduceIte]
  rw [drawScalar_ok hm]
  rw [exceptBind_ok]
  rw [drawScalar_ok hc]
  rw [exceptBind_ok]
  refine ⟨_, rfl, ?_, ?_⟩ <;> simp

lemma priorChem_free {ls params : List String} {bounds : Bounds} {c : Cube} :
    priorChem "free" ls params bounds c = priorFreeChem ls params bounds c := by
  simp [priorChem]

lemma priorNuisanceLoop_isOk {params : List String} {bounds : Bounds}
    {i : Nat} {pre : String} :
    ∀ (l : List String) (c : Cube),
    (∀ item ∈ l, (bounds.slot item i).isSome → (pre ++ item) ∈ params) →
    ∃ c2, priorNuisanceLoop params bounds i pre l c = Except.ok c2 := by
  intro l
  induction l with
  | nil => exact fun c _ => ⟨c, rfl⟩
  | cons item rest ih =>
      intro c hmem
      unfold priorNuisanceLoop
      rcases hb : bounds.slot item i with _ | ⟨blo, bhi⟩
      · exact ih c fun x hx => hmem x (List.mem_cons_of_mem item hx)
      · have hm : (pre ++ item) ∈ params :=
          hmem item (List.mem_cons_self item rest) (by rw [hb]; rfl)
        exact exists_ok_bind (getP_exists hm)
          fun u => exists_ok_bind (setP_exists hm)
            fun ca => ih ca fun x hx => hmem x (List.mem_cons_of_mem item hx)

lemma mem_setParametersList_iff {sn ls cs : List String} {bounds : Bounds}
    {chem : String} {q : Bool} {pt : String} {nm : String} :
    nm ∈ setParametersList sn ls cs bounds chem q pt ↔
      nm ∈ (["logg", "radius"] : List String) ∨ nm ∈ ptBlock pt ∨
      nm ∈ chemBlock chem ls ∨
      nm ∈ (if q then (["log_p_quench"] : List String) else []) ∨
      nm ∈ cloudBlock cs ∨
      nm ∈ nuisanceBlock sn bounds 0 "scaling_" ∨
      nm ∈ nuisanceBlock sn bounds 1 "error_" ∨
      nm ∈ nuisanceBlock sn bounds 2 "wavelength_" := by
  unfold setParametersList
  simp [List.mem_append, or_assoc]

lemma ptFixed_sub_builtin : ∀ x ∈ (["tint", "t3", "t2", "t1", "alpha",
    "log_delta", "beta_r", "gamma_r"] : List String), x ∈ builtinNames := by
  intro x hx
  simp only [List.mem_cons, List.not_mem_nil, or_false] at hx
  rcases hx with rfl | rfl | rfl | rfl | rfl | rfl | rfl | rfl <;>
    with_unfolding_all decide

lemma cloudStage_sub_builtin : ∀ x ∈ cloudStageNames, x ∈ builtinNames := by
  intro x hx
  simp only [cloudStageNames, List.mem_cons, List.not_mem_nil, or_false] at hx
  rcases hx with rfl | rfl | rfl | rfl | rfl | rfl | rfl <;>
    with_unfolding_all decide

/-! ## C2 (amended): the potassium / sodium cross-dependency -/

/-- C2 amended: under free chemistry with a potassium line species
configured, the Prior Transform completes iff a sodium variant is also
configured.  With a sodium variant it completes and stores, under the first
configured potassium variant, the abundance derived from the free-abundance
dictionary by the empirical relation (`potassium_abundance`); with no
sodium variant it raises `UnboundLocalError` on `log_x_k_abund`
instead of resolving potassium — the error branch is reachable. -/
theorem C2_amended_potassium_dependency (sn ls cs : List String)
    (bounds : Bounds) (q : Bool) (pt : String) (params : List String)
    (c : Cube)
    (hv : ValidNames ls sn)
    (hkvar : "K" ∈ ls ∨ "K_lor_cut" ∈ ls ∨ "K_burrows" ∈ ls)
    (hp : set_parameters [] sn ls cs bounds "free" q pt = Except.ok params) :
    (¬("Na" ∈ ls ∨ "Na_lor_cut" ∈ ls ∨ "Na_burrows" ∈ ls) →
      prior sn ls (cs.map stripCd) bounds "free" q pt params c =
        Except.error (PErr.nameError "log_x_k_abund")) ∧
    (("Na" ∈ ls ∨ "Na_lor_cut" ∈ ls ∨ "Na_burrows" ∈ ls) →
      ∃ c2, prior sn ls (cs.map stripCd) bounds "free" q pt params c =
          Except.ok c2 ∧
        ("K" ∈ ls → c2 "K" = potassium_abundance (freeDict bounds ls c)) ∧
        ("K" ∉ ls → "K_lor_cut" ∈ ls →
          c2 "K_lor_cut" = potassium_abundance (freeDict bounds ls c)) ∧
        ("K" ∉ ls → "K_lor_cut" ∉ ls → "K_burrows" ∈ ls →
          c2 "K_burrows" = potassium_abundance (freeDict bounds ls c))) := by
  obtain ⟨hndls, hndsn, hbuilt, hnui, hpre⟩ := hv
  have hcs : cs = [] := by
    unfold set_parameters at hp
    split at hp
    · exact Except.noConfusion hp
    · rename_i hcond
      by_cases h : cs = []
      · exact h
      · exact absurd ⟨h, by decide⟩ hcond
  have hparams : params = setParametersList sn ls cs bounds "free" q pt := by
    unfold set_parameters at hp
    split at hp
    · exact Except.noConfusion hp
    · rw [Except.ok.injEq] at hp
      rw [← hp]
      simp
  have hmemF : ∀ nm : String, nm ∈ chemBlock "free" ls → nm ∈ params := by
    intro nm h
    rw [hparams, mem_setParametersList_iff]
    tauto
  have hls : ∀ item ∈ ls, item ∈ params := by
    intro item h
    exact hmemF item (by simp [chemBlock, h])
  have hlogg : "logg" ∈ params := by
    rw [hparams, mem_setParametersList_iff]
    left
    simp
  have hrad : "radius" ∈ params := by
    rw [hparams, mem_setParametersList_iff]
    left
    simp
  have hptm : ∀ nm : String, nm ∈ ptBlock pt → nm ∈ params := by
    intro nm h
    rw [hparams, mem_setParametersList_iff]
    tauto
  have hmol : pt = "molliere" → "tint" ∈ params ∧ "t3" ∈ params ∧
      "t2" ∈ params ∧ "t1" ∈ params ∧ "alpha" ∈ params ∧
      "log_delta" ∈ params := by
    intro hpt
    subst hpt
    refine ⟨?_, ?_, ?_, ?_, ?_, ?_⟩ <;> exact hptm _ (by simp [ptBlock])
  have hknots : pt = "free" ∨ pt = "monotonic" →
      ∀ i, i < 15 → tName i ∈ params := by
    intro hpt i hi
    apply hptm
    unfold ptBlock
    rcases hpt with hpt | hpt <;> subst hpt
    · simp only [reduceIte]
      refine List.mem_append_left _ (List.mem_map.mpr ⟨i, ?_, rfl⟩)
      simpa using hi
    · simp only [reduceIte]
      refine List.mem_append_left _ (List.mem_map.mpr ⟨i, ?_, rfl⟩)
      simpa using hi
  have hfr : pt = "free" → "beta_r" ∈ params ∧ "gamma_r" ∈ params := by
    intro hpt
    subst hpt
    constructor <;> apply hptm <;> simp [ptBlock]
  have hqm : q = true → "log_p_quench" ∈ params := by
    intro hq
    rw [hparams, mem_setParametersList_iff]
    subst hq
    simp
  have hnuim : ∀ (i : Nat) (pre : String), (∀ item ∈ sn,
      (bounds.slot item i).isSome → (pre ++ item) ∈
        nuisanceBlock sn bounds i pre) := by
    intro i pre item hitem hsome
    unfold nuisanceBlock
    exact List.mem_filterMap.mpr ⟨item, hitem, by rw [if_pos hsome]⟩
  have hn0 : ∀ item ∈ sn, (bounds.slot item 0).isSome →
      ("scaling_" ++ item) ∈ params := fun item hi hs => by
    rw [hparams, mem_setParametersList_iff]
    exact Or.inr (Or.inr (Or.inr (Or.inr (Or.inr (Or.inl
      (hnuim 0 "scaling_" item hi hs))))))
  have hn1 : ∀ item ∈ sn, (bounds.slot item 1).isSome →
      ("error_" ++ item) ∈ params := fun item hi hs => by
    rw [hparams, mem_setParametersList_iff]
    exact Or.inr (Or.inr (Or.inr (Or.inr (Or.inr (Or.inr (Or.inl
      (hnuim 1 "error_" item hi hs)))))))
  have hn2 : ∀ item ∈ sn, (bounds.slot item 2).isSome →
      ("wavelength_" ++ item) ∈ params := fun item hi hs => by
    rw [hparams, mem_setParametersList_iff]
    exact Or.inr (Or.inr (Or.inr (Or.inr (Or.inr (Or.inr (Or.inr
      (hnuim 2 "wavelength_" item hi hs)))))))
  subst hcs
  constructor
  · intro hna
    unfold prior
    rw [drawScalar_ok hlogg, exceptBind_ok]
    dsimp only
    rw [drawScalar_ok hrad, exceptBind_ok]
    dsimp only
    obtain ⟨cp, hcp⟩ := @priorPt_isOk pt params bounds
      (fun m => if m = "radius" then dval bounds "radius" (4/5) 2
        (if "radius" = "logg" then dval bounds "logg" 2 (11/2)
          (c "logg") else c "radius") else
        if m = "logg" then dval bounds "logg" 2 (11/2)
          (c "logg") else c m)
      hmol hknots hfr
    rw [hcp, exceptBind_ok, priorChem_free,
      priorFreeChem_noNa hndls hls hkvar hna, exceptBind_error]
  · intro hna
    obtain ⟨⟨cA, vA⟩, hA⟩ : ∃ p, drawScalar params bounds c "logg" 2 (11/2) =
        Except.ok p := ⟨_, drawScalar_ok hlogg⟩
    obtain ⟨⟨cB, vB⟩, hB⟩ : ∃ p, drawScalar params bounds cA "radius" (4/5) 2 =
        Except.ok p := ⟨_, drawScalar_ok hrad⟩
    obtain ⟨cP, hP⟩ := @priorPt_isOk pt params bounds cB hmol hknots hfr
    have hlsP : ∀ item ∈ ls, cP item = c item := by
      intro item hitem
      have hnb := hbuilt item hitem
      have h1 : item ≠ "logg" := fun he => hnb (by rw [he]; decide)
      have h2 : item ≠ "radius" := fun he => hnb (by rw [he]; decide)
      rw [priorPt_frame hP item
        (fun i hi => fun he => hnb (by rw [he]; exact tName_notin_builtin_iff i hi))
        (fun hmem => hnb (ptFixed_sub_builtin item hmem)),
        (drawScalar_inv hB).2.2 item h2, (drawScalar_inv hA).2.2 item h1]
    obtain ⟨cC, hC, hCframe, hCval, hK1, hK2, hK3⟩ :=
      @priorFreeChem_spec ls params bounds cP hndls hls hna
    obtain ⟨cQ, hQ⟩ := @priorQuench_isOk q params bounds cC hqm
    obtain ⟨cN0, hN0⟩ := @priorNuisanceLoop_isOk params bounds
      0 "scaling_" sn cQ hn0
    obtain ⟨cN1, hN1⟩ := @priorNuisanceLoop_isOk params bounds
      1 "error_" sn cN0 hn1
    obtain ⟨cN2, hN2⟩ := @priorNuisanceLoop_isOk params bounds
      2 "wavelength_" sn cN1 hn2
    have hdict : freeDict bounds ls cP = freeDict bounds ls c :=
      freeDict_congr hlsP
    have hkeep : ∀ kvn, kvn ∈ kVariants → kvn ∈ ls → cN2 kvn = cC kvn := by
      intro kvn hkv hkl
      have hnb := hbuilt kvn hkl
      rw [priorNuisanceLoop_frame sn cN1 cN2 hN2 kvn
          (fun item hitem => (hnui kvn hkl item hitem).2.2),
        priorNuisanceLoop_frame sn cN0 cN1 hN1 kvn
          (fun item hitem => (hnui kvn hkl item hitem).2.1),
        priorNuisanceLoop_frame sn cQ cN0 hN0 kvn
          (fun item hitem => (hnui kvn hkl item hitem).1),
        priorClouds_frame (c := cQ)
          (show priorClouds (([] : List String).map stripCd) params bounds cQ
            = Except.ok cQ from priorClouds_nil) kvn
          (fun hmem => hnb (cloudStage_sub_builtin kvn hmem)),
        priorQuench_frame hQ kvn (fun he => hnb (by rw [he]; decide))]
  -- assemble the run
    refine ⟨cN2, ?_, ?_, ?_, ?_⟩
    · unfold prior
      rw [hA, exceptBind_ok]
      dsimp only
      rw [hB, exceptBind_ok]
      dsimp only
      rw [hP, exceptBind_ok, priorChem_free, hC, exceptBind_ok, hQ,
        exceptBind_ok, show (([] : List String).map stripCd) = [] from rfl,
        priorClouds_nil, exceptBind_ok, hN0, exceptBind_ok, hN1,
        exceptBind_ok, hN2, exceptBind_ok]
      rfl
    · intro hk
      rw [hkeep "K" (by decide) hk, hK1 hk, hdict]
    · intro hk1 hk2
      rw [hkeep "K_lor_cut" (by decide) hk2, hK2 hk1 hk2, hdict]
    · intro hk1 hk2 hk3
      rw [hkeep "K_burrows" (by decide) hk3, hK3 hk1 hk2 hk3, hdict]

/-- The schema of a free-chemistry `monotonic` run with line species
H2O, Na and K. -/
def kNaDemoParams : List String :=
  ["logg", "radius"] ++ (List.range 15).map tName ++ ["H2O", "Na", "K"]

/-- Witness for the amended C2 at a concrete configuration with both a
potassium and a sodium species. -/
theorem C2_amended_witness :
    (¬(("Na" : String) ∈ ["H2O", "Na", "K"] ∨
        ("Na_lor_cut" : String) ∈ ["H2O", "Na", "K"] ∨
        ("Na_burrows" : String) ∈ ["H2O", "Na", "K"]) →
      prior [] ["H2O", "Na", "K"] (([] : List String).map stripCd) [] "free"
        false "monotonic" kNaDemoParams (fun _ => 1/2) =
        Except.error (PErr.nameError "log_x_k_abund")) ∧
    ((("Na" : String) ∈ ["H2O", "Na", "K"] ∨
        ("Na_lor_cut" : String) ∈ ["H2O", "Na", "K"] ∨
        ("Na_burrows" : String) ∈ ["H2O", "Na", "K"]) →
      ∃ c2, prior [] ["H2O", "Na", "K"] (([] : List String).map stripCd) []
          "free" false "monotonic" kNaDemoParams (fun _ => 1/2) =
          Except.ok c2 ∧
        (("K" : String) ∈ ["H2O", "Na", "K"] →
          c2 "K" = potassium_abundance
            (freeDict [] ["H2O", "Na", "K"] (fun _ => 1/2))) ∧
        (("K" : String) ∉ ["H2O", "Na", "K"] →
          ("K_lor_cut" : String) ∈ ["H2O", "Na", "K"] →
          c2 "K_lor_cut" = potassium_abundance
            (freeDict [] ["H2O", "Na", "K"] (fun _ => 1/2))) ∧
        (("K" : String) ∉ ["H2O", "Na", "K"] →
          ("K_lor_cut" : String) ∉ ["H2O", "Na", "K"] →
          ("K_burrows" : String) ∈ ["H2O", "Na", "K"] →
          c2 "K_burrows" = potassium_abundance
            (freeDict [] ["H2O", "Na", "K"] (fun _ => 1/2)))) :=
  C2_amended_potassium_dependency [] ["H2O", "Na", "K"] [] [] false
    "monotonic" kNaDemoParams (fun _ => 1/2)
    (by with_unfolding_all decide) (by decide)
    (by with_unfolding_all rfl)

/-! ## C5 (amended): duplicate-freeness of a single schema build -/

lemma strAppend_head {p x : String} {a : Char}
    (hp : p.data.head? = some a) : (p ++ x).data.head? = some a := by
  rw [String.data_append]
  cases hpd : p.data with
  | nil => rw [hpd] at hp; exact Option.noConfusion hp
  | cons y ys =>
      rw [hpd] at hp
      simpa using hp

lemma strHead_ne {s t : String} {a b : Char} (hs : s.data.head? = some a)
    (ht : t.data.head? = some b) (hab : a ≠ b) : s ≠ t := by
  intro h
  rw [h, ht] at hs
  exact hab (Option.some.inj hs.symm)

lemma mem_ptBlock_cases {pt x : String} (h : x ∈ ptBlock pt) :
    x ∈ (["tint", "t1", "t2", "t3", "alpha", "log_delta", "gamma_r",
      "beta_r"] : List String) ∨ ∃ i, i < 15 ∧ x = tName i := by
  unfold ptBlock at h
  split at h
  · left
    simp only [List.mem_cons, List.not_mem_nil, or_false] at h
    rcases h with rfl | rfl | rfl | rfl | rfl | rfl <;> simp
  · split at h
    · rcases List.mem_append.mp h with h | h
      · obtain ⟨i, hi, rfl⟩ := List.mem_map.mp h
        exact Or.inr ⟨i, by simpa using hi, rfl⟩
      · left
        split at h <;> simp_all
    · exact absurd h (List.not_mem_nil x)

lemma ptBlock_sub_builtin {pt : String} : ∀ x ∈ ptBlock pt,
    x ∈ builtinNames := by
  intro x hx
  rcases mem_ptBlock_cases hx with h | ⟨i, hi, rfl⟩
  · simp only [List.mem_cons, List.not_mem_nil, or_false] at h
    rcases h with rfl | rfl | rfl | rfl | rfl | rfl | rfl | rfl <;>
      with_unfolding_all decide
  · exact tName_notin_builtin_iff i hi

lemma ptBlock_nodup {pt : String} : (ptBlock pt).Nodup := by
  unfold ptBlock
  split
  · decide
  · split
    · rw [List.nodup_append]
      refine ⟨?_, ?_, ?_⟩
      · refine List.Nodup.map_on ?_ (List.nodup_range 15)
        intro i hi j hj he
        exact tName_inj15 i (List.mem_range.mp hi) j (List.mem_range.mp hj) he
      · split <;> decide
      · intro x hx
        obtain ⟨i, hi, rfl⟩ := List.mem_map.mp hx
        have hi15 := List.mem_range.mp hi
        split
        · intro hmem
          simp only [List.mem_cons, List.not_mem_nil, or_false] at hmem
          rcases hmem with h | h
          · exact (tName_ne_bg i hi15).2 h
          · exact (tName_ne_bg i hi15).1 h
        · exact List.not_mem_nil _
    · exact List.nodup_nil

lemma cloudBlock_sub {cs : List String} : ∀ x ∈ cloudBlock cs,
    x ∈ cloudStageNames := by
  intro x hx
  unfold cloudBlock at hx
  split at hx
  · simp only [List.mem_append] at hx
    unfold cloudStageNames
    rcases hx with ((((h | h) | h) | h) | h) <;>
      [skip; skip; skip; skip; simp_all] <;>
      split at h <;> simp_all
  · exact absurd hx (List.not_mem_nil x)

lemma cloudBlock_nodup {cs : List String} : (cloudBlock cs).Nodup := by
  unfold cloudBlock
  split
  · split_ifs <;> decide
  · exact List.nodup_nil

lemma nuisanceBlock_nodup {sn : List String} {bounds : Bounds} {i : Nat}
    {pre : String} (hsn : sn.Nodup) : (nuisanceBlock sn bounds i pre).Nodup := by
  unfold nuisanceBlock
  refine List.Nodup.filterMap ?_ hsn
  intro a b x ha hb
  simp only [Option.mem_def] at ha hb
  split at ha
  · split at hb
    · have h1 := Option.some.inj ha
      have h2 := Option.some.inj hb
      exact strAppend_cancel (h1.trans h2.symm)
    · exact absurd hb (by simp)
  · exact absurd ha (by simp)

lemma nuisanceBlock_sub {sn : List String} {bounds : Bounds} {i : Nat}
    {pre : String} : ∀ x ∈ nuisanceBlock sn bounds i pre,
    ∃ d ∈ sn, x = pre ++ d := by
  intro x hx
  unfold nuisanceBlock at hx
  obtain ⟨d, hd, hsome⟩ := List.mem_filterMap.mp hx
  split at hsome
  · exact ⟨d, hd, (Option.some.inj hsome).symm⟩
  · exact absurd hsome (by simp)

lemma mem_chemBlock_cases {chem x : String} {ls : List String}
    (h : x ∈ chemBlock chem ls) :
    (x = "metallicity" ∨ x = "c_o_ratio") ∨ x ∈ ls := by
  unfold chemBlock at h
  split at h
  · left
    simpa using h
  · split at h
    · exact Or.inr h
    · exact absurd h (List.not_mem_nil x)

lemma setParametersList_nodup {sn ls cs : List String} {bounds : Bounds}
    {chem : String} {q : Bool} {pt : String} (hv : ValidNames ls sn) :
    (setParametersList sn ls cs bounds chem q pt).Nodup := by
  obtain ⟨hndls, hndsn, hbuilt, hnui, hpreB⟩ := hv
  have h8 : ∀ x ∈ (["tint", "t1", "t2", "t3", "alpha", "log_delta",
      "gamma_r", "beta_r"] : List String), x ≠ "logg" ∧ x ≠ "radius" ∧
      x ≠ "metallicity" ∧ x ≠ "c_o_ratio" ∧ x ≠ "log_p_quench" ∧
      x ∉ cloudStageNames := by
    with_unfolding_all decide
  have hPTnot : ∀ x ∈ ptBlock pt, x ≠ "logg" ∧ x ≠ "radius" ∧
      x ≠ "metallicity" ∧ x ≠ "c_o_ratio" ∧ x ≠ "log_p_quench" ∧
      x ∉ cloudStageNames := by
    intro x hx
    rcases mem_ptBlock_cases hx with h | ⟨i, hi, rfl⟩
    · exact h8 x h
    · exact tName_ne_fixed i hi
  have hDmem : ∀ x ∈ (if q then (["log_p_quench"] : List String) else []),
      x = "log_p_quench" := by
    intro x hx
    split at hx
    · simpa using hx
    · exact absurd hx (List.not_mem_nil x)
  have hnotNui : ∀ x, (x ∈ builtinNames ∨ x ∈ ls) →
      x ∉ nuisanceBlock sn bounds 0 "scaling_" ∧
      x ∉ nuisanceBlock sn bounds 1 "error_" ∧
      x ∉ nuisanceBlock sn bounds 2 "wavelength_" := by
    intro x hx
    refine ⟨?_, ?_, ?_⟩ <;> intro hmem
    · obtain ⟨d, hd, rfl⟩ := nuisanceBlock_sub _ hmem
      rcases hx with hb | hl
      · exact (hpreB d hd).1 hb
      · exact (hnui _ hl d hd).1 rfl
    · obtain ⟨d, hd, rfl⟩ := nuisanceBlock_sub _ hmem
      rcases hx with hb | hl
      · exact (hpreB d hd).2.1 hb
      · exact (hnui _ hl d hd).2.1 rfl
    · obtain ⟨d, hd, rfl⟩ := nuisanceBlock_sub _ hmem
      rcases hx with hb | hl
      · exact (hpreB d hd).2.2 hb
      · exact (hnui _ hl d hd).2.2 rfl
  have hclC2 := fun x (h : x ∈ chemBlock chem ls) => mem_chemBlock_cases h
  have hCbuiltOrLs : ∀ x ∈ chemBlock chem ls, x ∈ builtinNames ∨ x ∈ ls := by
    intro x hx
    rcases hclC2 x hx with h | h
    · left
      rcases h with rfl | rfl <;> with_unfolding_all decide
    · exact Or.inr h
  unfold setParametersList
  simp only [List.append_assoc]
  rw [List.nodup_append]
  refine ⟨by decide, ?_, ?_⟩
  · rw [List.nodup_append]
    refine ⟨ptBlock_nodup, ?_, ?_⟩
    · rw [List.nodup_append]
      refine ⟨?_, ?_, ?_⟩
      · unfold chemBlock
        split
        · decide
        · split
          · exact hndls
          · exact List.nodup_nil
      · rw [List.nodup_append]
        refine ⟨?_, ?_, ?_⟩
        · split <;> decide
        · rw [List.nodup_append]
          refine ⟨cloudBlock_nodup, ?_, ?_⟩
          · rw [List.nodup_append]
            refine ⟨nuisanceBlock_nodup hndsn, ?_, ?_⟩
            · rw [List.nodup_append]
              refine ⟨nuisanceBlock_nodup hndsn, nuisanceBlock_nodup hndsn, ?_⟩
              -- G vs H
              intro x hxF hxH
              obtain ⟨d1, hd1, rfl⟩ := nuisanceBlock_sub _ hxF
              obtain ⟨d2, hd2, he⟩ := nuisanceBlock_sub _ hxH
              exact @strAppend_ne_of_head "error_" "wavelength_" d1 d2 'e' 'w'
                (by with_unfolding_all rfl) (by with_unfolding_all rfl)
                (by decide) he
            -- F vs (G ++ H)
            · intro x hxF hxGH
              obtain ⟨d1, hd1, rfl⟩ := nuisanceBlock_sub _ hxF
              rcases List.mem_append.mp hxGH with h | h
              · obtain ⟨d2, hd2, he⟩ := nuisanceBlock_sub _ h
                exact @strAppend_ne_of_head "scaling_" "error_" d1 d2 's' 'e'
                  (by with_unfolding_all rfl) (by with_unfolding_all rfl)
                  (by decide) he
              · obtain ⟨d2, hd2, he⟩ := nuisanceBlock_sub _ h
                exact @strAppend_ne_of_head "scaling_" "wavelength_" d1 d2
                  's' 'w' (by with_unfolding_all rfl)
                  (by with_unfolding_all rfl) (by decide) he
          -- E vs (F ++ G ++ H)
          · intro x hxE hrest
            have hb : x ∈ builtinNames := cloudStage_sub_builtin x
              (cloudBlock_sub x hxE)
            obtain ⟨n0, n1, n2⟩ := hnotNui x (Or.inl hb)
            rcases List.mem_append.mp hrest with h | h
            · exact n0 h
            rcases List.mem_append.mp h with h | h
            · exact n1 h
            · exact n2 h
        -- D vs (E ++ F ++ G ++ H)
        · intro x hxD hrest
          have hx := hDmem x hxD
          subst hx
          obtain ⟨n0, n1, n2⟩ := hnotNui "log_p_quench"
            (Or.inl (by with_unfolding_all decide))
          rcases List.mem_append.mp hrest with h | h
          · exact (tName_ne_fixed 0 (by norm_num)).2.2.2.2.1.elim (by
              exact absurd (cloudBlock_sub _ h) (by with_unfolding_all decide))
          · rcases List.mem_append.mp h with h | h
            · exact n0 h
            rcases List.mem_append.mp h with h | h
            · exact n1 h
            · exact n2 h
      -- C vs (D ++ E ++ F ++ G ++ H)
      · intro x hxC hrest
        obtain ⟨n0, n1, n2⟩ := hnotNui x (hCbuiltOrLs x hxC)
        rcases List.mem_append.mp hrest with h | h
        · have hx := hDmem x h
          rcases hclC2 x hxC with hc | hc
          · rcases hc with rfl | rfl <;> exact absurd hx (by decide)
          · rw [hx] at hc
            exact hbuilt _ hc (by with_unfolding_all decide)
        rcases List.mem_append.mp h with h | h
        · have hcs := cloudBlock_sub _ h
          rcases hclC2 x hxC with hc | hc
          · rcases hc with rfl | rfl <;>
              exact absurd hcs (by with_unfolding_all decide)
          · exact hbuilt _ hc (cloudStage_sub_builtin _ hcs)
        rcases List.mem_append.mp h with h | h
        · exact n0 h
        rcases List.mem_append.mp h with h | h
        · exact n1 h
        · exact n2 h
    -- B vs (C ++ D ++ E ++ F ++ G ++ H)
    · intro x hxB hrest
      obtain ⟨b1, b2, b3, b4, b5, b6⟩ := hPTnot x hxB
      obtain ⟨n0, n1, n2⟩ := hnotNui x (Or.inl (ptBlock_sub_builtin x hxB))
      rcases List.mem_append.mp hrest with h | h
      · rcases hclC2 x h with hc | hc
        · rcases hc with rfl | rfl
          · exact b3 rfl
          · exact b4 rfl
        · exact hbuilt _ hc (ptBlock_sub_builtin x hxB)
      rcases List.mem_append.mp h with h | h
      · exact b5 (hDmem x h)
      rcases List.mem_append.mp h with h | h
      · exact b6 (cloudBlock_sub _ h)
      rcases List.mem_append.mp h with h | h
      · exact n0 h
      rcases List.mem_append.mp h with h | h
      · exact n1 h
      · exact n2 h
  -- A vs everything
  · intro x hxA hrest
    have hxb : x ∈ builtinNames := by
      simp only [List.mem_cons, List.not_mem_nil, or_false] at hxA
      rcases hxA with rfl | rfl <;> with_unfolding_all decide
    obtain ⟨n0, n1, n2⟩ := hnotNui x (Or.inl hxb)
    simp only [List.mem_cons, List.not_mem_nil, or_false] at hxA
    rcases List.mem_append.mp hrest with h | h
    · obtain ⟨b1, b2, _⟩ := hPTnot x h
      rcases hxA with rfl | rfl
      · exact b1 rfl
      · exact b2 rfl
    rcases List.mem_append.mp h with h | h
    · rcases hclC2 x h with hc | hc
      · rcases hxA with rfl | rfl <;> rcases hc with hc | hc <;>
          exact absurd hc (by decide)
      · rcases hxA with rfl | rfl <;>
          exact hbuilt _ hc (by with_unfolding_all decide)
    rcases List.mem_append.mp h with h | h
    · have hh := hDmem x h
      rcases hxA with rfl | rfl <;> exact absurd hh (by decide)
    rcases List.mem_append.mp h with h | h
    · have := cloudBlock_sub _ h
      rcases hxA with rfl | rfl <;>
        exact absurd this (by with_unfolding_all decide)
    rcases List.mem_append.mp h with h | h
    · exact n0 h
    rcases List.mem_append.mp h with h | h
    · exact n1 h
    · exact n2 h

/-- C5 (amended): for every valid configuration, a single schema build on a
fresh object (`self.parameters = []`) produces a duplicate-free parameter
list; but a second `set_parameters` call on the same object appends a second
full copy (the source never clears `self.parameters`), doubling the list
instead of leaving it unchanged. -/
theorem C5_schema_single_build_nodup {sn ls cs : List String}
    {bounds : Bounds} {chem : String} {q : Bool} {pt : String}
    {l1 l2 : List String} (hv : ValidNames ls sn)
    (h1 : set_parameters [] sn ls cs bounds chem q pt = Except.ok l1)
    (h2 : set_parameters l1 sn ls cs bounds chem q pt = Except.ok l2) :
    l1.Nodup ∧ l2 = l1 ++ l1 := by
  unfold set_parameters at h1 h2
  split at h1
  · exact absurd h1 (by simp)
  · split at h2
    · exact absurd h2 (by simp)
    · have e1 := Except.ok.inj h1
      have e2 := Except.ok.inj h2
      rw [List.nil_append] at e1
      subst e1
      exact ⟨setParametersList_nodup hv, e2.symm⟩

/-- The `bounds` dictionary of the C5 witness configuration: one dataset
triple for the spectrum `SPHERE`, so that all three nuisance blocks of the
schema are exercised. -/
def c5Bounds : Bounds :=
  [("SPHERE", BVal.triple (some (1, 2)) (some (1, 2)) (some (1, 2)))]

/-- The parameter list of one schema build in the C5 witness
configuration. -/
def c5List : List String :=
  ["logg", "radius", "tint", "t1", "t2", "t3", "alpha", "log_delta",
   "metallicity", "c_o_ratio", "log_p_quench", "fe_fraction", "fsed",
   "kzz", "sigma_lnorm", "scaling_SPHERE", "error_SPHERE",
   "wavelength_SPHERE"]

/-- Witness for C5 (amended): the cloudy equilibrium configuration with one
spectrum module and dataset-specific bounds satisfies the hypotheses, the
first build yields `c5List`, the second appends another copy, and the
theorem gives duplicate-freeness of the single build plus the doubling. -/
theorem C5_amended_witness :
    ValidNames ["H2O"] ["SPHERE"] ∧
    set_parameters [] ["SPHERE"] ["H2O"] ["Fe(c)_cd"] c5Bounds "equilibrium"
        true "molliere" = Except.ok c5List ∧
    set_parameters c5List ["SPHERE"] ["H2O"] ["Fe(c)_cd"] c5Bounds
        "equilibrium" true "molliere" = Except.ok (c5List ++ c5List) ∧
    (c5List.Nodup ∧ c5List ++ c5List = c5List ++ c5List) :=
  ⟨by with_unfolding_all decide, by with_unfolding_all rfl,
   by with_unfolding_all rfl,
   @C5_schema_single_build_nodup ["SPHERE"] ["H2O"] ["Fe(c)_cd"] c5Bounds
     "equilibrium" true "molliere" c5List (c5List ++ c5List)
     (by with_unfolding_all decide) (by with_unfolding_all rfl)
     (by with_unfolding_all rfl)⟩

/-! ## C9: the half-cube maps to the midpoints of the default ranges -/

/-- Modelled from the spec: the documented default range of each directly
drawn free parameter, per profile/chemistry configuration (spec "Rules"
list).  Parameters the spec documents as derived rather than drawn — the
three scaled `molliere` knots, `log_delta`, the hierarchical `gamma_r` and
its raw hyperparameter `beta_r`, the descending `monotonic` knots below the
topmost, and the potassium abundance — carry no range (`none`). -/
def specDefaultRange (pt chem : String) (ls : List String) (n : String) :
    Option (ℚ × ℚ) :=
  if n = "logg" then some (2, 11/2)
  else if n = "radius" then some (4/5, 2)
  else if pt = "molliere" ∧ n = "tint" then some (500, 3000)
  else if pt = "molliere" ∧ n = "alpha" then some (1, 2)
  else if pt = "free" ∧ n ∈ (List.range 15).map tName then some (0, 8000)
  else if pt = "monotonic" ∧ n = tName 14 then some (0, 10000)
  else if chem = "equilibrium" ∧ n = "metallicity" then some (-3/2, 3/2)
  else if chem = "equilibrium" ∧ n = "c_o_ratio" then some (1/10, 8/5)
  else if chem = "free" ∧ n ∈ ls ∧ n ∉ kVariants then some (-10, 0)
  else if n = "log_p_quench" then some (-6, 3)
  else if n ∈ ["fe_fraction", "mgsio3_fraction", "na2s_fraction",
      "kcl_fraction"] then some (log10_005, 0)
  else if n = "fsed" then some (0, 10)
  else if n = "kzz" then some (5, 13)
  else if n = "sigma_lnorm" then some (21/20, 3)
  else none

/-- `true` iff the cube value of `n` sits at the midpoint of its documented
default range (vacuously `true` for parameters without one). -/
def midOk (pt chem : String) (ls : List String) (c2 : Cube) (n : String) :
    Bool :=
  match specDefaultRange pt chem ls n with
  | some (lo, hi) => decide (c2 n = (lo + hi) / 2)
  | none => true


/-- The schema of the C9 cloudy-equilibrium `molliere` configuration. -/
def c9ParamsA : List String :=
  setParametersList [] [] ["Fe(c)_cd"] [] "equilibrium" true "molliere"

/-- The schema of the C9 free-chemistry `free`-profile configuration. -/
def c9ParamsB : List String :=
  setParametersList [] ["H2O", "Na", "K"] [] [] "free" false "free"

/-- The schema of the C9 free-chemistry `monotonic`-profile
configuration. -/
def c9ParamsC : List String :=
  setParametersList [] ["H2O"] [] [] "free" false "monotonic"

/-- The head character of every knot name is `t`. -/
lemma tName_head (i : Nat) : (tName i).data.head? = some 't' :=
  strAppend_head (by with_unfolding_all rfl)

/-- The documented default range of a knot under the `free` profile. -/
lemma specDefaultRange_tName (i : Nat) (hi : i < 15) :
    specDefaultRange "free" "free" ["H2O", "Na", "K"] (tName i) =
      some (0, 8000) := by
  obtain ⟨n1, n2, _, _, _, _⟩ := tName_ne_fixed i hi
  unfold specDefaultRange
  rw [if_neg n1, if_neg n2, if_neg (fun h => absurd h.1 (by decide)),
    if_neg (fun h => absurd h.1 (by decide)),
    if_pos ⟨rfl, List.mem_map.mpr ⟨i, by simpa using hi, rfl⟩⟩]

/-- The completed half-cube run of the C9 free-chemistry `free`-profile
configuration, with all fifteen knots at `4000` (the midpoint of the
default `[0, 8000]` range). -/
lemma c9B_run : ∃ c2,
    prior [] ["H2O", "Na", "K"] [] [] "free" false "free" c9ParamsB
      (fun _ => 1/2) = Except.ok c2 ∧
    ∀ i, i < 15 → c2 (tName i) = 4000 := by
  have hlogg : "logg" ∈ c9ParamsB := by with_unfolding_all decide
  have hrad : "radius" ∈ c9ParamsB := by with_unfolding_all decide
  have hknots : ∀ i, i < 15 → tName i ∈ c9ParamsB := by
    with_unfolding_all decide
  have hb : "beta_r" ∈ c9ParamsB := by with_unfolding_all decide
  have hg : "gamma_r" ∈ c9ParamsB := by with_unfolding_all decide
  have hls : ∀ item ∈ (["H2O", "Na", "K"] : List String),
      item ∈ c9ParamsB := by with_unfolding_all decide
  obtain ⟨⟨cA, vA⟩, hA⟩ : ∃ p,
      drawScalar c9ParamsB [] (fun _ => 1/2) "logg" 2 (11/2) =
        Except.ok p := ⟨_, drawScalar_ok hlogg⟩
  obtain ⟨⟨cB, vB⟩, hB⟩ : ∃ p,
      drawScalar c9ParamsB [] cA "radius" (4/5) 2 = Except.ok p :=
    ⟨_, drawScalar_ok hrad⟩
  obtain ⟨cP, hP⟩ := priorFree_isOk (c := cB) hknots hb hg
  have hknotB : ∀ i, i < 15 → cB (tName i) = 1/2 := by
    intro i hi
    obtain ⟨n1, n2, _, _, _, _⟩ := tName_ne_fixed i hi
    rw [(drawScalar_inv hB).2.2 _ n2, (drawScalar_inv hA).2.2 _ n1]
  have hknotP : ∀ i, i < 15 → cP (tName i) = 4000 := by
    intro i hi
    rw [(priorFree_inv hP).1 i hi, hknotB i hi]
    norm_num
  obtain ⟨cC, hC, hCframe, hCval, hK1, hK2, hK3⟩ :=
    @priorFreeChem_spec ["H2O", "Na", "K"] c9ParamsB [] cP
      (by decide) hls (Or.inl (by decide))
  refine ⟨cC, ?_, ?_⟩
  · unfold prior
    rw [hA, exceptBind_ok]
    dsimp only
    rw [hB, exceptBind_ok]
    dsimp only
    rw [show priorPt "free" c9ParamsB ([] : Bounds) cB =
        priorFree c9ParamsB cB from by simp [priorPt],
      hP, exceptBind_ok, priorChem_free, hC, exceptBind_ok,
      show priorQuench false c9ParamsB ([] : Bounds) cC = Except.ok cC
        from rfl, exceptBind_ok, priorClouds_nil, exceptBind_ok]
    rfl
  · intro i hi
    have hnot : tName i ∉ (["H2O", "Na", "K"] : List String) := by
      have hb2 := tName_notin_builtin_iff i hi
      intro hmem
      simp only [List.mem_cons, List.not_mem_nil, or_false] at hmem
      rcases hmem with he | he | he <;> rw [he] at hb2 <;>
        exact absurd hb2 (by with_unfolding_all decide)
    rw [hCframe _ hnot, hknotP i hi]

/-- The midpoint property of one `free`-profile knot in the C9
free-chemistry configuration, proved through the invariants of the prior
stages. -/
lemma c9B_tcase (i : Nat) (hi : i < 15) :
    (prior [] ["H2O", "Na", "K"] [] [] "free" false "free" c9ParamsB
      (fun _ => 1/2)).map
      (fun c2 => midOk "free" "free" ["H2O", "Na", "K"] c2 (tName i)) =
    Except.ok true := by
  obtain ⟨c2, hok, hkn⟩ := c9B_run
  rw [hok]
  show Except.ok (midOk "free" "free" ["H2O", "Na", "K"] c2 (tName i)) =
    Except.ok true
  unfold midOk
  rw [specDefaultRange_tName i hi]
  dsimp only
  rw [hkn i hi, decide_eq_true (by norm_num : (4000 : ℚ) = (0 + 8000) / 2)]

/-- The completed half-cube run of the C9 free-chemistry `monotonic`
configuration, with the topmost knot at `5000` (the midpoint of the
default `[0, 10000]` range). -/
lemma c9C_run : ∃ c2,
    prior [] ["H2O"] [] [] "free" false "monotonic" c9ParamsC
      (fun _ => 1/2) = Except.ok c2 ∧
    c2 (tName 14) = 5000 := by
  have hlogg : "logg" ∈ c9ParamsC := by with_unfolding_all decide
  have hrad : "radius" ∈ c9ParamsC := by with_unfolding_all decide
  have hknots : ∀ i, i < 15 → tName i ∈ c9ParamsC := by
    with_unfolding_all decide
  have hls : ∀ item ∈ (["H2O"] : List String), item ∈ c9ParamsC := by
    with_unfolding_all decide
  obtain ⟨⟨cA, vA⟩, hA⟩ : ∃ p,
      drawScalar c9ParamsC [] (fun _ => 1/2) "logg" 2 (11/2) =
        Except.ok p := ⟨_, drawScalar_ok hlogg⟩
  obtain ⟨⟨cB, vB⟩, hB⟩ : ∃ p,
      drawScalar c9ParamsC [] cA "radius" (4/5) 2 = Except.ok p :=
    ⟨_, drawScalar_ok hrad⟩
  obtain ⟨cP, hP⟩ := priorMonotonic_isOk (c := cB) hknots
  have hknotB : cB (tName 14) = 1/2 := by
    obtain ⟨n1, n2, _, _, _, _⟩ := tName_ne_fixed 14 (by norm_num)
    rw [(drawScalar_inv hB).2.2 _ n2, (drawScalar_inv hA).2.2 _ n1]
  have hknotP : cP (tName 14) = 5000 := by
    rw [(priorMonotonic_spec hP).1, hknotB]
    norm_num
  obtain ⟨cC, hC, hCframe⟩ : ∃ cC,
      priorFreeChem ["H2O"] c9ParamsC [] cP = Except.ok cC ∧
      ∀ m, m ∉ (["H2O"] : List String) → cC m = cP m := by
    obtain ⟨ca, hok, hframe, _⟩ :=
      freeAbundLoop_spec ["H2O"] cP [] (by decide) hls
    refine ⟨ca, ?_, hframe⟩
    unfold priorFreeChem
    rw [hok, exceptBind_ok]
    dsimp only
    rw [if_neg (by decide), if_neg (by decide), if_neg (by decide)]
  refine ⟨cC, ?_, ?_⟩
  · unfold prior
    rw [hA, exceptBind_ok]
    dsimp only
    rw [hB, exceptBind_ok]
    dsimp only
    rw [show priorPt "monotonic" c9ParamsC ([] : Bounds) cB =
        priorMonotonic c9ParamsC cB from by simp [priorPt],
      hP, exceptBind_ok, priorChem_free, hC, exceptBind_ok,
      show priorQuench false c9ParamsC ([] : Bounds) cC = Except.ok cC
        from rfl, exceptBind_ok, priorClouds_nil, exceptBind_ok]
    rfl
  · have hnot : tName 14 ∉ (["H2O"] : List String) := by
      have hb2 := tName_notin_builtin_iff 14 (by norm_num)
      intro hmem
      simp only [List.mem_cons, List.not_mem_nil, or_false] at hmem
      rw [hmem] at hb2
      exact absurd hb2 (by with_unfolding_all decide)
    rw [hCframe _ hnot, hknotP]

/-- The midpoint property of the topmost `monotonic` knot in the C9
configuration. -/
lemma c9C_t14case :
    (prior [] ["H2O"] [] [] "free" false "monotonic" c9ParamsC
      (fun _ => 1/2)).map
      (fun c2 => midOk "monotonic" "free" ["H2O"] c2 (tName 14)) =
    Except.ok true := by
  obtain ⟨c2, hok, hv⟩ := c9C_run
  rw [hok]
  show Except.ok (midOk "monotonic" "free" ["H2O"] c2 (tName 14)) =
    Except.ok true
  unfold midOk
  rw [show specDefaultRange "monotonic" "free" ["H2O"] (tName 14) =
    some (0, 10000) from by
      obtain ⟨n1, n2, _, _, _, _⟩ := tName_ne_fixed 14 (by norm_num)
      unfold specDefaultRange
      rw [if_neg n1, if_neg n2, if_neg (fun h => absurd h.1 (by decide)),
        if_neg (fun h => absurd h.1 (by decide)),
        if_neg (fun h => absurd h.1 (by decide)), if_pos ⟨rfl, rfl⟩]]
  dsimp only
  rw [hv, decide_eq_true (by norm_num : (5000 : ℚ) = (0 + 10000) / 2)]

/-! ## C10: covariance datasets ignore their error-inflation parameter -/

/-- Cube reads agree wherever the cubes agree. -/
lemma getP_congr {params : List String} {c c' : Cube} {n : String}
    (h : c n = c' n) : getP params c n = getP params c' n := by
  unfold getP
  rw [h]

/-- A nuisance dictionary build is unchanged between two cubes that agree
away from a name `e` none of its reads touch. -/
lemma buildNuisanceMap_congr {bounds : Bounds} {params : List String}
    {i : Nat} {pre : String} {dflt : ℚ} {c c' : Cube} {e : String}
    (hc : ∀ n, n ≠ e → c n = c' n) :
    ∀ sp : List (String × Dataset),
    (∀ k ds2, (k, ds2) ∈ sp → pre ++ k ≠ e) →
    buildNuisanceMap bounds params i pre dflt c sp =
      buildNuisanceMap bounds params i pre dflt c' sp := by
  intro sp
  induction sp with
  | nil => exact fun _ => rfl
  | cons kd rest ih =>
      intro hne
      obtain ⟨k, ds2⟩ := kd
      have hgp : getP params c (pre ++ k) = getP params c' (pre ++ k) :=
        getP_congr (hc _ (hne k ds2 (List.mem_cons_self _ _)))
      unfold buildNuisanceMap
      simp only [hgp,
        ih (fun k2 d2 hm => hne k2 d2 (List.mem_cons_of_mem _ hm))]

/-- The `error_` dictionary builds of two cubes that agree away from
`"error_" ++ d` either fail identically, or succeed with dictionaries that
agree on every key other than `d`. -/
lemma buildNuisanceMap_error_rel {bounds : Bounds} {params : List String}
    {dflt : ℚ} {c c' : Cube} {d : String}
    (hc : ∀ n, n ≠ "error_" ++ d → c n = c' n) :
    ∀ sp : List (String × Dataset),
    (∃ m m',
      buildNuisanceMap bounds params 1 "error_" dflt c sp = Except.ok m ∧
      buildNuisanceMap bounds params 1 "error_" dflt c' sp = Except.ok m' ∧
      ∀ k, k ≠ d → List.lookup k m = List.lookup k m') ∨
    (∃ err,
      buildNuisanceMap bounds params 1 "error_" dflt c sp =
        Except.error err ∧
      buildNuisanceMap bounds params 1 "error_" dflt c' sp =
        Except.error err) := by
  intro sp
  induction sp with
  | nil => exact Or.inl ⟨[], [], rfl, rfl, fun _ _ => rfl⟩
  | cons kd rest ih =>
      obtain ⟨k, ds2⟩ := kd
      have hv : (∃ v v',
          (match bounds.slot k 1 with
            | some _ => getP params c ("error_" ++ k)
            | none => pure dflt) = Except.ok v ∧
          (match bounds.slot k 1 with
            | some _ => getP params c' ("error_" ++ k)
            | none => pure dflt) = Except.ok v' ∧
          (k ≠ d → v = v')) ∨
          (∃ err,
          (match bounds.slot k 1 with
            | some _ => getP params c ("error_" ++ k)
            | none => pure dflt) = Except.error err ∧
          (match bounds.slot k 1 with
            | some _ => getP params c' ("error_" ++ k)
            | none => pure dflt) = Except.error err) := by
        cases hslot : bounds.slot k 1 with
        | none => exact Or.inl ⟨dflt, dflt, rfl, rfl, fun _ => rfl⟩
        | some p =>
            by_cases hmem : ("error_" ++ k) ∈ params
            · refine Or.inl ⟨c ("error_" ++ k), c' ("error_" ++ k),
                by simp [getP, hmem], by simp [getP, hmem], ?_⟩
              intro hk
              exact hc _ (fun heq => hk (strAppend_cancel heq))
            · exact Or.inr ⟨PErr.keyError ("error_" ++ k),
                by simp [getP, hmem], by simp [getP, hmem]⟩
      unfold buildNuisanceMap
      rcases hv with ⟨v, v', hv1, hv2, hvrel⟩ | ⟨err, hv1, hv2⟩
      · rw [hv1, hv2, exceptBind_ok, exceptBind_ok]
        rcases ih with ⟨m, m', hm1, hm2, hrel⟩ | ⟨err, hm1, hm2⟩
        · refine Or.inl ⟨(k, v) :: m, (k, v') :: m',
            by rw [hm1, exceptBind_ok]; rfl,
            by rw [hm2, exceptBind_ok]; rfl, ?_⟩
          intro q hq
          by_cases hqk : q = k
          · subst hqk
            simp [List.lookup, hvrel hq]
          · have hbeq : (q == k) = false := beq_false_of_ne hqk
            simp [List.lookup, hbeq, hrel q hq]
        · exact Or.inr ⟨err, by rw [hm1, exceptBind_error],
            by rw [hm2, exceptBind_error]⟩
      · exact Or.inr ⟨err, by rw [hv1, exceptBind_error],
          by rw [hv2, exceptBind_error]⟩

/-- Knot reads agree between cubes that agree on the knot names. -/
lemma readKnots_congr {params : List String} {c c' : Cube} :
    ∀ n, (∀ i, i < n → c (tName i) = c' (tName i)) →
    readKnots params c n = readKnots params c' n := by
  intro n
  induction n with
  | zero => exact fun _ => rfl
  | succ k ih =>
      intro h
      unfold readKnots
      simp only [ih (fun i hi => h i (Nat.lt_succ_of_lt hi)),
        getP_congr (h k (Nat.lt_succ_self k))]

/-- The temperature-profile stage of `loglike` only reads built-in
parameter names, so it is unchanged between cubes that agree away from a
non-built-in name. -/
lemma tempPhase_congr {pt : String} {params : List String}
    {pressures : List ℚ} {c c' : Cube} {e : String}
    (hc : ∀ n, n ≠ e → c n = c' n) (he : e ∉ builtinNames) :
    tempPhase pt params pressures c = tempPhase pt params pressures c' := by
  have hx : ∀ x, x ∈ builtinNames → c x = c' x :=
    fun x hxb => hc x (fun heq => he (heq ▸ hxb))
  unfold tempPhase
  simp only [getP_congr (hx "t1" (by with_unfolding_all decide)),
    getP_congr (hx "t2" (by with_unfolding_all decide)),
    getP_congr (hx "t3" (by with_unfolding_all decide)),
    getP_congr (hx "log_delta" (by with_unfolding_all decide)),
    getP_congr (hx "alpha" (by with_unfolding_all decide)),
    getP_congr (hx "tint" (by with_unfolding_all decide)),
    getP_congr (hx "metallicity" (by with_unfolding_all decide)),
    getP_congr (hx "c_o_ratio" (by with_unfolding_all decide)),
    getP_congr (hx "gamma_r" (by with_unfolding_all decide)),
    readKnots_congr 15
      (fun i hi => hx (tName i) (tName_notin_builtin_iff i hi))]

/-- Cloud-fraction reads agree between cubes that agree on the fraction
names. -/
lemma buildCloudFractions_congr {params : List String} {c c' : Cube} :
    ∀ l : List String,
    (∀ item ∈ l, c (loglikeFractionName item) = c' (loglikeFractionName item)) →
    buildCloudFractions params c l = buildCloudFractions params c' l := by
  intro l
  induction l with
  | nil => exact fun _ => rfl
  | cons item rest ih =>
      intro h
      unfold buildCloudFractions
      simp only [getP_congr (h item (List.mem_cons_self _ _)),
        ih (fun x hx => h x (List.mem_cons_of_mem _ hx))]

/-- Abundance reads agree between cubes that agree on the line-species
names. -/
lemma buildLogXAbundAll_congr {params : List String} {c c' : Cube} :
    ∀ l : List String, (∀ item ∈ l, c item = c' item) →
    buildLogXAbundAll params c l = buildLogXAbundAll params c' l := by
  intro l
  induction l with
  | nil => exact fun _ => rfl
  | cons item rest ih =>
      intro h
      unfold buildLogXAbundAll
      simp only [getP_congr (h item (List.mem_cons_self _ _)),
        ih (fun x hx => h x (List.mem_cons_of_mem _ hx))]

/-- The emission-spectrum stage is unchanged between cubes that agree away
from a name that is not built-in, not a line species, and not a cloud
mass-fraction name. -/
lemma spectrumPhase_congr {ls conv : List String} {chem : String} {q : Bool}
    {bounds : Bounds} {params : List String} {pressures : List ℚ}
    {rt : RTObject} {temp : List ℚ} {c c' : Cube} {e : String}
    (hc : ∀ n, n ≠ e → c n = c' n) (he : e ∉ builtinNames) (hels : e ∉ ls)
    (hcf : ∀ item ∈ conv, loglikeFractionName item ≠ e) :
    spectrumPhase ls conv chem q bounds params pressures rt temp c =
    spectrumPhase ls conv chem q bounds params pressures rt temp c' := by
  have hx : ∀ x, x ∈ builtinNames → c x = c' x :=
    fun x hxb => hc x (fun heq => he (heq ▸ hxb))
  unfold spectrumPhase
  simp only [getP_congr (hx "log_p_quench" (by with_unfolding_all decide)),
    getP_congr (hx "c_o_ratio" (by with_unfolding_all decide)),
    getP_congr (hx "metallicity" (by with_unfolding_all decide)),
    getP_congr (hx "fsed" (by with_unfolding_all decide)),
    getP_congr (hx "kzz" (by with_unfolding_all decide)),
    getP_congr (hx "logg" (by with_unfolding_all decide)),
    getP_congr (hx "sigma_lnorm" (by with_unfolding_all decide)),
    buildCloudFractions_congr conv
      (fun item hi => hc _ (hcf item hi)),
    buildLogXAbundAll_congr ls
      (fun item hi => hc item (fun heq => hels (heq ▸ hi)))]

/-- On the covariance path, `datasetTerm` does not depend on the error
offset (the source computes `err_fit` but only uses it on the diagonal
path — TODO comment at line 903). -/
lemma datasetTerm_cov_eoff {ds : Dataset} {mi : List (List ℚ)}
    (hm : ds.covInv = some mi) (scal e1 e2 wcal : ℚ) (wlen : List ℚ)
    (flux : List Val) :
    datasetTerm scal e1 wcal ds wlen flux =
      datasetTerm scal e2 wcal ds wlen flux := by
  unfold datasetTerm
  rw [hm]

/-- The per-dataset accumulation is unchanged when the `error_` dictionary
changes only at keys whose datasets carry an inverse covariance matrix. -/
lemma foldl_datasetTerm_congr {scaling wavel m m' : List (String × ℚ)}
    {d : String} {wlen : List ℚ} {flux : List Val}
    (hrel : ∀ k, k ≠ d → List.lookup k m = List.lookup k m') :
    ∀ sp : List (String × Dataset),
    (∀ ds2, (d, ds2) ∈ sp → ds2.covInv.isSome) → ∀ acc : Val,
    sp.foldl (fun acc kd => Val.add acc
      (datasetTerm (lookupD scaling kd.1 1) (lookupD m kd.1 (-100))
        (lookupD wavel kd.1 0) kd.2 wlen flux)) acc =
    sp.foldl (fun acc kd => Val.add acc
      (datasetTerm (lookupD scaling kd.1 1) (lookupD m' kd.1 (-100))
        (lookupD wavel kd.1 0) kd.2 wlen flux)) acc := by
  intro sp
  induction sp with
  | nil => exact fun _ _ => rfl
  | cons kd rest ih =>
      intro hcov acc
      obtain ⟨k, ds2⟩ := kd
      have hterm : datasetTerm (lookupD scaling k 1) (lookupD m k (-100))
          (lookupD wavel k 0) ds2 wlen flux =
        datasetTerm (lookupD scaling k 1) (lookupD m' k (-100))
          (lookupD wavel k 0) ds2 wlen flux := by
        by_cases hk : k = d
        · subst hk
          obtain ⟨mi, hmi⟩ := Option.isSome_iff_exists.mp
            (hcov ds2 (List.mem_cons_self _ _))
          exact datasetTerm_cov_eoff hmi _ _ _ _ _ _
        · simp only [lookupD, hrel k hk]
      simp only [List.foldl_cons, hterm]
      exact ih (fun x hx => hcov x (List.mem_cons_of_mem _ hx)) _

/-- C10: for a dataset bundle in which every dataset stored under key `d`
carries an inverse covariance matrix, the likelihood score is independent
of the `error_d` nuisance parameter: two cubes that agree everywhere except
at `error_ ++ d` produce identical `loglike` results (the error-inflation
term is applied only on the diagonal-Gaussian path; on the covariance path
the source computes `err_fit` but never uses it). -/
theorem C10_cov_error_param_irrelevant
    (line_species cloudConv : List String) (chemistry : String)
    (quenching : Bool) (pt_profile : String)
    (spectrum : List (String × Dataset)) (bounds : Bounds)
    (params : List String) (rt : RTObject) (pressures : List ℚ)
    (distance : ℚ) (c c' : Cube) (d : String)
    (hc : ∀ n, n ≠ "error_" ++ d → c n = c' n)
    (he : "error_" ++ d ∉ builtinNames)
    (hels : "error_" ++ d ∉ line_species)
    (hcf : ∀ item ∈ cloudConv, loglikeFractionName item ≠ "error_" ++ d)
    (hcov : ∀ ds2, (d, ds2) ∈ spectrum → ds2.covInv.isSome) :
    loglike line_species cloudConv chemistry quenching pt_profile spectrum
      bounds params rt pressures distance c =
    loglike line_species cloudConv chemistry quenching pt_profile spectrum
      bounds params rt pressures distance c' := by
  have hrad : ("radius" : String) ≠ "error_" ++ d :=
    fun heq => he (heq ▸ (by with_unfolding_all decide :
      ("radius" : String) ∈ builtinNames))
  unfold loglike
  rw [buildNuisanceMap_congr hc spectrum (fun k ds2 _ =>
    @strAppend_ne_of_head "scaling_" "error_" k d 's' 'e'
      (by with_unfolding_all rfl) (by with_unfolding_all rfl)
      (by decide))]
  cases hscal : buildNuisanceMap bounds params 0 "scaling_" 1 c' spectrum with
  | error err =>
      simp only [exceptBind_error]
  | ok scaling =>
      simp only [exceptBind_ok]
      rcases buildNuisanceMap_error_rel hc spectrum with
        ⟨m, m', hm1, hm2, hrel⟩ | ⟨err, h1, h2⟩
      · rw [hm1, hm2]
        simp only [exceptBind_ok]
        rw [buildNuisanceMap_congr hc spectrum (fun k ds2 _ =>
          @strAppend_ne_of_head "wavelength_" "error_" k d 'w' 'e'
            (by with_unfolding_all rfl) (by with_unfolding_all rfl)
            (by decide))]
        cases hwav : buildNuisanceMap bounds params 2 "wavelength_" 0 c'
            spectrum with
        | error err =>
            simp only [exceptBind_error]
        | ok wavel =>
            simp only [exceptBind_ok]
            rw [tempPhase_congr hc he]
            cases htp : tempPhase pt_profile params pressures c' with
            | error err =>
                simp only [exceptBind_error]
            | ok tp =>
                simp only [exceptBind_ok]
                split
                · rfl
                · rw [spectrumPhase_congr hc he hels hcf]
                  cases hso : spectrumPhase line_species cloudConv chemistry
                      quenching bounds params pressures rt tp.1 c' with
                  | error err =>
                      simp only [exceptBind_error]
                  | ok so =>
                      simp only [exceptBind_ok]
                      cases so with
                      | reject => rfl
                      | spec wlen flux =>
                          dsimp only
                          split
                          · rfl
                          · rw [getP_congr (hc "radius" hrad)]
                            cases hr : getP params c' "radius" with
                            | error err =>
                                simp only [exceptBind_error]
                            | ok r =>
                                simp only [exceptBind_ok]
                                rw [foldl_datasetTerm_congr hrel spectrum
                                  hcov]
      · rw [h1, h2]
        simp only [exceptBind_error]

/-- The C10 witness cube. -/
def c10Cube : Cube := fun _ => 1/2

/-- The C10 witness cube perturbed only at the `error_SPHERE` slot. -/
def c10CubeAlt : Cube := fun n => if n = "error_" ++ "SPHERE" then 7 else 1/2

/-- Witness for C10 at the covariance demo dataset: perturbing only the
`error_SPHERE` slot leaves the likelihood unchanged. -/
theorem C10_witness :
    loglike ["H2O"] [] "free" false "monotonic"
      [("SPHERE", covDemoDataset)] [] clearDemoParams rtClearInf
      [1, 2] 10 c10Cube =
    loglike ["H2O"] [] "free" false "monotonic"
      [("SPHERE", covDemoDataset)] [] clearDemoParams rtClearInf
      [1, 2] 10 c10CubeAlt :=
  C10_cov_error_param_irrelevant ["H2O"] [] "free" false "monotonic"
    [("SPHERE", covDemoDataset)] [] clearDemoParams rtClearInf [1, 2] 10
    c10Cube c10CubeAlt "SPHERE"
    (fun n hn => (if_neg hn).symm)
    (by with_unfolding_all decide)
    (by with_unfolding_all decide)
    (fun item h => absurd h (List.not_mem_nil item))
    (by
      intro ds2 h
      have h2 : ds2 = covDemoDataset := by simpa using h
      rw [h2]
      with_unfolding_all rfl)

/-! ## C9 (amended): every valid no-bounds configuration maps the half
cube to the documented default-range midpoints -/

/-- With no explicit bounds, a scalar draw at `u = 1/2` lands on the
midpoint of its default range. -/
lemma dval_nil_half (n : String) (lo hi : ℚ) :
    dval [] n lo hi (1/2) = (lo + hi) / 2 := by
  unfold dval
  rw [show Bounds.scalar ([] : Bounds) n = none from rfl]
  show lo + (hi - lo) * (1/2) = (lo + hi) / 2
  ring

/-- With no explicit bounds, a non-potassium free-chemistry abundance draw
is `-10 u`. -/
lemma freeVal_nil_nk {item : String} (h : item ∉ kVariants) (u : ℚ) :
    freeVal [] item u = -10 * u := by
  unfold freeVal
  rw [show Bounds.scalar ([] : Bounds) item = none from rfl]
  show (if item ∈ kVariants then u else -10 * u) = -10 * u
  rw [if_neg h]

/-- With no bounds, the nuisance blocks of the schema are empty. -/
lemma nuisanceBlock_nil {sn : List String} {i : Nat} {pre : String} :
    nuisanceBlock sn [] i pre = [] := by
  unfold nuisanceBlock
  induction sn with
  | nil => rfl
  | cons a l ih =>
      rw [List.filterMap_cons,
        show Bounds.slot ([] : Bounds) a i = none from rfl]
      simpa using ih

/-- A nonempty cloud block requires a nonempty cloud-species list. -/
lemma cloudBlock_ne_nil {cs : List String} {x : String}
    (h : x ∈ cloudBlock cs) : cs ≠ [] := by
  unfold cloudBlock at h
  split at h
  · rename_i hc
    exact hc
  · exact absurd h (List.not_mem_nil x)

/-- The `Fe(c)_cd` mass fraction is registered only for `Fe(c)_cd`. -/
lemma cloudBlock_fe {cs : List String}
    (hmem : "fe_fraction" ∈ cloudBlock cs) : "Fe(c)_cd" ∈ cs := by
  unfold cloudBlock at hmem
  split at hmem
  · simp only [List.mem_append] at hmem
    rcases hmem with ((((h | h) | h) | h) | h)
    · split at h
      · rename_i hc
        exact hc
      · exact absurd h (List.not_mem_nil _)
    · split at h
      · exact absurd h (by with_unfolding_all decide)
      · exact absurd h (List.not_mem_nil _)
    · split at h
      · exact absurd h (by with_unfolding_all decide)
      · exact absurd h (List.not_mem_nil _)
    · split at h
      · exact absurd h (by with_unfolding_all decide)
      · exact absurd h (List.not_mem_nil _)
    · exact absurd h (by with_unfolding_all decide)
  · exact absurd hmem (List.not_mem_nil _)

/-- The `MgSiO3(c)_cd` mass fraction is registered only for `MgSiO3(c)_cd`. -/
lemma cloudBlock_mg {cs : List String}
    (hmem : "mgsio3_fraction" ∈ cloudBlock cs) : "MgSiO3(c)_cd" ∈ cs := by
  unfold cloudBlock at hmem
  split at hmem
  · simp only [List.mem_append] at hmem
    rcases hmem with ((((h | h) | h) | h) | h)
    · split at h
      · exact absurd h (by with_unfolding_all decide)
      · exact absurd h (List.not_mem_nil _)
    · split at h
      · rename_i hc
        exact hc
      · exact absurd h (List.not_mem_nil _)
    · split at h
      · exact absurd h (by with_unfolding_all decide)
      · exact absurd h (List.not_mem_nil _)
    · split at h
      · exact absurd h (by with_unfolding_all decide)
      · exact absurd h (List.not_mem_nil _)
    · exact absurd h (by with_unfolding_all decide)
  · exact absurd hmem (List.not_mem_nil _)

/-- The `Na2S(c)_cd` mass fraction is registered only for `Na2S(c)_cd`. -/
lemma cloudBlock_na2s {cs : List String}
    (hmem : "na2s_fraction" ∈ cloudBlock cs) : "Na2S(c)_cd" ∈ cs := by
  unfold cloudBlock at hmem
  split at hmem
  · simp only [List.mem_append] at hmem
    rcases hmem with ((((h | h) | h) | h) | h)
    · split at h
      · exact absurd h (by with_unfolding_all decide)
      · exact absurd h (List.not_mem_nil _)
    · split at h
      · exact absurd h (by with_unfolding_all decide)
      · exact absurd h (List.not_mem_nil _)
    · split at h
      · rename_i hc
        exact hc
      · exact absurd h (List.not_mem_nil _)
    · split at h
      · exact absurd h (by with_unfolding_all decide)
      · exact absurd h (List.not_mem_nil _)
    · exact absurd h (by with_unfolding_all decide)
  · exact absurd hmem (List.not_mem_nil _)

/-- The `KCL(c)_cd` mass fraction is registered only for `KCL(c)_cd`. -/
lemma cloudBlock_kcl {cs : List String}
    (hmem : "kcl_fraction" ∈ cloudBlock cs) : "KCL(c)_cd" ∈ cs := by
  unfold cloudBlock at hmem
  split at hmem
  · simp only [List.mem_append] at hmem
    rcases hmem with ((((h | h) | h) | h) | h)
    · split at h
      · exact absurd h (by with_unfolding_all decide)
      · exact absurd h (List.not_mem_nil _)
    · split at h
      · exact absurd h (by with_unfolding_all decide)
      · exact absurd h (List.not_mem_nil _)
    · split at h
      · exact absurd h (by with_unfolding_all decide)
      · exact absurd h (List.not_mem_nil _)
    · split at h
      · rename_i hc
        exact hc
      · exact absurd h (List.not_mem_nil _)
    · exact absurd h (by with_unfolding_all decide)
  · exact absurd hmem (List.not_mem_nil _)

/-- Without quenching, `log_p_quench` is not in the schema. -/
lemma quench_not_mem {sn ls cs : List String} {chem pt : String}
    (hbuilt : ∀ s ∈ ls, s ∉ builtinNames) :
    "log_p_quench" ∉ setParametersList sn ls cs [] chem false pt := by
  intro hmem
  rcases mem_setParametersList_iff.mp hmem with h | h | h | h | h | h | h | h
  · exact absurd h (by with_unfolding_all decide)
  · rcases mem_ptBlock_cases h with h2 | ⟨i, hi, h2⟩
    · exact absurd h2 (by with_unfolding_all decide)
    · exact (tName_ne_fixed i hi).2.2.2.2.1 h2.symm
  · rcases mem_chemBlock_cases h with h2 | h2
    · rcases h2 with h2 | h2 <;> exact absurd h2 (by decide)
    · exact hbuilt _ h2 (by with_unfolding_all decide)
  · exact absurd h (by simp)
  · exact absurd (cloudBlock_sub _ h) (by with_unfolding_all decide)
  · rw [nuisanceBlock_nil] at h
    exact absurd h (List.not_mem_nil _)
  · rw [nuisanceBlock_nil] at h
    exact absurd h (List.not_mem_nil _)
  · rw [nuisanceBlock_nil] at h
    exact absurd h (List.not_mem_nil _)

/-- In a no-bounds schema, a cloud-stage name can only come from the cloud
block. -/
lemma cloudStage_mem_schema {sn ls cs : List String} {chem : String}
    {q : Bool} {pt : String} {n : String}
    (hbuilt : ∀ s ∈ ls, s ∉ builtinNames) (hn : n ∈ cloudStageNames)
    (hmem : n ∈ setParametersList sn ls cs [] chem q pt) :
    n ∈ cloudBlock cs := by
  rcases mem_setParametersList_iff.mp hmem with h | h | h | h | h | h | h | h
  · simp only [List.mem_cons, List.not_mem_nil, or_false] at h
    rcases h with rfl | rfl <;> exact absurd hn (by with_unfolding_all decide)
  · rcases mem_ptBlock_cases h with h2 | ⟨i, hi, rfl⟩
    · simp only [List.mem_cons, List.not_mem_nil, or_false] at h2
      rcases h2 with rfl | rfl | rfl | rfl | rfl | rfl | rfl | rfl <;>
        exact absurd hn (by with_unfolding_all decide)
    · exact absurd hn ((tName_ne_fixed i hi).2.2.2.2.2)
  · rcases mem_chemBlock_cases h with h2 | h2
    · rcases h2 with rfl | rfl <;>
        exact absurd hn (by with_unfolding_all decide)
    · exact absurd (cloudStage_sub_builtin n hn) (hbuilt n h2)
  · split at h
    · simp only [List.mem_cons, List.not_mem_nil, or_false] at h
      subst h
      exact absurd hn (by with_unfolding_all decide)
    · exact absurd h (List.not_mem_nil n)
  · exact h
  · rw [nuisanceBlock_nil] at h
    exact absurd h (List.not_mem_nil n)
  · rw [nuisanceBlock_nil] at h
    exact absurd h (List.not_mem_nil n)
  · rw [nuisanceBlock_nil] at h
    exact absurd h (List.not_mem_nil n)

/-- C9 counterexample: the claim does NOT hold for every configuration
with no explicit bounds.  The valid free-chemistry configuration with the
potassium line species `'K'` and no sodium variant builds its schema, but
feeding the half cube through the Prior Transform raises
(`UnboundLocalError` on `log_x_k_abund`) instead of yielding midpoint
values. -/
theorem C9_counterexample :
    ValidNames ["K"] [] ∧
    set_parameters [] [] ["K"] [] [] "free" false "monotonic" =
      Except.ok kOnlyParams ∧
    prior [] ["K"] (([] : List String).map stripCd) [] "free" false
        "monotonic" kOnlyParams (fun _ => 1/2) =
      Except.error (PErr.nameError "log_x_k_abund") :=
  ⟨by with_unfolding_all decide, by with_unfolding_all rfl,
   by with_unfolding_all rfl⟩

set_option maxHeartbeats 1600000 in
/-- C9 (amended): for EVERY valid configuration with no explicit bounds —
provided that, under free chemistry, a configured potassium variant is
accompanied by a sodium variant (otherwise the Prior Transform raises; see
the counterexample) — feeding the half cube `u = 1/2` through the Prior
Transform succeeds and yields, for every schema parameter with a
documented default range (`specDefaultRange`), the midpoint of that range;
in particular `logg = 15/4` (3.75 dex) and `radius = 7/5` (1.4 Jupiter
radii). -/
theorem C9_half_cube_midpoints (sn ls cs : List String) (chem : String)
    (q : Bool) (pt : String) (params : List String)
    (hv : ValidNames ls sn)
    (hcs : ∀ s ∈ cs, s ∈ recognizedClouds)
    (hp : set_parameters [] sn ls cs [] chem q pt = Except.ok params)
    (hkna : chem = "free" →
      ("K" ∈ ls ∨ "K_lor_cut" ∈ ls ∨ "K_burrows" ∈ ls) →
      ("Na" ∈ ls ∨ "Na_lor_cut" ∈ ls ∨ "Na_burrows" ∈ ls)) :
    ∃ c2, prior sn ls (cs.map stripCd) [] chem q pt params
        (fun _ => 1/2) = Except.ok c2 ∧
      (∀ n ∈ params, ∀ lo hi,
        specDefaultRange pt chem ls n = some (lo, hi) →
        c2 n = (lo + hi) / 2) ∧
      c2 "logg" = 15/4 ∧ c2 "radius" = 7/5 := by
  obtain ⟨hndls, hndsn, hbuilt, hnui, hpre⟩ := hv
  have hparams : params = setParametersList sn ls cs [] chem q pt := by
    unfold set_parameters at hp
    split at hp
    · exact Except.noConfusion hp
    · rw [Except.ok.injEq] at hp
      rw [← hp]
      simp
  have hlogg : "logg" ∈ params := by
    rw [hparams, mem_setParametersList_iff]
    left
    simp
  have hrad : "radius" ∈ params := by
    rw [hparams, mem_setParametersList_iff]
    left
    simp
  have hptm : ∀ nm : String, nm ∈ ptBlock pt → nm ∈ params := by
    intro nm h
    rw [hparams, mem_setParametersList_iff]
    exact Or.inr (Or.inl h)
  have hmol : pt = "molliere" → "tint" ∈ params ∧ "t3" ∈ params ∧
      "t2" ∈ params ∧ "t1" ∈ params ∧ "alpha" ∈ params ∧
      "log_delta" ∈ params := by
    intro hpt
    subst hpt
    refine ⟨?_, ?_, ?_, ?_, ?_, ?_⟩ <;> exact hptm _ (by simp [ptBlock])
  have hknots : pt = "free" ∨ pt = "monotonic" →
      ∀ i, i < 15 → tName i ∈ params := by
    intro hpt i hi
    apply hptm
    unfold ptBlock
    rcases hpt with hpt | hpt <;> subst hpt
    · simp only [reduceIte]
      refine List.mem_append_left _ (List.mem_map.mpr ⟨i, ?_, rfl⟩)
      simpa using hi
    · simp only [reduceIte]
      refine List.mem_append_left _ (List.mem_map.mpr ⟨i, ?_, rfl⟩)
      simpa using hi
  have hfr : pt = "free" → "beta_r" ∈ params ∧ "gamma_r" ∈ params := by
    intro hpt
    subst hpt
    constructor <;> apply hptm <;> simp [ptBlock]
  have hqm : q = true → "log_p_quench" ∈ params := by
    intro hq
    rw [hparams, mem_setParametersList_iff]
    subst hq
    exact Or.inr (Or.inr (Or.inr (Or.inl (by simp))))
  have hchm : ∀ nm : String, nm ∈ chemBlock chem ls → nm ∈ params := by
    intro nm h
    rw [hparams, mem_setParametersList_iff]
    exact Or.inr (Or.inr (Or.inl h))
  have hmetm : chem = "equilibrium" → "metallicity" ∈ params := by
    intro hch
    subst hch
    exact hchm _ (by simp [chemBlock])
  have hcom : chem = "equilibrium" → "c_o_ratio" ∈ params := by
    intro hch
    subst hch
    exact hchm _ (by simp [chemBlock])
  have hlsm : chem = "free" → ∀ item ∈ ls, item ∈ params := by
    intro hch item hit
    subst hch
    exact hchm _ (by simp [chemBlock, hit])
  have hcbm : ∀ nm : String, nm ∈ cloudBlock cs → nm ∈ params := by
    intro nm h
    rw [hparams, mem_setParametersList_iff]
    exact Or.inr (Or.inr (Or.inr (Or.inr (Or.inl h))))
  have hcases : ∀ s ∈ cs, s = "Fe(c)_cd" ∨ s = "MgSiO3(c)_cd" ∨
      s = "Na2S(c)_cd" ∨ s = "KCL(c)_cd" := by
    intro s hs
    have := hcs s hs
    simpa [recognizedClouds] using this
  have hconvFe : "Fe(c)" ∈ cs.map stripCd → "Fe(c)_cd" ∈ cs := by
    intro h
    obtain ⟨s, hs, hsx⟩ := List.mem_map.mp h
    rcases hcases s hs with rfl | rfl | rfl | rfl
    · exact hs
    all_goals exact absurd hsx (by with_unfolding_all decide)
  have hconvMg : "MgSiO3(c)" ∈ cs.map stripCd → "MgSiO3(c)_cd" ∈ cs := by
    intro h
    obtain ⟨s, hs, hsx⟩ := List.mem_map.mp h
    rcases hcases s hs with rfl | rfl | rfl | rfl
    · exact absurd hsx (by with_unfolding_all decide)
    · exact hs
    all_goals exact absurd hsx (by with_unfolding_all decide)
  have hconvNa : "Na2S(c)" ∈ cs.map stripCd → "Na2S(c)_cd" ∈ cs := by
    intro h
    obtain ⟨s, hs, hsx⟩ := List.mem_map.mp h
    rcases hcases s hs with rfl | rfl | rfl | rfl
    · exact absurd hsx (by with_unfolding_all decide)
    · exact absurd hsx (by with_unfolding_all decide)
    · exact hs
    · exact absurd hsx (by with_unfolding_all decide)
  have hconvKc : "KCL(c)" ∈ cs.map stripCd → "KCL(c)_cd" ∈ cs := by
    intro h
    obtain ⟨s, hs, hsx⟩ := List.mem_map.mp h
    rcases hcases s hs with rfl | rfl | rfl | rfl
    · exact absurd hsx (by with_unfolding_all decide)
    · exact absurd hsx (by with_unfolding_all decide)
    · exact absurd hsx (by with_unfolding_all decide)
    · exact hs
  -- the half-cube run, stage by stage
  obtain ⟨⟨cA, vA⟩, hA⟩ : ∃ p,
      drawScalar params [] (fun _ => (1 : ℚ)/2) "logg" 2 (11/2) =
        Except.ok p := ⟨_, drawScalar_ok hlogg⟩
  obtain ⟨⟨cB, vB⟩, hB⟩ : ∃ p,
      drawScalar params [] cA "radius" (4/5) 2 = Except.ok p :=
    ⟨_, drawScalar_ok hrad⟩
  have hcB : ∀ m, m ≠ "logg" → m ≠ "radius" → cB m = 1/2 := by
    intro m h1 h2
    rw [(drawScalar_inv hB).2.2 m h2, (drawScalar_inv hA).2.2 m h1]
  have hcBlogg : cB "logg" = 15/4 := by
    rw [(drawScalar_inv hB).2.2 _ (by decide), (drawScalar_inv hA).1]
    show dval [] "logg" 2 (11/2) (1/2) = 15/4
    rw [dval_nil_half]
    norm_num
  have hcBrad : cB "radius" = 7/5 := by
    rw [(drawScalar_inv hB).1,
      (drawScalar_inv hA).2.2 "radius" (by decide)]
    show dval [] "radius" (4/5) 2 (1/2) = 7/5
    rw [dval_nil_half]
    norm_num
  obtain ⟨cP, hP, hPmol, hPknots, hPt14⟩ :
      ∃ cP, priorPt pt params [] cB = Except.ok cP ∧
        (pt = "molliere" → cP "tint" = 1750 ∧ cP "alpha" = 3/2) ∧
        (pt = "free" → ∀ i, i < 15 → cP (tName i) = 4000) ∧
        (pt = "monotonic" → cP (tName 14) = 5000) := by
    by_cases hm : pt = "molliere"
    · subst hm
      obtain ⟨h1, h2, h3, h4, h5, h6⟩ := hmol rfl
      obtain ⟨cP, hP0⟩ : ∃ c2, priorMolliere params [] cB = Except.ok c2 :=
        priorMolliere_isOk h1 h2 h3 h4 h5 h6
      have hinv := priorMolliere_inv hP0
      refine ⟨cP, ?_, fun _ => ⟨?_, ?_⟩, fun h => absurd h (by decide),
        fun h => absurd h (by decide)⟩
      · unfold priorPt
        rw [if_pos rfl]
        exact hP0
      · rw [hinv.1, hcB "tint" (by decide) (by decide), dval_nil_half]
        norm_num
      · rw [hinv.2, hcB "alpha" (by decide) (by decide), dval_nil_half]
        norm_num
    · by_cases hfp : pt = "free"
      · subst hfp
        obtain ⟨hbr, hgr⟩ := hfr rfl
        obtain ⟨cP, hP0⟩ : ∃ c2, priorFree params cB = Except.ok c2 :=
          priorFree_isOk (hknots (Or.inl rfl)) hbr hgr
        have hinv := priorFree_inv hP0
        refine ⟨cP, ?_, fun h => absurd h (by decide), fun _ i hi => ?_,
          fun h => absurd h (by decide)⟩
        · unfold priorPt
          rw [if_neg (by decide), if_pos rfl]
          exact hP0
        · rw [hinv.1 i hi,
            hcB _ (tName_ne_fixed i hi).1 (tName_ne_fixed i hi).2.1]
          norm_num
      · by_cases hmn : pt = "monotonic"
        · subst hmn
          obtain ⟨cP, hP0⟩ :
              ∃ c2, priorMonotonic params cB = Except.ok c2 :=
            priorMonotonic_isOk (hknots (Or.inr rfl))
          have hspec := priorMonotonic_spec hP0
          refine ⟨cP, ?_, fun h => absurd h (by decide),
            fun h => absurd h (by decide), fun _ => ?_⟩
          · unfold priorPt
            rw [if_neg (by decide), if_neg (by decide), if_pos rfl]
            exact hP0
          · rw [hspec.1,
              hcB _ (tName_ne_fixed 14 (by norm_num)).1
                (tName_ne_fixed 14 (by norm_num)).2.1]
            norm_num
        · refine ⟨cB, ?_, fun h => absurd h hm, fun h => absurd h hfp,
            fun h => absurd h hmn⟩
          unfold priorPt
          rw [if_neg hm, if_neg hfp, if_neg hmn]
          rfl
  have hPframe := priorPt_frame hP
  have hlsP : ∀ item ∈ ls, cP item = 1/2 := by
    intro item hit
    have hnb := hbuilt item hit
    have h1 : item ≠ "logg" := fun he => hnb (by rw [he]; decide)
    have h2 : item ≠ "radius" := fun he => hnb (by rw [he]; decide)
    rw [hPframe item
        (fun i hi => fun he => hnb
          (by rw [he]; exact tName_notin_builtin_iff i hi))
        (fun hmem => hnb (ptFixed_sub_builtin item hmem)),
      hcB item h1 h2]
  have hPmet : cP "metallicity" = 1/2 := by
    rw [hPframe _ (fun i hi => ((tName_ne_fixed i hi).2.2.1).symm)
        (by decide),
      hcB _ (by decide) (by decide)]
  have hPco : cP "c_o_ratio" = 1/2 := by
    rw [hPframe _ (fun i hi => ((tName_ne_fixed i hi).2.2.2.1).symm)
        (by decide),
      hcB _ (by decide) (by decide)]
  obtain ⟨cC, hC, hCmet, hCco, hCabund, hCframe⟩ :
      ∃ cC, priorChem chem ls params [] cP = Except.ok cC ∧
        (chem = "equilibrium" → cC "metallicity" = 0) ∧
        (chem = "equilibrium" → cC "c_o_ratio" = 17/20) ∧
        (chem = "free" → ∀ item ∈ ls, item ∉ kVariants → cC item = -5) ∧
        (∀ m, m ∉ ls → m ≠ "metallicity" → m ≠ "c_o_ratio" →
          cC m = cP m) := by
    by_cases hce : chem = "equilibrium"
    · subst hce
      obtain ⟨cC, hC0, hv1, hv2⟩ :
          ∃ c2, priorChem "equilibrium" [] params [] cP = Except.ok c2 ∧
            c2 "metallicity" = dval [] "metallicity" (-3/2) (3/2)
              (cP "metallicity") ∧
            c2 "c_o_ratio" = dval [] "c_o_ratio" (1/10) (16/10)
              (cP "c_o_ratio") :=
        priorChem_eq_isOk (hmetm rfl) (hcom rfl)
      have hCe : priorChem "equilibrium" ls params ([] : Bounds) cP =
          priorChem "equilibrium" [] params [] cP := by
        with_unfolding_all rfl
      refine ⟨cC, ?_, fun _ => ?_, fun _ => ?_,
        fun h => absurd h (by decide), fun m hm h1 h2 =>
          priorChem_frame hC0 m (List.not_mem_nil m) h1 h2⟩
      · rw [hCe]
        exact hC0
      · rw [hv1, hPmet, dval_nil_half]
        norm_num
      · rw [hv2, hPco, dval_nil_half]
        norm_num
    · by_cases hcf : chem = "free"
      · subst hcf
        by_cases hkv : ("K" ∈ ls ∨ "K_lor_cut" ∈ ls ∨ "K_burrows" ∈ ls)
        · obtain ⟨cC, hC0, hCfr, hCval, hK1, hK2, hK3⟩ :=
            @priorFreeChem_spec ls params [] cP hndls (hlsm rfl)
              (hkna rfl hkv)
          refine ⟨cC, ?_, fun h => absurd h (by decide),
            fun h => absurd h (by decide), fun _ item hit hk => ?_,
            fun m hm h1 h2 => hCfr m hm⟩
          · rw [priorChem_free]
            exact hC0
          · rw [hCval item hit hk, freeVal_nil_nk hk, hlsP item hit]
            norm_num
        · have hx1 : "K" ∉ ls := fun h => hkv (Or.inl h)
          have hx2 : "K_lor_cut" ∉ ls := fun h => hkv (Or.inr (Or.inl h))
          have hx3 : "K_burrows" ∉ ls := fun h => hkv (Or.inr (Or.inr h))
          obtain ⟨ca, hok, hframe, hval⟩ :
              ∃ c2, freeAbundLoop params [] ls cP [] =
                  Except.ok (c2, [] ++ freeDict [] ls cP) ∧
                (∀ m, m ∉ ls → c2 m = cP m) ∧
                (∀ item ∈ ls, c2 item = freeVal [] item (cP item)) :=
            freeAbundLoop_spec ls cP [] hndls (hlsm rfl)
          refine ⟨ca, ?_, fun h => absurd h (by decide),
            fun h => absurd h (by decide), fun _ item hit hk => ?_,
            fun m hm h1 h2 => hframe m hm⟩
          · rw [priorChem_free]
            unfold priorFreeChem
            rw [hok, exceptBind_ok]
            dsimp only
            rw [if_neg hx1, if_neg hx2, if_neg hx3]
          · rw [hval item hit, freeVal_nil_nk hk, hlsP item hit]
            norm_num
      · refine ⟨cP, ?_, fun h => absurd h hce, fun h => absurd h hce,
          fun h => absurd h hcf, fun m _ _ _ => rfl⟩
        unfold priorChem
        rw [if_neg hce, if_neg hcf]
        rfl
  obtain ⟨cQ, hQ, hQval, hQframe⟩ :
      ∃ cQ, priorQuench q params [] cC = Except.ok cQ ∧
        (q = true → cQ "log_p_quench" = -3/2) ∧
        (∀ m, m ≠ "log_p_quench" → cQ m = cC m) := by
    have hCq : cC "log_p_quench" = 1/2 := by
      rw [hCframe _
          (fun hmem => hbuilt _ hmem (by with_unfolding_all decide))
          (by decide) (by decide),
        hPframe _ (fun i hi => ((tName_ne_fixed i hi).2.2.2.2.1).symm)
          (by decide),
        hcB _ (by decide) (by decide)]
    cases q with
    | false =>
        exact ⟨cC, rfl, fun h => absurd h (by decide), fun m _ => rfl⟩
    | true =>
        obtain ⟨cQ, hQ0⟩ : ∃ c2, priorQuench true params [] cC =
            Except.ok c2 := priorQuench_isOk (fun _ => hqm rfl)
        refine ⟨cQ, hQ0, fun _ => ?_, priorQuench_frame hQ0⟩
        rw [priorQuench_inv hQ0 rfl, hCq, dval_nil_half]
        norm_num
  have hdisj8 : ∀ x ∈ cloudStageNames, x ∉ (["tint", "t3", "t2", "t1",
      "alpha", "log_delta", "beta_r", "gamma_r"] : List String) := by
    with_unfolding_all decide
  have hq2 : ∀ x ∈ cloudStageNames, x ≠ "log_p_quench" ∧
      x ≠ "metallicity" ∧ x ≠ "c_o_ratio" ∧ x ≠ "logg" ∧
      x ≠ "radius" := by
    with_unfolding_all decide
  have hQstage : ∀ m ∈ cloudStageNames, cQ m = 1/2 := by
    intro m hm
    obtain ⟨e1, e2, e3, e4, e5⟩ := hq2 m hm
    rw [hQframe m e1,
      hCframe m (fun hmem => hbuilt m hmem (cloudStage_sub_builtin m hm))
        e2 e3,
      hPframe m
        (fun i hi => fun heq => (tName_ne_fixed i hi).2.2.2.2.2
          (heq ▸ hm))
        (hdisj8 m hm),
      hcB m e4 e5]
  obtain ⟨cN, hN, hNstage, hNfe, hNmg, hNna, hNkc, hNframe⟩ :
      ∃ cN, priorClouds (cs.map stripCd) params [] cQ = Except.ok cN ∧
        (cs ≠ [] → cN "fsed" = 5 ∧ cN "kzz" = 9 ∧
          cN "sigma_lnorm" = 81/40) ∧
        ("Fe(c)" ∈ cs.map stripCd → cN "fe_fraction" = log10_005 / 2) ∧
        ("MgSiO3(c)" ∈ cs.map stripCd →
          cN "mgsio3_fraction" = log10_005 / 2) ∧
        ("Na2S(c)" ∈ cs.map stripCd →
          cN "na2s_fraction" = log10_005 / 2) ∧
        ("KCL(c)" ∈ cs.map stripCd → cN "kcl_fraction" = log10_005 / 2) ∧
        (∀ m, m ∉ cloudStageNames → cN m = cQ m) := by
    by_cases hcse : cs = []
    · subst hcse
      refine ⟨cQ, priorClouds_nil, fun h => absurd rfl h,
        fun h => absurd h (by simp), fun h => absurd h (by simp),
        fun h => absurd h (by simp), fun h => absurd h (by simp),
        fun m _ => rfl⟩
    · have hneConv : cs.map stripCd ≠ [] := by simpa using hcse
      obtain ⟨cN, hok, hfeE, hmgE, hnaE, hkcE⟩ := priorClouds_spec
        (cs.map stripCd) params [] hneConv
        (fun h => hcbm _ (by simp [cloudBlock, hcse, hconvFe h]))
        (fun h => hcbm _ (by simp [cloudBlock, hcse, hconvMg h]))
        (fun h => hcbm _ (by simp [cloudBlock, hcse, hconvNa h]))
        (fun h => hcbm _ (by simp [cloudBlock, hcse, hconvKc h]))
        (hcbm _ (by simp [cloudBlock, hcse]))
        (hcbm _ (by simp [cloudBlock, hcse]))
        (hcbm _ (by simp [cloudBlock, hcse]))
        cQ
      have hinv := priorClouds_inv hok hneConv
      refine ⟨cN, hok, fun _ => ⟨?_, ?_, ?_⟩, fun h => ?_, fun h => ?_,
        fun h => ?_, fun h => ?_, priorClouds_frame hok⟩
      · rw [hinv.1, hQstage "fsed" (by with_unfolding_all decide),
          dval_nil_half]
        norm_num
      · rw [hinv.2.1, hQstage "kzz" (by with_unfolding_all decide),
          dval_nil_half]
        norm_num
      · rw [hinv.2.2, hQstage "sigma_lnorm" (by with_unfolding_all decide),
          dval_nil_half]
        norm_num
      · rw [hfeE h, hQstage "fe_fraction" (by with_unfolding_all decide)]
        ring
      · rw [hmgE h, hQstage "mgsio3_fraction"
          (by with_unfolding_all decide)]
        ring
      · rw [hnaE h, hQstage "na2s_fraction"
          (by with_unfolding_all decide)]
        ring
      · rw [hkcE h, hQstage "kcl_fraction"
          (by with_unfolding_all decide)]
        ring
  have hkeepPt : ∀ m, m ∉ cloudStageNames → m ≠ "log_p_quench" →
      m ∉ ls → m ≠ "metallicity" → m ≠ "c_o_ratio" → cN m = cP m := by
    intro m m1 m2 m3 m4 m5
    rw [hNframe m m1, hQframe m m2, hCframe m m3 m4 m5]
  have hNlogg : cN "logg" = 15/4 := by
    rw [hkeepPt "logg" (by with_unfolding_all decide) (by decide)
        (fun hmem => hbuilt _ hmem (by with_unfolding_all decide))
        (by decide) (by decide),
      hPframe "logg" (fun i hi => ((tName_ne_fixed i hi).1).symm)
        (by decide),
      hcBlogg]
  have hNrad : cN "radius" = 7/5 := by
    rw [hkeepPt "radius" (by with_unfolding_all decide) (by decide)
        (fun hmem => hbuilt _ hmem (by with_unfolding_all decide))
        (by decide) (by decide),
      hPframe "radius" (fun i hi => ((tName_ne_fixed i hi).2.1).symm)
        (by decide),
      hcBrad]
  refine ⟨cN, ?_, ?_, hNlogg, hNrad⟩
  · unfold prior
    rw [hA, exceptBind_ok]
    dsimp only
    rw [hB, exceptBind_ok]
    dsimp only
    rw [hP, exceptBind_ok, hC, exceptBind_ok, hQ, exceptBind_ok, hN,
      exceptBind_ok, priorNuisanceLoop_nilBounds, exceptBind_ok,
      priorNuisanceLoop_nilBounds, exceptBind_ok,
      priorNuisanceLoop_nilBounds, exceptBind_ok]
    rfl
  · intro n hn lo hi htab
    rw [hparams] at hn
    unfold specDefaultRange at htab
    by_cases h1 : n = "logg"
    · rw [if_pos h1] at htab
      subst h1
      rw [Option.some.injEq, Prod.mk.injEq] at htab
      obtain ⟨hl, hh⟩ := htab
      subst hl
      subst hh
      rw [hNlogg]
      norm_num
    rw [if_neg h1] at htab
    by_cases h2 : n = "radius"
    · rw [if_pos h2] at htab
      subst h2
      rw [Option.some.injEq, Prod.mk.injEq] at htab
      obtain ⟨hl, hh⟩ := htab
      subst hl
      subst hh
      rw [hNrad]
      norm_num
    rw [if_neg h2] at htab
    by_cases h3 : pt = "molliere" ∧ n = "tint"
    · rw [if_pos h3] at htab
      obtain ⟨hpt, rfl⟩ := h3
      rw [Option.some.injEq, Prod.mk.injEq] at htab
      obtain ⟨hl, hh⟩ := htab
      subst hl
      subst hh
      rw [hkeepPt "tint" (by with_unfolding_all decide) (by decide)
          (fun hmem => hbuilt _ hmem (by with_unfolding_all decide))
          (by decide) (by decide),
        (hPmol hpt).1]
      norm_num
    rw [if_neg h3] at htab
    by_cases h4 : pt = "molliere" ∧ n = "alpha"
    · rw [if_pos h4] at htab
      obtain ⟨hpt, rfl⟩ := h4
      rw [Option.some.injEq, Prod.mk.injEq] at htab
      obtain ⟨hl, hh⟩ := htab
      subst hl
      subst hh
      rw [hkeepPt "alpha" (by with_unfolding_all decide) (by decide)
          (fun hmem => hbuilt _ hmem (by with_unfolding_all decide))
          (by decide) (by decide),
        (hPmol hpt).2]
      norm_num
    rw [if_neg h4] at htab
    by_cases h5 : pt = "free" ∧ n ∈ (List.range 15).map tName
    · rw [if_pos h5] at htab
      obtain ⟨hpt, hmem⟩ := h5
      obtain ⟨i, hir, rfl⟩ := List.mem_map.mp hmem
      have hi : i < 15 := List.mem_range.mp hir
      rw [Option.some.injEq, Prod.mk.injEq] at htab
      obtain ⟨hl, hh⟩ := htab
      subst hl
      subst hh
      rw [hkeepPt (tName i) ((tName_ne_fixed i hi).2.2.2.2.2)
          ((tName_ne_fixed i hi).2.2.2.2.1)
          (fun hm2 => hbuilt _ hm2 (tName_notin_builtin_iff i hi))
          ((tName_ne_fixed i hi).2.2.1)
          ((tName_ne_fixed i hi).2.2.2.1),
        hPknots hpt i hi]
      norm_num
    rw [if_neg h5] at htab
    by_cases h6 : pt = "monotonic" ∧ n = tName 14
    · rw [if_pos h6] at htab
      obtain ⟨hpt, rfl⟩ := h6
      rw [Option.some.injEq, Prod.mk.injEq] at htab
      obtain ⟨hl, hh⟩ := htab
      subst hl
      subst hh
      rw [hkeepPt (tName 14)
          ((tName_ne_fixed 14 (by norm_num)).2.2.2.2.2)
          ((tName_ne_fixed 14 (by norm_num)).2.2.2.2.1)
          (fun hm2 => hbuilt _ hm2
            (tName_notin_builtin_iff 14 (by norm_num)))
          ((tName_ne_fixed 14 (by norm_num)).2.2.1)
          ((tName_ne_fixed 14 (by norm_num)).2.2.2.1),
        hPt14 hpt]
      norm_num
    rw [if_neg h6] at htab
    by_cases h7 : chem = "equilibrium" ∧ n = "metallicity"
    · rw [if_pos h7] at htab
      obtain ⟨hch, rfl⟩ := h7
      rw [Option.some.injEq, Prod.mk.injEq] at htab
      obtain ⟨hl, hh⟩ := htab
      subst hl
      subst hh
      rw [hNframe _ (by with_unfolding_all decide),
        hQframe _ (by decide), hCmet hch]
      norm_num
    rw [if_neg h7] at htab
    by_cases h8 : chem = "equilibrium" ∧ n = "c_o_ratio"
    · rw [if_pos h8] at htab
      obtain ⟨hch, rfl⟩ := h8
      rw [Option.some.injEq, Prod.mk.injEq] at htab
      obtain ⟨hl, hh⟩ := htab
      subst hl
      subst hh
      rw [hNframe _ (by with_unfolding_all decide),
        hQframe _ (by decide), hCco hch]
      norm_num
    rw [if_neg h8] at htab
    by_cases h9 : chem = "free" ∧ n ∈ ls ∧ n ∉ kVariants
    · rw [if_pos h9] at htab
      obtain ⟨hch, hmem, hkv⟩ := h9
      rw [Option.some.injEq, Prod.mk.injEq] at htab
      obtain ⟨hl, hh⟩ := htab
      subst hl
      subst hh
      rw [hNframe _ (fun hcs2 => hbuilt n hmem
            (cloudStage_sub_builtin n hcs2)),
        hQframe _ (fun heq => hbuilt n hmem
          (by rw [heq]; with_unfolding_all decide)),
        hCabund hch n hmem hkv]
      norm_num
    rw [if_neg h9] at htab
    by_cases h10 : n = "log_p_quench"
    · rw [if_pos h10] at htab
      subst h10
      rw [Option.some.injEq, Prod.mk.injEq] at htab
      obtain ⟨hl, hh⟩ := htab
      subst hl
      subst hh
      cases q with
      | false => exact absurd hn (quench_not_mem hbuilt)
      | true =>
          rw [hNframe _ (by with_unfolding_all decide), hQval rfl]
          norm_num
    rw [if_neg h10] at htab
    by_cases h11 : n ∈ (["fe_fraction", "mgsio3_fraction",
        "na2s_fraction", "kcl_fraction"] : List String)
    · rw [if_pos h11] at htab
      simp only [List.mem_cons, List.not_mem_nil, or_false] at h11
      rw [Option.some.injEq, Prod.mk.injEq] at htab
      obtain ⟨hl, hh⟩ := htab
      subst hl
      subst hh
      rcases h11 with rfl | rfl | rfl | rfl
      · rw [hNfe (List.mem_map.mpr ⟨"Fe(c)_cd",
          cloudBlock_fe (cloudStage_mem_schema hbuilt
            (by with_unfolding_all decide) hn),
          by with_unfolding_all decide⟩)]
        ring
      · rw [hNmg (List.mem_map.mpr ⟨"MgSiO3(c)_cd",
          cloudBlock_mg (cloudStage_mem_schema hbuilt
            (by with_unfolding_all decide) hn),
          by with_unfolding_all decide⟩)]
        ring
      · rw [hNna (List.mem_map.mpr ⟨"Na2S(c)_cd",
          cloudBlock_na2s (cloudStage_mem_schema hbuilt
            (by with_unfolding_all decide) hn),
          by with_unfolding_all decide⟩)]
        ring
      · rw [hNkc (List.mem_map.mpr ⟨"KCL(c)_cd",
          cloudBlock_kcl (cloudStage_mem_schema hbuilt
            (by with_unfolding_all decide) hn),
          by with_unfolding_all decide⟩)]
        ring
    rw [if_neg h11] at htab
    by_cases h12 : n = "fsed"
    · rw [if_pos h12] at htab
      subst h12
      rw [Option.some.injEq, Prod.mk.injEq] at htab
      obtain ⟨hl, hh⟩ := htab
      subst hl
      subst hh
      rw [(hNstage (cloudBlock_ne_nil (cloudStage_mem_schema hbuilt
        (by with_unfolding_all decide) hn))).1]
      norm_num
    rw [if_neg h12] at htab
    by_cases h13 : n = "kzz"
    · rw [if_pos h13] at htab
      subst h13
      rw [Option.some.injEq, Prod.mk.injEq] at htab
      obtain ⟨hl, hh⟩ := htab
      subst hl
      subst hh
      rw [(hNstage (cloudBlock_ne_nil (cloudStage_mem_schema hbuilt
        (by with_unfolding_all decide) hn))).2.1]
      norm_num
    rw [if_neg h13] at htab
    by_cases h14 : n = "sigma_lnorm"
    · rw [if_pos h14] at htab
      subst h14
      rw [Option.some.injEq, Prod.mk.injEq] at htab
      obtain ⟨hl, hh⟩ := htab
      subst hl
      subst hh
      rw [(hNstage (cloudBlock_ne_nil (cloudStage_mem_schema hbuilt
        (by with_unfolding_all decide) hn))).2.2]
      norm_num
    rw [if_neg h14] at htab
    exact Option.noConfusion htab

/-- Witness for C9 (amended): the cloudy equilibrium `molliere`
configuration with quenching and no explicit bounds satisfies the
hypotheses, and the theorem yields the successful half-cube run landing
every documented-range parameter on its midpoint. -/
theorem C9_witness :
    ValidNames [] [] ∧
    (∀ s ∈ (["Fe(c)_cd"] : List String), s ∈ recognizedClouds) ∧
    set_parameters [] [] [] ["Fe(c)_cd"] [] "equilibrium" true "molliere" =
      Except.ok c9ParamsA ∧
    (∃ c2, prior [] [] ((["Fe(c)_cd"] : List String).map stripCd) []
        "equilibrium" true "molliere" c9ParamsA (fun _ => 1/2) =
        Except.ok c2 ∧
      (∀ n ∈ c9ParamsA, ∀ lo hi,
        specDefaultRange "molliere" "equilibrium" [] n = some (lo, hi) →
        c2 n = (lo + hi) / 2) ∧
      c2 "logg" = 15/4 ∧ c2 "radius" = 7/5) :=
  ⟨by with_unfolding_all decide, by with_unfolding_all decide,
   by with_unfolding_all rfl,
   C9_half_cube_midpoints [] [] ["Fe(c)_cd"] "equilibrium" true "molliere"
     c9ParamsA (by with_unfolding_all decide) (by with_unfolding_all decide)
     (by with_unfolding_all rfl) (fun h => absurd h (by decide))⟩
